import Mathlib

/-!
# gomps5 solitaire engine: a shallow embedding of package `sol`

The Go sources embedded here are `sol/v_easy.go` (the Easy variant script),
`sol/p_reserve.go` (the Reserve pile behaviour), `sol/baize.go` (the board
controller) and the parts of `sol/card.go` the board controller reads.

Conventions of the embedding

* A Go `error` is an `Option String`: `nil` is `none`, `errors.New(s)` is `some s`.
* A Go pointer to a pile is the index of the pile in `Baize.piles`; a nil pointer
  is `none`.  Cards are stored by value in the pile that holds them, and carry the
  index of their owner.
* A run-time panic (index out of range, nil dereference) is the result `none` of
  a function returning `Option`.
* Debug output (`println`, `Print`) and pure rendering calls (cursor mode, pile
  runes) are dropped; calls to the UI, sound and statistics collaborators and to
  the script hook are recorded in `Baize.events`.
* A finite Go `float64` is the rational it stands for; every float64 operation
  rounds its exact result to 53 significant bits, to nearest with ties to even
  (`Float64.round`).
-/

namespace Sol

/-- Go `error`: `none` is nil, `some s` is `errors.New(s)`. -/
abbrev GoError := Option String

/-- Go `image.Point`. -/
structure Point where
  X : Int
  Y : Int
deriving DecidableEq, Repr

/-- Go `image.Rectangle`: `Min` inclusive, `Max` exclusive. -/
structure Rectangle where
  Min : Point
  Max : Point
deriving DecidableEq, Repr

/-- The dynamic type of a pile (`*Stock`, `*Waste`, ...), the subject of the type
switches in `v_easy.go` and `baize.go`. -/
inductive PileKind where
  | Stock
  | Waste
  | Foundation
  | Tableau
  | Reserve
  | Discard
  | Cell
deriving DecidableEq, Repr

/-- The fan types named in the sources (`FAN_NONE`, `FAN_DOWN`, `FAN_LEFT`, ...). -/
inductive FanType where
  | FAN_NONE
  | FAN_DOWN
  | FAN_LEFT
  | FAN_RIGHT
  | FAN_LEFT3
  | FAN_RIGHT3
deriving DecidableEq, Repr

/-- The fields of `Card` (card.go) that the engine logic reads: the identity
(pack, suit, ordinal, packed in `ID`), the prone flag carried by `ID`, the owner
back-reference, the baize position and the drag origin. -/
structure Card where
  pack : Nat
  suit : Nat
  ordinal : Nat
  prone : Bool
  owner : Option Nat
  pos : Point
  dragStart : Point
  beingDragged : Bool
deriving DecidableEq, Repr

/-- Go `Card.Owner` (card.go). -/
def Card.Owner (c : Card) : Option Nat := c.owner

/-- Go `Card.SetOwner` (card.go). -/
def Card.SetOwner (c : Card) (p : Option Nat) : Card := { c with owner := p }

/-- Modelled from the spec: `Card.Ordinal` reads the ordinal (1..13) out of the card
identity; `CardID` is not among the sources. -/
def Card.Ordinal (c : Card) : Nat := c.ordinal

/-- Modelled from the spec: `Card.Suit` reads the suit out of the card identity;
`CardID` is not among the sources. -/
def Card.Suit (c : Card) : Nat := c.suit

/-- Modelled from the spec: `Card.Prone` reads the orientation (true is face
down); `CardID` is not among the sources. -/
def Card.Prone (c : Card) : Bool := c.prone

/-- Go `NewCard` (card.go): a fresh card is face down, has no owner and lies at the
origin. -/
def NewCard (pack suit ordinal : Nat) : Card :=
  ⟨pack, suit, ordinal, true, none, ⟨0, 0⟩, ⟨0, 0⟩, false⟩

/-- Go `Card.FlipUp` (card.go); the flip animation is not modelled. -/
def Card.FlipUp (c : Card) : Card :=
  if c.Prone then { c with prone := false } else c

/-- Go `Card.FlipDown` (card.go); the flip animation is not modelled. -/
def Card.FlipDown (c : Card) : Card :=
  if !c.Prone then { c with prone := true } else c

/-- Go `Card.WasDragged` (card.go). -/
def Card.WasDragged (c : Card) : Bool := !(c.pos == c.dragStart)

/-- The immutable identity of a card: pack, suit and ordinal (the `ID` field of
card.go without its prone bit). -/
def Card.ident (c : Card) : Nat × Nat × Nat := (c.pack, c.suit, c.ordinal)

/-- Two card values denote the same card object when they have the same
identity. -/
def Card.sameID (c d : Card) : Bool := c.ident == d.ident

/-- Go `Card.StopDrag` (card.go). -/
def Card.StopDrag (c : Card) : Card := { c with beingDragged := false }

/-- Go `Card.CancelDrag` (card.go).  The animation is not modelled: the transition
started by `TransitionTo(c.dragStart)` is taken at its end point, which is what
the `NoCardLerp` branch of `TransitionTo` does at once. -/
def Card.CancelDrag (c : Card) : Card :=
  { c with beingDragged := false, pos := c.dragStart }

/-- A pile: its dynamic type, slot, fan type, cards (bottom first) and, for a
Stock, the remaining recycles. -/
structure Pile where
  kind : PileKind
  slot : Point
  fanType : FanType
  cards : List Card
  recycles : Int
  target : Bool
deriving DecidableEq, Repr

/-- Modelled from the spec: `Pile.Len`, the `length()` of the pile contract
(pile.go is not among the sources). -/
def Pile.Len (p : Pile) : Nat := p.cards.length

/-- Modelled from the spec: `Pile.Empty`, the `isEmpty()` of the pile contract. -/
def Pile.Empty (p : Pile) : Bool := p.cards.isEmpty

/-- Modelled from the spec: `Pile.Peek`, the `peek() -> card|none` of the pile
contract: the top card is the last of the sequence. -/
def Pile.Peek (p : Pile) : Option Card := p.cards.getLast?

/-- Modelled from the spec: `Pile.Cards`, the ordered card sequence, bottom to
top. -/
def Pile.Cards (p : Pile) : List Card := p.cards

/-- A pair of adjacent cards (`CardPair{c1, c2}` in v_easy.go). -/
structure CardPair where
  c1 : Card
  c2 : Card
deriving DecidableEq, Repr

/-- Modelled from the spec: the human-readable failure reasons of the card pair
comparators.  The spec fixes that a failing comparator returns a reason but not
its text, so the texts are parameters of the embedding. -/
structure CompareReasons where
  Down : CardPair → String
  DownSuit : CardPair → String
  UpSuit : CardPair → String

/-- Modelled from the spec: `NewCardPairs` (cardpair.go is not among the
sources) lists the adjacent pairs of a card sequence in order; a sequence of
fewer than two cards has none. -/
def NewCardPairs : List Card → List CardPair
  | [] => []
  | [_] => []
  | c1 :: c2 :: rest => ⟨c1, c2⟩ :: NewCardPairs (c2 :: rest)

/-- Modelled from the spec: `CardPair.EitherProne`, the either-is-face-down test. -/
def CardPair.EitherProne (cp : CardPair) : Bool := cp.c1.Prone || cp.c2.Prone

/-- Modelled from the spec: `CardPair.Compare_Down` is the comparator
`isOneRankDown(a,b)`: it succeeds when the candidate `c2` is exactly one rank
below `c1` (plain integer distance), and otherwise fails with a reason. -/
def CardPair.Compare_Down (r : CompareReasons) (cp : CardPair) : Bool × GoError :=
  if cp.c1.Ordinal = cp.c2.Ordinal + 1 then (true, none) else (false, some (r.Down cp))

/-- Modelled from the spec: `CardPair.Compare_DownSuit` is the comparator
`isOneRankDownSameSuit`: it succeeds when `c2` is exactly one rank below `c1`
and of the same suit, and otherwise fails with a reason. -/
def CardPair.Compare_DownSuit (r : CompareReasons) (cp : CardPair) : Bool × GoError :=
  if cp.c1.Ordinal = cp.c2.Ordinal + 1 ∧ cp.c1.Suit = cp.c2.Suit then (true, none)
  else (false, some (r.DownSuit cp))

/-- Modelled from the spec: `CardPair.Compare_UpSuit` is the comparator
`isOneRankUpSameSuit`: it succeeds when `c2` is exactly one rank above `c1` and
of the same suit, and otherwise fails with a reason. -/
def CardPair.Compare_UpSuit (r : CompareReasons) (cp : CardPair) : Bool × GoError :=
  if cp.c2.Ordinal = cp.c1.Ordinal + 1 ∧ cp.c1.Suit = cp.c2.Suit then (true, none)
  else (false, some (r.UpSuit cp))

/-- The loop of `Easy.TailMoveError` over the card pairs: the first pair that
fails `Compare_DownSuit` returns `false` with that pair's error. -/
def Easy.TailMoveError.loop (r : CompareReasons) : List CardPair → Bool × GoError
  | [] => (true, none)
  | pair :: rest =>
    if !(pair.Compare_DownSuit r).1 then (false, (pair.Compare_DownSuit r).2)
    else Easy.TailMoveError.loop r rest

/-- Go `Easy.TailAppendError` (v_easy.go): whether `dst` accepts `tail`.  The result is
`none` where the Go code panics on `tail[0]` of an empty tail. -/
def Easy.TailAppendError (r : CompareReasons) (dst : Pile) (tail : List Card) :
    Option (Bool × GoError) :=
  match dst.kind with
  | PileKind.Stock => some (false, some "You cannot move cards to the Stock")
  | PileKind.Foundation =>
    if dst.Empty then
      match tail.head? with
      | none => none
      | some t0 =>
        if t0.Ordinal ≠ 1 then some (false, some "Empty Foundations can only accept an Ace")
        else some (true, none)
    else
      match dst.Peek, tail.head? with
      | some top, some t0 => some (CardPair.Compare_UpSuit r ⟨top, t0⟩)
      | _, _ => none
  | PileKind.Tableau =>
    if dst.Empty then some (true, none)
    else
      match dst.Peek, tail.head? with
      | some top, some t0 => some (CardPair.Compare_Down r ⟨top, t0⟩)
      | _, _ => none
  | PileKind.Waste => some (false, some "Waste can only accept cards from the Stock")
  | _ => some (true, none)

/-- Go `Reserve.CanAcceptTail` (p_reserve.go). -/
def Reserve.CanAcceptTail (_tail : List Card) : Bool × GoError :=
  (false, some "Cannot add a card to a Reserve")

/-- Go `Reserve.Conformant` (p_reserve.go), of the reserve pile `parent`. -/
def Reserve.Conformant (parent : Pile) : Bool := decide (parent.Len < 2)

/-- Go `Reserve.UnsortedPairs` (p_reserve.go), of the reserve pile `parent`.  The
subtraction is taken on a length of at least 1. -/
def Reserve.UnsortedPairs (parent : Pile) : Nat :=
  if parent.Empty then 0 else parent.Len - 1

/-! ## The board -/

/-- Calls made to the collaborators outside the engine (UI, sound, statistics)
and to the script hook `AfterMove`, in the order they are made. -/
inductive Event where
  | Toast (msg : String)
  | Sound (name : String)
  | ScriptAfterMove
  | RecordWonGame
  | WonToast
  | ShowFAB (icon : String)
  | HideFAB
deriving DecidableEq, Repr

/-- Modelled from the spec: one record of an undo snapshot (`SavableBaize` is not
among the sources): the pile class identity and the ordered list of (card
identity, orientation) pairs. -/
structure SavablePile where
  kind : PileKind
  cards : List ((Nat × Nat × Nat) × Bool)
deriving DecidableEq, Repr

/-- Modelled from the spec: an undo snapshot is the ordered list of per-pile
records. -/
abbrev SavableBaize := List SavablePile

/-- The fields of `Baize` (baize.go) that the engine logic uses.  `stock` and
`waste` are pile pointers, here indices into `piles`; `events` is the trace of
collaborator calls. -/
structure Baize where
  piles : List Pile
  stock : Option Nat
  waste : Option Nat
  foundations : List Nat
  tableaux : List Nat
  discards : List Nat
  tail : List Card
  bookmark : Int
  undoStack : List SavableBaize
  events : List Event
  dragStart : Point := ⟨0, 0⟩
  dragOffset : Point := ⟨0, 0⟩
deriving DecidableEq, Repr

/-- The pile a pile pointer refers to. -/
def Baize.pile? (b : Baize) (i : Nat) : Option Pile := b.piles[i]?

/-- Writes through a pile pointer. -/
def Baize.setPile (b : Baize) (i : Nat) (p : Pile) : Baize :=
  { b with piles := b.piles.set i p }

/-- Records a collaborator call. -/
def Baize.emit (b : Baize) (e : Event) : Baize := { b with events := b.events ++ [e] }

/-- The number of times the script hook `AfterMove` has been called, that is the
number of times `Baize.AfterUserMove` has run. -/
def Baize.userMoves (b : Baize) : Nat := b.events.count Event.ScriptAfterMove

/-- Modelled from the spec: `Pile.Pop`, the `pop() -> card` of the pile contract
(pile.go is not among the sources): removes and returns the top card, whose owner
becomes nil (see the comment of `Card.SetOwner`).  Popping an empty pile is
outside the contract and gives `none`. -/
def Baize.Pop (b : Baize) (i : Nat) : Option (Card × Baize) :=
  match b.pile? i with
  | none => none
  | some p =>
    match p.cards.getLast? with
    | none => none
    | some c => some (c.SetOwner none, b.setPile i { p with cards := p.cards.dropLast })

/-- Modelled from the spec: `Pile.Push`, the `push(card)` of the pile contract:
the card becomes the top card and the pile its owner. -/
def Baize.Push (b : Baize) (i : Nat) (c : Card) : Option Baize :=
  match b.pile? i with
  | none => none
  | some p => some (b.setPile i { p with cards := p.cards ++ [c.SetOwner (some i)] })

/-- Modelled from the spec: `MoveCard(src, dst)` (pile.go is not among the
sources) moves the top card of `src` onto `dst` by a pop and a push. -/
def MoveCard (b : Baize) (src dst : Nat) : Option Baize :=
  match b.Pop src with
  | none => none
  | some (c, b1) => b1.Push dst c

/-- Modelled from the spec: `MoveCards(c, dst)`, the multi-card path of a move
(pile.go is not among the sources): the card `c` and every card above it in its
owner pile go to `dst`, in order. -/
def MoveCards (b : Baize) (c : Card) (dst : Nat) : Option Baize :=
  match c.Owner with
  | none => none
  | some src =>
    match b.pile? src with
    | none => none
    | some sp =>
      let idx := sp.cards.findIdx (Card.sameID c)
      if idx < sp.cards.length then
        let b1 := b.setPile src { sp with cards := sp.cards.take idx }
        match b1.pile? dst with
        | none => none
        | some dp =>
          some (b1.setPile dst
            { dp with cards := dp.cards ++ (sp.cards.drop idx).map (fun t => t.SetOwner (some dst)) })
      else none

/-! ### The board checksum -/

/-- One bit step of the reflected CRC-32 with the IEEE polynomial `0xEDB88320`
(the loop body of the commented-out code in `Baize.CRC`). -/
def crc32Bit (crc : Nat) : Nat :=
  (crc >>> 1) ^^^ (if crc &&& 1 = 1 then 0xEDB88320 else 0)

/-- One byte of CRC-32: xor the byte in, then eight bit steps. -/
def crc32Byte (crc byte : Nat) : Nat :=
  crc32Bit (crc32Bit (crc32Bit (crc32Bit (crc32Bit (crc32Bit (crc32Bit (crc32Bit
    (crc ^^^ byte))))))))

/-- Go `crc32.ChecksumIEEE` (standard library `hash/crc32`): initial value and
final xor `0xFFFFFFFF`, bytes given as numbers below 256. -/
def ChecksumIEEE (data : List Nat) : Nat :=
  (data.foldl crc32Byte 0xFFFFFFFF) ^^^ 0xFFFFFFFF

/-- Go `Baize.CRC` (baize.go): each pile length truncated to a byte, in the order of
`b.piles`, then `crc32.ChecksumIEEE`. -/
def Baize.CRC (b : Baize) : Nat :=
  ChecksumIEEE (b.piles.map (fun p => p.Len % 256))

/-! ### Geometry (Go standard library `image`) -/

/-- Go `Point.Add`. -/
def Point.Add (p q : Point) : Point := ⟨p.X + q.X, p.Y + q.Y⟩

/-- Go `Rectangle.Dx`. -/
def Rectangle.Dx (r : Rectangle) : Int := r.Max.X - r.Min.X

/-- Go `Rectangle.Dy`. -/
def Rectangle.Dy (r : Rectangle) : Int := r.Max.Y - r.Min.Y

/-- Go `Rectangle.Empty`. -/
def Rectangle.Empty (r : Rectangle) : Bool := r.Min.X ≥ r.Max.X || r.Min.Y ≥ r.Max.Y

/-- Go `Rectangle.Intersect`: the largest rectangle contained in both, the zero
rectangle when they do not overlap. -/
def Rectangle.Intersect (r s : Rectangle) : Rectangle :=
  let t : Rectangle :=
    ⟨⟨if r.Min.X < s.Min.X then s.Min.X else r.Min.X,
      if r.Min.Y < s.Min.Y then s.Min.Y else r.Min.Y⟩,
     ⟨if r.Max.X > s.Max.X then s.Max.X else r.Max.X,
      if r.Max.Y > s.Max.Y then s.Max.Y else r.Max.Y⟩⟩
  if t.Empty then ⟨⟨0, 0⟩, ⟨0, 0⟩⟩ else t

/-! ### Code outside the sources, taken as parameters -/

/-- The package-level card size and the behaviour of the pile subtypes that is not
among the sources (`p.subtype.X()` in baize.go, `pile.TailTapped` in v_easy.go),
each taking the board and the pile pointer.  The legality predicates are pure, as
the pile contract requires. -/
structure Env where
  CardWidth : Int
  CardHeight : Int
  FannedBaizeRect : Pile → Rectangle
  CanMoveTail : Baize → Nat → List Card → Bool × GoError
  CanAcceptTail : Baize → Nat → List Card → Bool × GoError
  TailTapped : Baize → Nat → List Card → Option Baize
  Collect : Baize → Nat → Option Baize
  Conformant : Pile → Bool
  Complete : Pile → Bool
  UnsortedPairs : Pile → Nat
  MakeTail : Baize → Nat → Card → List Card
  FannedScreenRect : Baize → Pile → Rectangle

/-- Go `ScriptInterface`: the variant script held in `b.script`, as far as baize.go
calls it. -/
structure ScriptInterface where
  AfterMove : Baize → Baize
  TailTapped : Baize → List Card → Option Baize
  PileTapped : Baize → Nat → Option Baize

/-- What a stroke is bound to (`v.Stroke.DraggedObject()`), nil included. -/
inductive DraggedObject where
  | Nil
  | Container
  | Card (c : Sol.Card)
  | Pile (p : Nat)
  | Baize
deriving DecidableEq, Repr

/-- Go `Card.BaizeRect` (card.go). -/
def Card.BaizeRect (env : Env) (c : Card) : Rectangle :=
  ⟨c.pos, c.pos.Add ⟨env.CardWidth, env.CardHeight⟩⟩

/-- The loop of `Baize.LargestIntersection`: `i` is the index of the pile at the
head of the list still to visit. -/
def Baize.LargestIntersection.loop (env : Env) (c : Card) :
    List Pile → Nat → Int → Option Nat → Option Nat
  | [], _, _, pile => pile
  | p :: rest, i, largestArea, pile =>
    if some i = c.owner then Baize.LargestIntersection.loop env c rest (i + 1) largestArea pile
    else
      let intersectRect := (env.FannedBaizeRect p).Intersect (c.BaizeRect env)
      let area := intersectRect.Dx * intersectRect.Dy
      if area > largestArea then Baize.LargestIntersection.loop env c rest (i + 1) area (some i)
      else Baize.LargestIntersection.loop env c rest (i + 1) largestArea pile

/-- Go `Baize.LargestIntersection` (baize.go). -/
def Baize.LargestIntersection (env : Env) (b : Baize) (c : Card) : Option Nat :=
  Baize.LargestIntersection.loop env c b.piles 0 0 none

/-- Modelled from the spec: the undo snapshot of the board (`SavableBaize` is not
among the sources): per pile, the class and the (identity, orientation) pairs. -/
def Baize.snapshot (b : Baize) : SavableBaize :=
  b.piles.map (fun p => ⟨p.kind, p.cards.map (fun c => (c.ident, c.prone))⟩)

/-- Modelled from the spec: `Baize.UndoPush` appends the snapshot of the board to
the undo stack. -/
def Baize.UndoPush (b : Baize) : Baize :=
  { b with undoStack := b.undoStack ++ [b.snapshot] }

/-- Go `Baize.Conformant` (baize.go). -/
def Baize.Conformant (env : Env) (b : Baize) : Bool :=
  b.piles.all (fun p => env.Conformant p)

/-- Go `Baize.Complete` (baize.go). -/
def Baize.Complete (env : Env) (b : Baize) : Bool :=
  b.piles.all (fun p => env.Complete p)

/-- Go `Baize.AfterUserMove` (baize.go).  The spinning started on completion is
animation and is not modelled. -/
def Baize.AfterUserMove (s : ScriptInterface) (env : Env) (b : Baize) : Baize :=
  let b1 := (s.AfterMove (b.emit Event.ScriptAfterMove)).UndoPush
  if b1.Complete env then
    (((b1.emit (Event.Sound "Complete")).emit Event.RecordWonGame).emit Event.WonToast).emit
      (Event.ShowFAB "star")
  else if b1.Conformant env then b1.emit (Event.ShowFAB "done_all")
  else b1.emit Event.HideFAB

/-- Go `Baize.ApplyToTail` (baize.go): the cards of the tail are the card objects of
the piles with the same identity. -/
def Baize.ApplyToTail (b : Baize) (fn : Card → Card) : Baize :=
  { b with piles := b.piles.map (fun p =>
      { p with cards := p.cards.map (fun c => if b.tail.any (Card.sameID c) then fn c else c) }) }

/-- Go `Baize.StopTailDrag` (baize.go). -/
def Baize.StopTailDrag (b : Baize) : Baize :=
  { b.ApplyToTail Card.StopDrag with tail := [] }

/-- Go `Baize.CancelTailDrag` (baize.go). -/
def Baize.CancelTailDrag (b : Baize) : Baize :=
  { b.ApplyToTail Card.CancelDrag with tail := [] }

/-- The first loop of `Baize.InputStop`: no pile is a drop target any more. -/
def Baize.clearTargets (b : Baize) : Baize :=
  { b with piles := b.piles.map (fun p => { p with target := false }) }

/-- The toast of a rejected move in `Baize.InputStop`: the reason when there is
one (a nil reason is only printed). -/
def Baize.toastError (b : Baize) (err : GoError) : Baize :=
  match err with
  | some msg => b.emit (Event.Toast msg)
  | none => b

/-- The `*Card` case of `Baize.InputStop` for a card that was dragged, from the
point where the destination `dst` has been looked up. -/
def Baize.InputStop.drop (s : ScriptInterface) (env : Env) (b : Baize) (c : Card)
    (dst : Option Nat) : Option Baize :=
  match dst with
  | none => some b.CancelTailDrag
  | some d =>
    match c.Owner with
    | none => none
    | some src =>
      if !(env.CanMoveTail b src b.tail).1 then
        some (b.toastError (env.CanMoveTail b src b.tail).2).CancelTailDrag
      else if src = d then some b.CancelTailDrag
      else if !(env.CanAcceptTail b d b.tail).1 then
        some (b.toastError (env.CanAcceptTail b d b.tail).2).CancelTailDrag
      else
        match (if b.tail.length = 1 then MoveCard b src d else MoveCards b c d) with
        | none => none
        | some b1 =>
          some (if b.CRC ≠ b1.CRC then b1.AfterUserMove s env else b1).StopTailDrag

/-- Go `Baize.InputStop` (baize.go).  Stopping the drag of a UI container or of the
baize itself does not touch the engine state. -/
def Baize.InputStop (s : ScriptInterface) (env : Env) (b : Baize) (obj : DraggedObject) :
    Option Baize :=
  match obj with
  | DraggedObject.Nil => none
  | DraggedObject.Card c =>
    if c.WasDragged then
      Baize.InputStop.drop s env b.clearTargets c (b.clearTargets.LargestIntersection env c)
    else some b.clearTargets
  | _ => some b.clearTargets

/-- Go `Baize.InputTap` (baize.go).  Hiding the drawer on a tap of the baize itself is
UI and does not touch the engine state. -/
def Baize.InputTap (s : ScriptInterface) (env : Env) (b : Baize) (obj : DraggedObject) :
    Option Baize :=
  match obj with
  | DraggedObject.Card _ =>
    match s.TailTapped b b.tail with
    | none => none
    | some b1 =>
      some (if b.CRC ≠ b1.CRC then (b1.emit (Event.Sound "Slide")).AfterUserMove s env
        else b1).StopTailDrag
  | DraggedObject.Pile p =>
    match s.PileTapped b p with
    | none => none
    | some b1 =>
      some (if b.CRC ≠ b1.CRC then (b1.emit (Event.Sound "Slide")).AfterUserMove s env else b1)
  | _ => some b

/-- The loop of `Baize.Collect` and `Baize.CollectAll` over the piles: every pile
is asked once, in the order of `b.piles`. -/
def Baize.collectPass (env : Env) : List Nat → Baize → Option Baize
  | [], b => some b
  | i :: rest, b =>
    match env.Collect b i with
    | none => none
    | some b1 => Baize.collectPass env rest b1

/-- Go `Baize.Collect` (baize.go). -/
def Baize.Collect (s : ScriptInterface) (env : Env) (b : Baize) : Option Baize :=
  match Baize.collectPass env (List.range b.piles.length) b with
  | none => none
  | some b1 => some (if b.CRC ≠ b1.CRC then b1.AfterUserMove s env else b1)

/-! ## The Easy variant (v_easy.go) -/

/-- Go `Easy.AfterMove` (v_easy.go). -/
def Easy.AfterMove (b : Baize) : Baize := b

/-- Go `Easy.TailMoveError` (v_easy.go).  The owner of `tail[0]` is looked up on the
board; a nil owner takes the default case of the type switch.  The result is
`none` where the Go code panics on `tail[0]` of an empty tail. -/
def Easy.TailMoveError (r : CompareReasons) (b : Baize) (tail : List Card) :
    Option (Bool × GoError) :=
  match tail.head? with
  | none => none
  | some t0 =>
    match (t0.Owner.bind b.pile?).map Pile.kind with
    | some PileKind.Tableau => some (Easy.TailMoveError.loop r (NewCardPairs tail))
    | _ => some (true, none)

/-- Go `Easy.UnsortedPairs` (v_easy.go). -/
def Easy.UnsortedPairs (r : CompareReasons) (pile : Pile) : Nat :=
  (NewCardPairs pile.Cards).foldl (fun unsorted pair =>
    if pair.EitherProne then unsorted + 1
    else if !(pair.Compare_DownSuit r).1 then unsorted + 1
    else unsorted) 0

/-- Go `Easy.TailTapped` (v_easy.go).  `none` is a panic: an empty tail, a card without
owner, a pop of an empty stock or a board without waste. -/
def Easy.TailTapped (env : Env) (b : Baize) (tail : List Card) : Option Baize :=
  match tail.head? with
  | none => none
  | some c1 =>
    match c1.Owner with
    | none => none
    | some pile =>
      match b.pile? pile with
      | none => none
      | some p =>
        if p.kind = PileKind.Stock ∧ tail.length = 1 then
          match b.Pop pile with
          | none => none
          | some (c2, b1) =>
            match b1.waste with
            | none => none
            | some w => b1.Push w c2
        else env.TailTapped b pile tail

/-- The loop `for TheBaize.waste.Len() > 0 { MoveCard(TheBaize.waste, s) }` of
`Easy.PileTapped`, with fuel: `none` when the fuel runs out or the board has no
waste. -/
def Easy.PileTapped.loop : Nat → Baize → Nat → Option Baize
  | 0, _, _ => none
  | fuel + 1, b, s =>
    match b.waste with
    | none => none
    | some w =>
      match b.pile? w with
      | none => none
      | some wp =>
        if wp.Len > 0 then
          match MoveCard b w s with
          | none => none
          | some b1 => Easy.PileTapped.loop fuel b1 s
        else some b

/-- Go `s.recycles--` in `Easy.PileTapped`. -/
def Baize.decRecycles (b : Baize) (s : Nat) : Baize :=
  match b.pile? s with
  | none => b
  | some p => b.setPile s { p with recycles := p.recycles - 1 }

/-- Go `Easy.PileTapped` (v_easy.go), the loop run with the given fuel.  A pile
pointer that is not a `*Stock` fails the type assertion and nothing happens. -/
def Easy.PileTapped (fuel : Nat) (b : Baize) (pile : Nat) : Option Baize :=
  match b.pile? pile with
  | none => some b
  | some p =>
    if p.kind = PileKind.Stock then
      if p.recycles > 0 then
        match Easy.PileTapped.loop fuel b pile with
        | none => none
        | some b1 => some (b1.decRecycles pile)
      else some (b.emit (Event.Toast "No more recycles"))
    else some b

/-- The Easy script as the board sees it. -/
def Easy.script (env : Env) (fuel : Nat) : ScriptInterface :=
  ⟨Easy.AfterMove, Easy.TailTapped env, Easy.PileTapped fuel⟩

/-! ## The commit rule -/

/-- The board `b2` has the undo stack of `b` and has seen as many committed user
moves. -/
def Baize.sameHistory (b b2 : Baize) : Prop :=
  b2.undoStack = b.undoStack ∧ b2.userMoves = b.userMoves

/-- The script leaves committing to the board: none of its hooks pushes an undo
entry or runs `AfterUserMove` itself. -/
def ScriptInterface.keepsHistory (s : ScriptInterface) : Prop :=
  (∀ b : Baize, b.sameHistory (s.AfterMove b)) ∧
  (∀ (b : Baize) tail b1, s.TailTapped b tail = some b1 → b.sameHistory b1) ∧
  (∀ (b : Baize) p b1, s.PileTapped b p = some b1 → b.sameHistory b1)

/-- The pile subtypes leave committing to the board. -/
def Env.keepsHistory (env : Env) : Prop :=
  (∀ (b : Baize) i tail b1, env.TailTapped b i tail = some b1 → b.sameHistory b1) ∧
  (∀ (b : Baize) i b1, env.Collect b i = some b1 → b.sameHistory b1)

/-- The commit rule between the board `b` before an operation, the board `b1` the
operation leaves and the board `b2` the caller ends with: when the CRC of `b1`
differs from that of `b`, `AfterUserMove` has run once more and the undo stack
has one more entry; when it is the same, neither has changed. -/
def Baize.gated (b b1 b2 : Baize) : Prop :=
  (b.CRC ≠ b1.CRC →
    b2.userMoves = b.userMoves + 1 ∧ ∃ sav, b2.undoStack = b.undoStack ++ [sav]) ∧
  (b.CRC = b1.CRC → b2.userMoves = b.userMoves ∧ b2.undoStack = b.undoStack)

/-- Which cards lie in which pile: the identities of the cards of every pile, in
order. -/
def Baize.idents (b : Baize) : List (List (Nat × Nat × Nat)) :=
  b.piles.map (fun p => p.cards.map Card.ident)

/-- What a rejected drop leaves of the board `b` in the board `b2`: every pile
holds the same cards in the same order and orientation (so the undo snapshot of
the board is the same), the CRC and the undo stack are the same, `AfterUserMove`
has not run, and there is no active tail. -/
def Baize.untouched (b b2 : Baize) : Prop :=
  b2.idents = b.idents ∧ b2.snapshot = b.snapshot ∧ b2.CRC = b.CRC ∧
  b2.undoStack = b.undoStack ∧ b2.userMoves = b.userMoves ∧ b2.tail = []

/-- The overlap area that the loop of `Baize.LargestIntersection` computes for the
pile `p`: width times height of the intersection of the fanned rectangle of the
pile with the rectangle of the card. -/
def Baize.overlapArea (env : Env) (c : Card) (p : Pile) : Int :=
  ((env.FannedBaizeRect p).Intersect (c.BaizeRect env)).Dx *
    ((env.FannedBaizeRect p).Intersect (c.BaizeRect env)).Dy

/-! ### float64 -/

/-- The integer nearest to a rational, the even one of two that are equally
near. -/
def Float64.roundEven (q : ℚ) : Int :=
  if q - Int.floor q < 1 / 2 then Int.floor q
  else if 1 / 2 < q - Int.floor q then Int.floor q + 1
  else if Int.floor q % 2 = 0 then Int.floor q
  else Int.floor q + 1

/-- The binary exponent of the spacing of the float64 numbers at the rational
`q > 0`: 52 below the exponent of `q` for a normal number, -1074 for a subnormal
one. -/
def Float64.ulpExp (q : ℚ) : Int := max (Int.log 2 q) (-1022) - 52

/-- The float64 nearest to a rational `q ≥ 0`: 53 significant bits, round to
nearest, ties to even (IEEE 754 binary64, the rounding of every Go float64
operation).  Overflow to infinity is not modelled. -/
def Float64.roundPos (q : ℚ) : ℚ :=
  (Float64.roundEven (q / 2 ^ Float64.ulpExp q) : ℚ) * 2 ^ Float64.ulpExp q

/-- The float64 nearest to a rational: rounding is symmetric in the sign. -/
def Float64.round (q : ℚ) : ℚ :=
  if q < 0 then -Float64.roundPos (-q) else Float64.roundPos q

/-- Go `float64(n)` of an `int`. -/
def Float64.ofInt (n : Int) : ℚ := Float64.round n

/-- Go `x + y` on float64. -/
def Float64.add (x y : ℚ) : ℚ := Float64.round (x + y)

/-- Go `x - y` on float64. -/
def Float64.sub (x y : ℚ) : ℚ := Float64.round (x - y)

/-- Go `x * y` on float64. -/
def Float64.mul (x y : ℚ) : ℚ := Float64.round (x * y)

/-- Go `x / y` on float64, for a divisor that is not zero. -/
def Float64.div (x y : ℚ) : ℚ := Float64.round (x / y)

/-! ### Percent complete -/

/-- The Go conversion `int(x)` of a floating point number: truncation towards
zero. -/
def truncToInt (x : ℚ) : Int := if 0 ≤ x then Int.floor x else Int.ceil x

/-- Modelled from the spec: `util.MapValue(value, inStart, inStop, outStart,
outStop)` (package util is not among the sources) scales `value` linearly from the
range `inStart..inStop` to the range `outStart..outStop`, in float64 arithmetic:
`outStart + (outStop-outStart)*((value-inStart)/(inStop-inStart))`.  The input
range is not empty (`inStart ≠ inStop`). -/
def util.MapValue (value inStart inStop outStart outStop : ℚ) : ℚ :=
  Float64.add outStart
    (Float64.mul (Float64.sub outStop outStart)
      (Float64.div (Float64.sub value inStart) (Float64.sub inStop inStart)))

/-- The last statement of `Baize.PercentComplete` for the totals of the loop:
`(int)(100.0 - util.MapValue(float64(unsorted), 0, float64(pairs), 0.0, 100.0))`. -/
def Baize.PercentComplete.percent (pairs unsorted : Nat) : Int :=
  truncToInt (Float64.sub 100
    (util.MapValue (Float64.ofInt unsorted) 0 (Float64.ofInt pairs) 0 100))

/-- The loop of `Baize.PercentComplete`: the running totals `(pairs, unsorted)`. -/
def Baize.PercentComplete.loop (env : Env) : List Pile → Nat × Nat → Nat × Nat
  | [], acc => acc
  | p :: rest, acc =>
    Baize.PercentComplete.loop env rest
      (if p.Len > 1 then acc.1 + (p.Len - 1) else acc.1, acc.2 + env.UnsortedPairs p)

/-- Go `Baize.PercentComplete` (baize.go).  With no pairs on the board the Go code
divides by zero and converts a NaN or an infinity to `int`, which the language
leaves to the implementation: that is `none` here. -/
def Baize.PercentComplete (env : Env) (b : Baize) : Option Int :=
  let totals := Baize.PercentComplete.loop env b.piles (0, 0)
  if totals.1 = 0 then none
  else some (Baize.PercentComplete.percent totals.1 totals.2)

/-- The move made by the accepted branch of `Baize.InputStop`: `MoveCard` for a
tail of one card, `MoveCards` otherwise. -/
def Baize.moveTail (b : Baize) (c : Card) (src dst : Nat) : Option Baize :=
  if b.tail.length = 1 then MoveCard b src dst else MoveCards b c dst

/-- What one pair adds to the count in the loop of `Easy.UnsortedPairs`. -/
def Easy.unsortedPair (r : CompareReasons) (pair : CardPair) : Nat :=
  if pair.EitherProne then 1 else if !(pair.Compare_DownSuit r).1 then 1 else 0

/-- What the pair of the top card of the cards `below` and a card `c` lying on it
adds to the count of `Easy.UnsortedPairs`: nothing when there is no card below. -/
def Easy.junction (r : CompareReasons) (below : List Card) (c : Card) : Nat :=
  match below.getLast? with
  | none => 0
  | some x => Easy.unsortedPair r ⟨x, c⟩

/-! ### Collecting -/

/-- The loop of `Baize.CollectAll` (baize.go), with fuel: every round is one pass of
`Collect` over all piles, and the loop ends with the first pass that leaves the
CRC as it was.  `none` when the fuel runs out or a `Collect` panics. -/
def Baize.CollectAll.loop (env : Env) : Nat → Baize → Option Baize
  | 0, _ => none
  | fuel + 1, b =>
    match Baize.collectPass env (List.range b.piles.length) b with
    | none => none
    | some b1 => if b1.CRC = b.CRC then some b1 else Baize.CollectAll.loop env fuel b1

/-- Go `Baize.CollectAll` (baize.go), the loop run with the given fuel. -/
def Baize.CollectAll (s : ScriptInterface) (env : Env) (fuel : Nat) (b : Baize) :
    Option Baize :=
  match Baize.CollectAll.loop env fuel b with
  | none => none
  | some b1 => some (if b1.CRC ≠ b.CRC then b1.AfterUserMove s env else b1)

/-- The terminal pile kinds: Foundation and Discard. -/
def PileKind.terminal : PileKind → Bool
  | PileKind.Foundation => true
  | PileKind.Discard => true
  | _ => false

/-- The number of cards of a pile that count as resident in a terminal pile. -/
def Pile.terminalLen (p : Pile) : Nat := if p.kind.terminal then p.Len else 0

/-- The total card count of the board. -/
def Baize.total (b : Baize) : Nat := (b.piles.map Pile.Len).sum

/-- The number of cards resident in terminal piles. -/
def Baize.terminalCards (b : Baize) : Nat := (b.piles.map Pile.terminalLen).sum

/-- The pile lengths in registration order. -/
def Baize.lens (b : Baize) : List Nat := b.piles.map Pile.Len

/-- What the spec says of the `Collect` of every pile subtype: it returns, it keeps
the cards on the board, and each of its auto-moves takes a card into a terminal
pile, so that whenever the pile lengths change there are more cards in terminal
piles than before. -/
def Env.collectsToTerminal (env : Env) : Prop :=
  ∀ (b : Baize) (i : Nat), ∃ b1, env.Collect b i = some b1 ∧
    b1.piles.length = b.piles.length ∧ b1.total = b.total ∧
    b.terminalCards ≤ b1.terminalCards ∧ (b1.lens ≠ b.lens → b.terminalCards < b1.terminalCards)

/-- Modelled from the spec: `collect()` of a pile (the pile subtypes are not among
the sources) attempts to auto-move the top card of the pile to a valid home: the
first terminal pile in registration order whose `CanAcceptTail` (here `accept`)
takes the card.  A terminal pile keeps its cards. -/
def Pile.Collect (accept : Baize → Nat → List Card → Bool × GoError) (b : Baize) (i : Nat) :
    Option Baize :=
  match b.pile? i with
  | none => some b
  | some p =>
    if p.kind.terminal then some b
    else
      match p.Peek with
      | none => some b
      | some top =>
        match (List.range b.piles.length).find? (fun j =>
            ((b.pile? j).map (fun q => q.kind.terminal)).getD false && (accept b j [top]).1) with
        | none => some b
        | some j => MoveCard b i j

/-! ### Building the piles and dealing (v_easy.go) -/

/-- Modelled from the spec: the pile constructors `NewStock`, `NewWaste`,
`NewFoundation` and `NewTableau` (not among the sources) create an empty pile of
their kind at a fixed slot with a fan style.  Labels and the move type are not
modelled. -/
def NewPile (kind : PileKind) (slot : Point) (fanType : FanType) : Pile :=
  ⟨kind, slot, fanType, [], 0, false⟩

/-- Modelled from the spec: `NewStock(slot, fanType, packs, suits, cardFilter)` also
creates the cards and shuffles them into the stock; `deck` is the shuffled pack,
bottom first, and `self` the pointer under which the stock is registered. -/
def NewStock (slot : Point) (fanType : FanType) (deck : List Card) (self : Nat) : Pile :=
  { NewPile PileKind.Stock slot fanType with
    cards := deck.map (fun c => c.SetOwner (some self)) }

/-- One round of the first loop of `Easy.BuildPiles`: a foundation at slot
`(x, 0)`. -/
def Easy.BuildPiles.foundation (b : Baize) (x : Nat) : Baize :=
  { b with
    piles := b.piles ++ [NewPile PileKind.Foundation ⟨x, 0⟩ FanType.FAN_NONE]
    foundations := b.foundations ++ [b.piles.length] }

/-- One round of the second loop of `Easy.BuildPiles`: a tableau at slot
`(x, 1)`. -/
def Easy.BuildPiles.tableau (b : Baize) (x : Nat) : Baize :=
  { b with
    piles := b.piles ++ [NewPile PileKind.Tableau ⟨x, 1⟩ FanType.FAN_DOWN]
    tableaux := b.tableaux ++ [b.piles.length] }

/-- Go `Easy.BuildPiles` (v_easy.go), with the shuffled pack that `NewStock`
creates. -/
def Easy.BuildPiles (deck : List Card) (b : Baize) : Baize :=
  let b1 : Baize :=
    { b with
      stock := some b.piles.length
      piles := b.piles ++ [NewStock ⟨0, 0⟩ FanType.FAN_NONE deck b.piles.length] }
  let b2 : Baize :=
    { b1 with
      waste := some b1.piles.length
      piles := b1.piles ++ [NewPile PileKind.Waste ⟨1, 0⟩ FanType.FAN_RIGHT3] }
  let b3 := (List.range' 9 4).foldl Easy.BuildPiles.foundation b2
  (List.range 13).foldl Easy.BuildPiles.tableau b3

/-- The statement `pile.Peek().FlipDown()` of `Easy.StartGame`: the top card of
the pile is turned face down; `none` where the pile is empty and the Go code
dereferences nil. -/
def Baize.flipDownTop (b : Baize) (pile : Nat) : Option Baize :=
  match b.pile? pile with
  | none => none
  | some p =>
    match p.cards.getLast? with
    | none => none
    | some c => some (b.setPile pile { p with cards := p.cards.dropLast ++ [c.FlipDown] })

/-- The body of the outer loop of `Easy.StartGame`: twice a card from the stock
that is then turned face down, and a third card from the stock. -/
def Easy.StartGame.deal (b : Baize) (pile : Nat) : Option Baize :=
  match b.stock with
  | none => none
  | some s =>
    match MoveCard b s pile with
    | none => none
    | some b1 =>
      match b1.flipDownTop pile with
      | none => none
      | some b2 =>
        match MoveCard b2 s pile with
        | none => none
        | some b3 =>
          match b3.flipDownTop pile with
          | none => none
          | some b4 => MoveCard b4 s pile

/-- The outer loop of `Easy.StartGame` over `TheBaize.tableaux`. -/
def Easy.StartGame.loop : List Nat → Baize → Option Baize
  | [], b => some b
  | pile :: rest, b =>
    match Easy.StartGame.deal b pile with
    | none => none
    | some b1 => Easy.StartGame.loop rest b1

/-- Go `Easy.StartGame` (v_easy.go).  `none` where the Go code panics or exits: no
stock, a stock that is not a `*Stock`, or (outside the pile contract) a stock that
runs out of cards. -/
def Easy.StartGame (b : Baize) : Option Baize :=
  match Easy.StartGame.loop b.tableaux b with
  | none => none
  | some b1 =>
    match b1.stock with
    | none => none
    | some s =>
      match b1.pile? s with
      | none => none
      | some sp =>
        if sp.kind = PileKind.Stock then some (b1.setPile s { sp with recycles := 32767 })
        else none

/-- The board as `Baize.NewVariant` leaves it before it calls `BuildPiles`: no
piles, no stock, no waste, empty lists, no tail and an empty undo stack. -/
def Baize.cleared (b : Baize) : Baize :=
  { b with piles := [], stock := none, waste := none, foundations := [], discards := [],
           tableaux := [], tail := [], undoStack := [], bookmark := 0,
           dragStart := ⟨0, 0⟩, dragOffset := ⟨0, 0⟩ }

/-- The sum over all cards of the piles `ps` of the weight `f` of the card. -/
def pilesWeight (f : Card → Nat) (ps : List Pile) : Nat :=
  (ps.map (fun p => (p.cards.map f).sum)).sum

/-- The number of places on the board where a card of the identity `ident` lies. -/
def Baize.copies (b : Baize) (ident : Nat × Nat × Nat) : Nat :=
  (b.piles.map (fun p => (p.cards.map Card.ident).count ident)).sum

/-! ## Rebuilding the layout -/

/-- The first loop of Go `Baize.Mirror` (baize.go) over the piles still to visit,
from the running `minX` and `maxX`. -/
def Baize.Mirror.bounds : List Pile → Int → Int → Int × Int
  | [], minX, maxX => (minX, maxX)
  | p :: rest, minX, maxX =>
    if p.slot.X < 0 then Baize.Mirror.bounds rest minX maxX
    else
      Baize.Mirror.bounds rest (if p.slot.X < minX then p.slot.X else minX)
        (if p.slot.X > maxX then p.slot.X else maxX)

/-- The body of the second loop of Go `Baize.Mirror`: a hidden pile is skipped, a
visible one gets its new slot and the fan type of the `switch`. -/
def Baize.Mirror.flip (minX maxX : Int) (p : Pile) : Pile :=
  if p.slot.X < 0 then p
  else
    { p with
      slot := ⟨maxX - p.slot.X + minX, p.slot.Y⟩
      fanType :=
        match p.fanType with
        | FanType.FAN_RIGHT => FanType.FAN_LEFT
        | FanType.FAN_LEFT => FanType.FAN_RIGHT
        | FanType.FAN_RIGHT3 => FanType.FAN_LEFT3
        | FanType.FAN_LEFT3 => FanType.FAN_RIGHT3
        | t => t }

/-- Go `Baize.Mirror` (baize.go): `minX` starts at 32767 and `maxX` at 0.  Go `int`
is taken as unbounded. -/
def Baize.Mirror (b : Baize) : Baize :=
  let mm := Baize.Mirror.bounds b.piles 32767 0
  { b with piles := b.piles.map (Baize.Mirror.flip mm.1 mm.2) }

/-- The body of the loop of Go `Baize.BuildAuxPiles` (baize.go): the type switch
on the subtype of the pile `ip.2`, whose pointer is `ip.1`. -/
def Baize.BuildAuxPiles.step (b : Baize) (ip : Nat × Pile) : Baize :=
  match ip.2.kind with
  | PileKind.Stock => { b with stock := some ip.1 }
  | PileKind.Waste => { b with waste := some ip.1 }
  | PileKind.Discard => { b with discards := b.discards ++ [ip.1] }
  | PileKind.Foundation => { b with foundations := b.foundations ++ [ip.1] }
  | PileKind.Tableau => { b with tableaux := b.tableaux ++ [ip.1] }
  | _ => b

/-- Go `Baize.BuildAuxPiles` (baize.go). -/
def Baize.BuildAuxPiles (b : Baize) : Baize :=
  b.piles.enum.foldl Baize.BuildAuxPiles.step b

/-- Modelled from the spec: the `BuildPiles` of the Easy script as `Baize.NewVariant`
of baize.go calls it, which "constructs and registers the full set of piles" and
leaves the derived references to `BuildAuxPiles`.  The Easy script of that revision
is not among the sources: v_easy.go is of a revision in which `Pile` is an
interface and the script fills `stock`, `waste`, `foundations` and `tableaux`
itself, where baize.go has a `Pile` struct with a `subtype` and derives them.  The
piles registered are the piles of `Easy.BuildPiles`, in its order. -/
def Easy.registerPiles (deck : List Card) (b : Baize) : Baize :=
  { b with piles := (Easy.BuildPiles deck b).piles }

/-- The board of Go `Baize.NewVariant` (baize.go) with the Easy script right after
`b.BuildAuxPiles()`: the piles and the derived references are cleared, the script
registers its piles and the derived references are built from the piles. -/
def Baize.NewVariant.layout (deck : List Card) (b : Baize) : Baize :=
  (Easy.registerPiles deck b.cleared).BuildAuxPiles

/-- The slot X of the visible piles of the board, in pile order. -/
def Baize.visibleXs (b : Baize) : List Int :=
  (b.piles.filter (fun p => decide (0 ≤ p.slot.X))).map (fun p => p.slot.X)

/-- The number `m` is the least slot X among the visible piles of the board. -/
def Baize.leastVisibleX (b : Baize) (m : Int) : Prop :=
  m ∈ b.visibleXs ∧ ∀ x ∈ b.visibleXs, m ≤ x

/-- The number `m` is the greatest slot X among the visible piles of the board. -/
def Baize.greatestVisibleX (b : Baize) (m : Int) : Prop :=
  m ∈ b.visibleXs ∧ ∀ x ∈ b.visibleXs, x ≤ m

/-! ## Starting a stroke -/

/-- Go `image.Point.In`: the point lies in the rectangle, `Min` inclusive and `Max`
exclusive. -/
def Point.In (pt : Point) (r : Rectangle) : Bool :=
  decide (r.Min.X ≤ pt.X) && decide (pt.X < r.Max.X) &&
    decide (r.Min.Y ≤ pt.Y) && decide (pt.Y < r.Max.Y)

/-- Go `Card.ScreenRect` (card.go). -/
def Card.ScreenRect (env : Env) (b : Baize) (c : Card) : Rectangle :=
  ⟨(c.BaizeRect env).Min.Add b.dragOffset, (c.BaizeRect env).Max.Add b.dragOffset⟩

/-- Go `Baize.FindCardAt` (baize.go): the piles from the last to the first, the
cards of each from the top down. -/
def Baize.FindCardAt (env : Env) (b : Baize) (pt : Point) : Option Card :=
  b.piles.reverse.findSome? (fun p =>
    p.cards.reverse.find? (fun c => pt.In (c.ScreenRect env b)))

/-- Go `Baize.FindPileAt` (baize.go): the pointer of the first pile under the
point. -/
def Baize.FindPileAt (env : Env) (b : Baize) (pt : Point) : Option Nat :=
  b.piles.findIdx? (fun p => pt.In (env.FannedScreenRect b p))

/-- Go `Card.StartDrag` (card.go).  Transitions are animation and are not modelled
(see `Card.CancelDrag`), so the card is never found transitioning. -/
def Card.StartDrag (c : Card) : Card := { c with dragStart := c.pos, beingDragged := true }

/-- Modelled from the spec: `Pile.MakeTail` (pile.go is not among the sources)
tells which cards of the pile `i` form a liftable tail headed by the card `c`, the
empty tail when `c` is not a legal tail head.  The top card heads the tail of
itself; a card below the top heads the run from it to the top only on a pile that
moves any tail (`MOVE_ANY`, the tableaux of `Easy.BuildPiles`), and no tail on a
pile that moves single cards. -/
def Pile.MakeTail (b : Baize) (i : Nat) (c : Card) : List Card :=
  match b.pile? i with
  | none => []
  | some p =>
    let t := p.cards.drop (p.cards.findIdx (Card.sameID c))
    if t.length = 1 then t
    else if p.kind = PileKind.Tableau then t
    else []

/-- Go `Baize.MakeTail` (baize.go): the tail is what the owner of the card makes of
it, and the result tells whether it has a card; `none` where the card has no
owner. -/
def Baize.MakeTail (env : Env) (b : Baize) (c : Card) : Option (Bool × Baize) :=
  match c.Owner with
  | none => none
  | some i =>
    let b1 : Baize := { b with tail := env.MakeTail b i c }
    some (decide (b1.tail.length > 0), b1)

/-- Go `Baize.StartTailDrag` (baize.go): the cards of a tail that could be made
start their drag, a tail that could not be made is only reported on the console.
The cursor mode is not modelled. -/
def Baize.StartTailDrag (env : Env) (b : Baize) (c : Card) : Option Baize :=
  match b.MakeTail env c with
  | none => none
  | some (true, b1) =>
    some { b1.ApplyToTail Card.StartDrag with tail := b1.tail.map Card.StartDrag }
  | some (false, b1) => some b1

/-- Go `Baize.StartDrag` (baize.go). -/
def Baize.StartDrag (b : Baize) : Bool × Baize := (true, { b with dragStart := b.dragOffset })

/-- The card object behind the pointer `c` on the board `b`: a card of the tail
has started its drag. -/
def Baize.cardNow (b : Baize) (c : Card) : Card :=
  if b.tail.any (Card.sameID c) then c.StartDrag else c

/-- Go `Baize.InputStart` (baize.go) for a stroke starting at `(x, y)`.  `con` is
what `TheUI.FindContainerAt` and the `StartDrag` of the container say: `none` when
no container is there, else whether the container accepts the drag.  The result is
the board and what the stroke is bound to, `DraggedObject.Nil` for a cancelled
stroke. -/
def Baize.InputStart (env : Env) (b : Baize) (con : Option Bool) (x y : Int) :
    Option (Baize × DraggedObject) :=
  match con with
  | some ok => some (b, if ok then DraggedObject.Container else DraggedObject.Nil)
  | none =>
    match b.FindCardAt env ⟨x, y⟩ with
    | some c =>
      match b.StartTailDrag env c with
      | none => none
      | some b1 => some (b1, DraggedObject.Card (b1.cardNow c))
    | none =>
      match b.FindPileAt env ⟨x, y⟩ with
      | some p => some (b, DraggedObject.Pile p)
      | none =>
        if b.StartDrag.1 then some (b.StartDrag.2, DraggedObject.Baize)
        else some (b.StartDrag.2, DraggedObject.Nil)

/-! ## Sample boards

Suits are numbered from 1 (0 is `NOSUIT`); which number stands for which suit
does not matter to the rules.  Here clubs are 1, diamonds 2, hearts 3 and
spades 4. -/

/-- Reason texts for the samples. -/
def sampleReasons : CompareReasons :=
  ⟨fun _ => "not one rank down", fun _ => "not one rank down in suit",
   fun _ => "not one rank up in suit"⟩

/-- A face-up card of pack 0 owned by pile `owner`. -/
def faceUp (suit ordinal owner : Nat) : Card :=
  ((NewCard 0 suit ordinal).FlipUp).SetOwner (some owner)

/-- A face-down card of pack 0 owned by pile `owner`. -/
def faceDown (suit ordinal owner : Nat) : Card :=
  (NewCard 0 suit ordinal).SetOwner (some owner)

/-- A pile of the given kind without layout. -/
def samplePile (kind : PileKind) (cards : List Card) (recycles : Int) : Pile :=
  ⟨kind, ⟨0, 0⟩, FanType.FAN_NONE, cards, recycles, false⟩

/-- An empty foundation. -/
def emptyFoundation : Pile := samplePile PileKind.Foundation [] 0

/-- A foundation holding the ace of spades. -/
def aceFoundation : Pile := samplePile PileKind.Foundation [faceUp 4 1 2] 0

/-- The tableau of the spec example: king of spades face down, queen of diamonds
face up. -/
def tableauKQ : Pile := samplePile PileKind.Tableau [faceDown 4 13 6, faceUp 2 12 6] 0

/-- The jack of clubs, face up, lying on the waste (pile 1). -/
def jackClubs : Card := faceUp 1 11 1

/-- The pile moved to a slot of the layout. -/
def Pile.atSlot (p : Pile) (x y : Int) : Pile := { p with slot := ⟨x, y⟩ }

/-- A small Easy board: stock (pile 0, two cards, two recycles left), waste (pile
1, five cards), a foundation (pile 2) and two tableaux (piles 3 and 4). -/
def sampleBoard : Baize :=
  { piles := [(samplePile PileKind.Stock [faceDown 1 5 0, faceDown 3 9 0] 2).atSlot 0 0,
              (samplePile PileKind.Waste [faceUp 2 7 1, faceUp 1 11 1, faceUp 4 2 1,
                faceUp 3 6 1, faceUp 1 8 1] 0).atSlot 1 0,
              (samplePile PileKind.Foundation [faceUp 4 1 2] 0).atSlot 2 0,
              (samplePile PileKind.Tableau
                [faceDown 4 13 3, faceUp 2 12 3, faceUp 2 11 3] 0).atSlot 0 1,
              (samplePile PileKind.Tableau [faceUp 3 4 4, faceUp 1 12 4] 0).atSlot 1 1],
    stock := some 0, waste := some 1, foundations := [2], tableaux := [3, 4], discards := [],
    tail := [], bookmark := 0, undoStack := [], events := [] }

/-- A board with as many cards in every pile as the sample board, but other
cards, in another order and orientation. -/
def sampleBoardShuffled : Baize :=
  { sampleBoard with
    piles := [(samplePile PileKind.Stock [faceUp 3 9 0, faceUp 1 5 0] 2).atSlot 0 0,
              (samplePile PileKind.Waste [faceUp 1 8 1, faceUp 3 6 1, faceUp 4 2 1,
                faceUp 1 11 1, faceUp 2 7 1] 0).atSlot 1 0,
              (samplePile PileKind.Foundation [faceUp 2 12 2] 0).atSlot 2 0,
              (samplePile PileKind.Tableau
                [faceUp 3 4 3, faceUp 1 3 3, faceDown 4 13 3] 0).atSlot 0 1,
              (samplePile PileKind.Tableau [faceUp 4 1 4, faceUp 2 11 4] 0).atSlot 1 1] }

/-- A sample environment: cards of 90 by 122, piles fanned downwards on a grid of
100 by 200, the Easy rules as legality predicates, pile subtypes whose tap and
collect actions do nothing, unsorted pairs counted by the Easy script on a tableau,
not at all on a foundation or discard and as on a reserve elsewhere, and the
tails of `Pile.MakeTail`. -/
def sampleEnv : Env :=
  { CardWidth := 90
    CardHeight := 122
    FannedBaizeRect := fun p =>
      ⟨⟨p.slot.X * 100, p.slot.Y * 200⟩,
       ⟨p.slot.X * 100 + 90, p.slot.Y * 200 + 122 + 20 * p.cards.length⟩⟩
    CanMoveTail := fun b _ tail => (Easy.TailMoveError sampleReasons b tail).getD (true, none)
    CanAcceptTail := fun b i tail =>
      match b.pile? i with
      | none => (false, some "no such pile")
      | some p => (Easy.TailAppendError sampleReasons p tail).getD (true, none)
    TailTapped := fun b _ _ => some b
    Collect := fun b _ => some b
    Conformant := fun p => decide (p.Len < 2)
    Complete := fun p => p.Empty
    UnsortedPairs := fun p =>
      match p.kind with
      | PileKind.Tableau => Easy.UnsortedPairs sampleReasons p
      | PileKind.Foundation => 0
      | PileKind.Discard => 0
      | _ => Reserve.UnsortedPairs p
    MakeTail := Pile.MakeTail
    FannedScreenRect := fun b p =>
      ⟨(⟨p.slot.X * 100, p.slot.Y * 200⟩ : Point).Add b.dragOffset,
       (⟨p.slot.X * 100 + 90, p.slot.Y * 200 + 122 + 20 * p.cards.length⟩ : Point).Add
         b.dragOffset⟩ }

/-- The jack of diamonds of tableau 3, dragged from its place onto tableau 4. -/
def draggedJack : Card :=
  { faceUp 2 11 3 with pos := ⟨110, 250⟩, dragStart := ⟨0, 240⟩, beingDragged := true }

/-- The sample board while the top card of tableau 3 (the jack of diamonds) is
being dragged as the tail. -/
def sampleBoardDragging : Baize :=
  { sampleBoard with
    piles := [(samplePile PileKind.Stock [faceDown 1 5 0, faceDown 3 9 0] 2).atSlot 0 0,
              (samplePile PileKind.Waste [faceUp 2 7 1, faceUp 1 11 1, faceUp 4 2 1,
                faceUp 3 6 1, faceUp 1 8 1] 0).atSlot 1 0,
              (samplePile PileKind.Foundation [faceUp 4 1 2] 0).atSlot 2 0,
              (samplePile PileKind.Tableau
                [faceDown 4 13 3, faceUp 2 12 3, draggedJack] 0).atSlot 0 1,
              (samplePile PileKind.Tableau [faceUp 3 4 4, faceUp 1 12 4] 0).atSlot 1 1],
    tail := [draggedJack] }

/-- The sample board while the top card of tableau 3 is being dragged and is now
the card value `c`. -/
def sampleBoardWith (c : Card) : Baize :=
  { sampleBoard with
    piles := [(samplePile PileKind.Stock [faceDown 1 5 0, faceDown 3 9 0] 2).atSlot 0 0,
              (samplePile PileKind.Waste [faceUp 2 7 1, faceUp 1 11 1, faceUp 4 2 1,
                faceUp 3 6 1, faceUp 1 8 1] 0).atSlot 1 0,
              (samplePile PileKind.Foundation [faceUp 4 1 2] 0).atSlot 2 0,
              (samplePile PileKind.Tableau [faceDown 4 13 3, faceUp 2 12 3, c] 0).atSlot 0 1,
              (samplePile PileKind.Tableau [faceUp 3 4 4, faceUp 1 12 4] 0).atSlot 1 1],
    tail := [c] }

/-- The jack of diamonds of tableau 3, dragged over the waste. -/
def jackOverWaste : Card :=
  { faceUp 2 11 3 with pos := ⟨110, 50⟩, dragStart := ⟨0, 240⟩, beingDragged := true }

/-- The jack of diamonds of tableau 3, dragged away from every pile. -/
def jackNowhere : Card :=
  { faceUp 2 11 3 with pos := ⟨1000, 1000⟩, dragStart := ⟨0, 240⟩, beingDragged := true }

/-- A sample environment whose source piles refuse to release any tail. -/
def stubbornEnv : Env :=
  { sampleEnv with CanMoveTail := fun _ _ _ => (false, some "This pile keeps its cards") }

/-- A board of the Easy layout in small: the stock, the waste and the foundation
are empty, tableau 3 holds the king and the queen of spades, tableau 4 the nine of
clubs and the jack of diamonds, and tableau 5 is empty; the queen of spades is the
tail. -/
def halfBoard : Baize :=
  { piles := [(samplePile PileKind.Stock [] 2).atSlot 0 0,
              (samplePile PileKind.Waste [] 0).atSlot 1 0,
              (samplePile PileKind.Foundation [] 0).atSlot 2 0,
              (samplePile PileKind.Tableau [faceUp 4 13 3, faceUp 4 12 3] 0).atSlot 0 1,
              (samplePile PileKind.Tableau [faceUp 1 9 4, faceUp 2 11 4] 0).atSlot 1 1,
              (samplePile PileKind.Tableau [] 0).atSlot 2 1],
    stock := some 0, waste := some 1, foundations := [2], tableaux := [3, 4, 5],
    discards := [], tail := [faceUp 4 12 3], bookmark := 0, undoStack := [], events := [] }

/-- A board of the Easy layout in small: the stock, the waste and the foundation
are empty, tableau 3 holds the jack of diamonds alone, tableau 4 the queen of
diamonds and tableau 5 the nine of clubs and the two of hearts; the jack of
diamonds is the tail. -/
def loneJackBoard : Baize :=
  { piles := [(samplePile PileKind.Stock [] 2).atSlot 0 0,
              (samplePile PileKind.Waste [] 0).atSlot 1 0,
              (samplePile PileKind.Foundation [] 0).atSlot 2 0,
              (samplePile PileKind.Tableau [faceUp 2 11 3] 0).atSlot 0 1,
              (samplePile PileKind.Tableau [faceUp 2 12 4] 0).atSlot 1 1,
              (samplePile PileKind.Tableau [faceUp 1 9 5, faceUp 3 2 5] 0).atSlot 2 1],
    stock := some 0, waste := some 1, foundations := [2], tableaux := [3, 4, 5],
    discards := [], tail := [faceUp 2 11 3], bookmark := 0, undoStack := [], events := [] }

/-- The sample environment with the collect action of the spec. -/
def collectingEnv : Env := { sampleEnv with Collect := Pile.Collect sampleEnv.CanAcceptTail }

/-- A board on which collecting takes three passes: the foundation holds the ace of
spades, the waste the two, tableau 3 the four and tableau 4 the three of
spades. -/
def collectBoard : Baize :=
  { piles := [(samplePile PileKind.Stock [faceDown 1 5 0] 2).atSlot 0 0,
              (samplePile PileKind.Waste [faceUp 4 2 1] 0).atSlot 1 0,
              (samplePile PileKind.Foundation [faceUp 4 1 2] 0).atSlot 2 0,
              (samplePile PileKind.Tableau [faceUp 2 12 3, faceUp 4 4 3] 0).atSlot 0 1,
              (samplePile PileKind.Tableau [faceUp 4 3 4] 0).atSlot 1 1],
    stock := some 0, waste := some 1, foundations := [2], tableaux := [3, 4], discards := [],
    tail := [], bookmark := 0, undoStack := [], events := [] }

/-- An unshuffled pack of 52 cards: suits 1 to 4, in each the ordinals 1 to 13. -/
def samplePack : List Card :=
  (List.range 4).flatMap (fun s => (List.range 13).map (fun o => NewCard 0 (s + 1) (o + 1)))

/-- An empty board. -/
def emptyBoard : Baize :=
  { piles := [], stock := none, waste := none, foundations := [], tableaux := [], discards := [],
    tail := [], bookmark := 0, undoStack := [], events := [] }

/-- A layout whose only pile, a tableau fanned to the right, stands at slot
(40000, 1). -/
def farBoard : Baize :=
  { piles := [{ samplePile PileKind.Tableau [faceUp 2 12 0] 0 with
                slot := ⟨40000, 1⟩, fanType := FanType.FAN_RIGHT }],
    stock := none, waste := none, foundations := [], tableaux := [0], discards := [],
    tail := [], bookmark := 0, undoStack := [], events := [] }

/-- A layout of six piles: a hidden one, the stock at slot 0, the waste fanned to
the right at slot 1, a foundation at slot 5 and two tableaux. -/
def mirrorBoard : Baize :=
  { piles := [{ samplePile PileKind.Cell [] 0 with slot := ⟨-5, 0⟩, fanType := FanType.FAN_LEFT },
              (samplePile PileKind.Stock [faceDown 1 5 1] 0).atSlot 0 0,
              { samplePile PileKind.Waste [faceUp 2 7 2] 0 with
                slot := ⟨1, 0⟩, fanType := FanType.FAN_RIGHT3 },
              (samplePile PileKind.Foundation [] 0).atSlot 5 0,
              { samplePile PileKind.Tableau [faceUp 2 12 4] 0 with
                slot := ⟨2, 1⟩, fanType := FanType.FAN_DOWN },
              { samplePile PileKind.Tableau [] 0 with
                slot := ⟨3, 1⟩, fanType := FanType.FAN_LEFT }],
    stock := some 1, waste := some 2, foundations := [3], tableaux := [4, 5], discards := [],
    tail := [], bookmark := 0, undoStack := [], events := [] }

/-- An Easy board in play, laid out on the screen: the stock (pile 0) with one
card at (0, 0), the waste (pile 1) with the six of hearts at (100, 0) and the eight
of clubs fanned over it at (120, 0), a foundation (pile 2) and a tableau (pile 3)
with the queen and the jack of diamonds at (0, 200) and (0, 220). -/
def fanBoard : Baize :=
  { piles := [(samplePile PileKind.Stock [faceDown 1 5 0] 2).atSlot 0 0,
              { samplePile PileKind.Waste
                  [{ faceUp 3 6 1 with pos := ⟨100, 0⟩ }, { faceUp 1 8 1 with pos := ⟨120, 0⟩ }] 0
                with slot := ⟨1, 0⟩, fanType := FanType.FAN_RIGHT3 },
              (samplePile PileKind.Foundation [] 0).atSlot 9 0,
              { samplePile PileKind.Tableau
                  [{ faceUp 2 12 3 with pos := ⟨0, 200⟩ }, { faceUp 2 11 3 with pos := ⟨0, 220⟩ }] 0
                with slot := ⟨0, 1⟩, fanType := FanType.FAN_DOWN }],
    stock := some 0, waste := some 1, foundations := [2], tableaux := [3], discards := [],
    tail := [], bookmark := 0, undoStack := [], events := [] }

end Sol

/-! # Theorems -/

namespace Sol

theorem Pile.Peek_eq_none_iff (p : Pile) : p.Peek = none ↔ p.Empty = true := by
  simp [Pile.Peek, Pile.Empty, List.getLast?_eq_none_iff]

theorem Pile.Peek_isSome_of_not_Empty (p : Pile) (h : p.Empty = false) :
    ∃ top, p.Peek = some top := by
  cases hp : p.Peek with
  | none => rw [Pile.Peek_eq_none_iff] at hp; rw [hp] at h; cases h
  | some top => exact ⟨top, rfl⟩

/-- C1: on a Foundation, Easy.TailAppendError accepts a non-empty tail exactly when
the foundation is empty and the tail starts with an Ace, or the foundation is not
empty and the tail starts one rank above its top card in the same suit; an empty
foundation offered anything but an Ace answers false with the reason "Empty
Foundations can only accept an Ace". -/
theorem Easy.TailAppendError_foundation (r : CompareReasons) (dst : Pile) (t0 : Card)
    (rest : List Card) (hk : dst.kind = PileKind.Foundation) :
    (Easy.TailAppendError r dst (t0 :: rest) = some (true, none) ↔
      (dst.Empty = true ∧ t0.Ordinal = 1) ∨
      (dst.Empty = false ∧ ∃ top, dst.Peek = some top ∧
        t0.Ordinal = top.Ordinal + 1 ∧ t0.Suit = top.Suit)) ∧
    (dst.Empty = true → t0.Ordinal ≠ 1 →
      Easy.TailAppendError r dst (t0 :: rest)
        = some (false, some "Empty Foundations can only accept an Ace")) := by
  cases he : dst.Empty with
  | true =>
    by_cases h1 : t0.Ordinal = 1 <;> simp [Easy.TailAppendError, hk, he, h1]
  | false =>
    obtain ⟨top, htop⟩ := Pile.Peek_isSome_of_not_Empty dst he
    have hres : Easy.TailAppendError r dst (t0 :: rest)
        = some (CardPair.Compare_UpSuit r ⟨top, t0⟩) := by
      simp [Easy.TailAppendError, hk, he, htop]
    rw [hres]
    refine ⟨?_, fun h => by cases h⟩
    by_cases h : t0.Ordinal = top.Ordinal + 1 ∧ top.Suit = t0.Suit
    · have hc : CardPair.Compare_UpSuit r ⟨top, t0⟩ = (true, none) := by
        unfold CardPair.Compare_UpSuit; exact if_pos h
      rw [hc]
      exact ⟨fun _ => Or.inr ⟨rfl, top, htop, h.1, h.2.symm⟩, fun _ => rfl⟩
    · have hc : CardPair.Compare_UpSuit r ⟨top, t0⟩ = (false, some (r.UpSuit ⟨top, t0⟩)) := by
        unfold CardPair.Compare_UpSuit; exact if_neg h
      rw [hc]
      constructor
      · intro hx; cases hx
      · rintro (⟨hx, _⟩ | ⟨_, top2, ht2, ha, hb⟩)
        · cases hx
        · rw [htop] at ht2
          obtain rfl : top = top2 := Option.some.inj ht2
          exact absurd ⟨ha, hb.symm⟩ h

/-- Witness of C1: the empty foundation offered the ace of spades, then the two of
spades; and the foundation holding the ace of spades offered the two. -/
theorem Easy.TailAppendError_foundation_witness :
    (Easy.TailAppendError sampleReasons emptyFoundation [faceUp 4 1 1] = some (true, none)) ∧
    (Easy.TailAppendError sampleReasons emptyFoundation [faceUp 4 2 1]
      = some (false, some "Empty Foundations can only accept an Ace")) ∧
    (Easy.TailAppendError sampleReasons aceFoundation [faceUp 4 2 1] = some (true, none)) :=
  ⟨(Easy.TailAppendError_foundation sampleReasons emptyFoundation (faceUp 4 1 1) [] rfl).1.2
      (Or.inl ⟨rfl, rfl⟩),
   (Easy.TailAppendError_foundation sampleReasons emptyFoundation (faceUp 4 2 1) [] rfl).2
      rfl (by decide),
   (Easy.TailAppendError_foundation sampleReasons aceFoundation (faceUp 4 2 1) [] rfl).1.2
      (Or.inr ⟨rfl, faceUp 4 1 2, rfl, rfl, rfl⟩)⟩

/-- C2 fails as stated: the tableau [king of spades down, queen of diamonds up]
offered the jack of clubs does not answer false with a reason; it accepts. -/
theorem Easy.queen_jack_offer_not_rejected :
    Easy.TailAppendError sampleReasons tableauKQ [jackClubs] = some (true, none) ∧
    ¬ ∃ reason, Easy.TailAppendError sampleReasons tableauKQ [jackClubs]
        = some (false, some reason) := by
  have h : Easy.TailAppendError sampleReasons tableauKQ [jackClubs] = some (true, none) := by
    decide
  exact ⟨h, fun ⟨reason, hr⟩ => by rw [h] at hr; cases hr⟩

/-- C2 as amended: in the Easy variant the tableau [king of spades down, queen of
diamonds up] accepts the tail [jack of clubs up], whatever the reason texts of
the comparators: appending to a tableau compares ranks only (Compare_Down), and
the jack is one rank below the queen. -/
theorem Easy.queen_jack_offer_accepted (r : CompareReasons) :
    Easy.TailAppendError r tableauKQ [jackClubs] = some (true, none) ∧
    CardPair.Compare_Down r ⟨faceUp 2 12 6, jackClubs⟩ = (true, none) ∧
    (faceUp 2 12 6).Suit ≠ jackClubs.Suit := by
  refine ⟨?_, ?_, by decide⟩
  · simp [Easy.TailAppendError, tableauKQ, samplePile, Pile.Empty, Pile.Peek,
      CardPair.Compare_Down, Card.Ordinal, jackClubs, faceUp, faceDown, NewCard, Card.FlipUp,
      Card.SetOwner, Card.Prone]
  · simp [CardPair.Compare_Down, Card.Ordinal, jackClubs, faceUp, NewCard, Card.FlipUp,
      Card.SetOwner, Card.Prone]

/-- C3: on a Tableau, Easy.TailAppendError accepts every non-empty tail when the
tableau is empty; when it is not, the answer (boolean and reason) is that of
Compare_Down on the pair (top card of the tableau, first card of the tail), so
two offers with the same top card and the same first tail card get the same
answer. -/
theorem Easy.TailAppendError_tableau (r : CompareReasons) (dst : Pile) (t0 : Card)
    (rest : List Card) (hk : dst.kind = PileKind.Tableau) :
    (dst.Empty = true → Easy.TailAppendError r dst (t0 :: rest) = some (true, none)) ∧
    (∀ top, dst.Peek = some top →
      Easy.TailAppendError r dst (t0 :: rest) = some (CardPair.Compare_Down r ⟨top, t0⟩)) ∧
    (∀ (dst2 : Pile) (rest2 : List Card), dst2.kind = PileKind.Tableau → dst2.Peek = dst.Peek →
      Easy.TailAppendError r dst2 (t0 :: rest2) = Easy.TailAppendError r dst (t0 :: rest)) := by
  have key : ∀ (d : Pile) (rs : List Card), d.kind = PileKind.Tableau →
      Easy.TailAppendError r d (t0 :: rs)
        = match d.Peek with
          | none => some (true, none)
          | some top => some (CardPair.Compare_Down r ⟨top, t0⟩) := by
    intro d rs hd
    cases he : d.Empty with
    | true =>
      have hp : d.Peek = none := (Pile.Peek_eq_none_iff d).2 he
      simp [Easy.TailAppendError, hd, he, hp]
    | false =>
      obtain ⟨top, htop⟩ := Pile.Peek_isSome_of_not_Empty d he
      simp [Easy.TailAppendError, hd, he, htop]
  refine ⟨fun he => ?_, fun top htop => ?_, fun dst2 rest2 hk2 hp => ?_⟩
  · rw [key dst rest hk, (Pile.Peek_eq_none_iff dst).2 he]
  · rw [key dst rest hk, htop]
  · rw [key dst rest hk, key dst2 rest2 hk2, hp]

/-- Witness of C3: the empty tableau takes a king, and the tableau of the spec
example answers as Compare_Down does on (queen of diamonds, jack of clubs). -/
theorem Easy.TailAppendError_tableau_witness :
    (Easy.TailAppendError sampleReasons (samplePile PileKind.Tableau [] 0) [faceUp 3 13 1]
      = some (true, none)) ∧
    (Easy.TailAppendError sampleReasons tableauKQ [jackClubs]
      = some (CardPair.Compare_Down sampleReasons ⟨faceUp 2 12 6, jackClubs⟩)) :=
  ⟨(Easy.TailAppendError_tableau sampleReasons (samplePile PileKind.Tableau [] 0)
      (faceUp 3 13 1) [] rfl).1 rfl,
   (Easy.TailAppendError_tableau sampleReasons tableauKQ jackClubs [] rfl).2.1
      (faceUp 2 12 6) rfl⟩

theorem Easy.TailMoveError.loop_true_iff (r : CompareReasons) (pairs : List CardPair) :
    Easy.TailMoveError.loop r pairs = (true, none) ↔
      ∀ pair ∈ pairs, (pair.Compare_DownSuit r).1 = true := by
  induction pairs with
  | nil => simp [Easy.TailMoveError.loop]
  | cons p ps ih =>
    cases hp : (p.Compare_DownSuit r).1 with
    | true => simp [Easy.TailMoveError.loop, hp, ih]
    | false => simp [Easy.TailMoveError.loop, hp]

theorem Easy.TailMoveError.loop_first_failure (r : CompareReasons) (pairs : List CardPair)
    (h : ¬ ∀ pair ∈ pairs, (pair.Compare_DownSuit r).1 = true) :
    ∃ pre pair post, pairs = pre ++ pair :: post ∧
      (∀ q ∈ pre, (q.Compare_DownSuit r).1 = true) ∧ (pair.Compare_DownSuit r).1 = false ∧
      Easy.TailMoveError.loop r pairs = (false, (pair.Compare_DownSuit r).2) := by
  induction pairs with
  | nil => exact absurd (fun _ hx => (by cases hx)) h
  | cons p ps ih =>
    cases hp : (p.Compare_DownSuit r).1 with
    | false =>
      exact ⟨[], p, ps, rfl, fun _ hq => (by cases hq), hp, (by simp [Easy.TailMoveError.loop, hp])⟩
    | true =>
      have h2 : ¬ ∀ pair ∈ ps, (pair.Compare_DownSuit r).1 = true := by
        intro hall
        apply h
        intro q hq
        rcases List.mem_cons.1 hq with rfl | hq
        · exact hp
        · exact hall q hq
      obtain ⟨pre, pair, post, he, hpre, hfail, hres⟩ := ih h2
      refine ⟨p :: pre, pair, post, by rw [he]; rfl, ?_, hfail, ?_⟩
      · intro q hq
        rcases List.mem_cons.1 hq with rfl | hq
        · exact hp
        · exact hpre q hq
      · simp [Easy.TailMoveError.loop, hp, hres]

/-- C4: for a tail whose first card is owned by a Tableau, Easy.TailMoveError
answers (true, no reason) exactly when every adjacent pair of the tail passes
Compare_DownSuit, and otherwise answers false with the reason of the first failing
pair in tail order; a single-card tail is always movable; and when the first
card is owned by any other kind of pile the answer is (true, no reason). -/
theorem Easy.TailMoveError_tableau (r : CompareReasons) (b : Baize) (t0 : Card)
    (rest : List Card) :
    ((t0.Owner.bind b.pile?).map Pile.kind = some PileKind.Tableau →
      (Easy.TailMoveError r b (t0 :: rest) = some (true, none) ↔
        ∀ pair ∈ NewCardPairs (t0 :: rest), (pair.Compare_DownSuit r).1 = true) ∧
      ((¬ ∀ pair ∈ NewCardPairs (t0 :: rest), (pair.Compare_DownSuit r).1 = true) →
        ∃ pre pair post, NewCardPairs (t0 :: rest) = pre ++ pair :: post ∧
          (∀ q ∈ pre, (q.Compare_DownSuit r).1 = true) ∧
          (pair.Compare_DownSuit r).1 = false ∧
          Easy.TailMoveError r b (t0 :: rest) = some (false, (pair.Compare_DownSuit r).2))) ∧
    Easy.TailMoveError r b [t0] = some (true, none) ∧
    ((t0.Owner.bind b.pile?).map Pile.kind ≠ some PileKind.Tableau →
      Easy.TailMoveError r b (t0 :: rest) = some (true, none)) := by
  refine ⟨fun hk => ?_, ?_, fun hk => ?_⟩
  · have hres : Easy.TailMoveError r b (t0 :: rest)
        = some (Easy.TailMoveError.loop r (NewCardPairs (t0 :: rest))) := by
      simp only [Easy.TailMoveError, List.head?_cons, hk]
    rw [hres]
    refine ⟨?_, fun hnot => ?_⟩
    · rw [← Easy.TailMoveError.loop_true_iff r]
      exact ⟨fun h => Option.some.inj h, fun h => congrArg some h⟩
    · obtain ⟨pre, pair, post, he, hpre, hfail, hloop⟩ :=
        Easy.TailMoveError.loop_first_failure r _ hnot
      exact ⟨pre, pair, post, he, hpre, hfail, congrArg some hloop⟩
  · simp only [Easy.TailMoveError, List.head?_cons]
    split <;> simp [NewCardPairs, Easy.TailMoveError.loop]
  · simp only [Easy.TailMoveError, List.head?_cons]

/-- Witness of C4 on the sample board: the run queen, jack of diamonds lifted from
tableau 3 is movable, the run four of hearts, queen of clubs lifted from tableau
4 is not, and a run lifted from the waste is. -/
theorem Easy.TailMoveError_tableau_witness :
    (Easy.TailMoveError sampleReasons sampleBoard [faceUp 2 12 3, faceUp 2 11 3]
      = some (true, none)) ∧
    (∃ pre pair post, NewCardPairs [faceUp 3 4 4, faceUp 1 12 4] = pre ++ pair :: post ∧
      (∀ q ∈ pre, (q.Compare_DownSuit sampleReasons).1 = true) ∧
      (pair.Compare_DownSuit sampleReasons).1 = false ∧
      Easy.TailMoveError sampleReasons sampleBoard [faceUp 3 4 4, faceUp 1 12 4]
        = some (false, (pair.Compare_DownSuit sampleReasons).2)) ∧
    (Easy.TailMoveError sampleReasons sampleBoard [faceUp 2 7 1, faceUp 1 11 1]
      = some (true, none)) :=
  ⟨((Easy.TailMoveError_tableau sampleReasons sampleBoard (faceUp 2 12 3) [faceUp 2 11 3]).1
      (by decide)).1.2 (by decide),
   ((Easy.TailMoveError_tableau sampleReasons sampleBoard (faceUp 3 4 4) [faceUp 1 12 4]).1
      (by decide)).2 (by decide),
   (Easy.TailMoveError_tableau sampleReasons sampleBoard (faceUp 2 7 1) [faceUp 1 11 1]).2.2
      (by decide)⟩

/-- C5: Stock and Waste never accept a tail in the Easy variant and a Reserve never
accepts one: whatever the tail (empty or not) and whatever the pile holds,
Easy.TailAppendError answers false with "You cannot move cards to the Stock" for
a Stock, false with "Waste can only accept cards from the Stock" for a Waste,
and Reserve.CanAcceptTail answers false with "Cannot add a card to a Reserve";
each reason is non-nil. -/
theorem Easy.TailAppendError_stock_waste_reserve (r : CompareReasons) (dst : Pile)
    (tail : List Card) :
    Easy.TailAppendError r { dst with kind := PileKind.Stock } tail
      = some (false, some "You cannot move cards to the Stock") ∧
    Easy.TailAppendError r { dst with kind := PileKind.Waste } tail
      = some (false, some "Waste can only accept cards from the Stock") ∧
    Reserve.CanAcceptTail tail = (false, some "Cannot add a card to a Reserve") ∧
    (∃ reason, Easy.TailAppendError r { dst with kind := PileKind.Stock } tail
      = some (false, some reason)) ∧
    (∃ reason, Easy.TailAppendError r { dst with kind := PileKind.Waste } tail
      = some (false, some reason)) ∧
    (∃ reason, Reserve.CanAcceptTail tail = (false, some reason)) :=
  ⟨rfl, rfl, rfl, ⟨_, rfl⟩, ⟨_, rfl⟩, ⟨_, rfl⟩⟩

/-- The model of `crc32.ChecksumIEEE` gives the standard CRC-32 check value on the
ASCII digits "123456789". -/
theorem ChecksumIEEE_check_value :
    ChecksumIEEE [0x31, 0x32, 0x33, 0x34, 0x35, 0x36, 0x37, 0x38, 0x39] = 0xCBF43926 := by
  simp [ChecksumIEEE, crc32Byte, crc32Bit]

/-- C8: Baize.CRC is the IEEE CRC-32 of the pile lengths, each truncated to 8 bits,
in registration order; so two boards whose piles have the same lengths position
by position have the same CRC, whatever cards they hold. -/
theorem Baize.CRC_counts_only (b : Baize) :
    b.CRC = ChecksumIEEE (b.piles.map (fun p => p.cards.length % 256)) ∧
    ∀ b2 : Baize, b2.piles.map (fun p => p.cards.length) = b.piles.map (fun p => p.cards.length) →
      b2.CRC = b.CRC := by
  refine ⟨rfl, fun b2 h => ?_⟩
  have h2 : b2.piles.map (fun p => p.Len % 256) = b.piles.map (fun p => p.Len % 256) := by
    have := congrArg (List.map (fun n => n % 256)) h
    simpa [List.map_map, Function.comp_def, Pile.Len] using this
  simp only [Baize.CRC, h2]

/-- Witness of C8: the sample board and its reshuffle hold different cards in the
same numbers and have the same CRC. -/
theorem Baize.CRC_counts_only_witness :
    sampleBoardShuffled.piles ≠ sampleBoard.piles ∧ sampleBoardShuffled.CRC = sampleBoard.CRC :=
  ⟨by decide, (Baize.CRC_counts_only sampleBoard).2 sampleBoardShuffled (by decide)⟩

/-! ## Moving cards between piles -/

theorem Baize.pile?_setPile_self (b : Baize) (i : Nat) (p q : Pile) (h : b.pile? i = some p) :
    (b.setPile i q).pile? i = some q := by
  have hlt : i < b.piles.length := by
    simp only [Baize.pile?] at h
    exact (List.getElem?_eq_some.1 h).1
  simp [Baize.pile?, Baize.setPile, hlt]

theorem Baize.pile?_setPile_ne (b : Baize) (i j : Nat) (q : Pile) (h : i ≠ j) :
    (b.setPile i q).pile? j = b.pile? j := by
  simp [Baize.pile?, Baize.setPile, List.getElem?_set_ne h]

theorem MoveCard_eq (b : Baize) (src dst : Nat) (sp dp : Pile) (c : Card)
    (hsrc : b.pile? src = some sp) (hc : sp.cards.getLast? = some c)
    (hdst : b.pile? dst = some dp) (hne : src ≠ dst) :
    MoveCard b src dst = some ((b.setPile src { sp with cards := sp.cards.dropLast }).setPile dst
      { dp with cards := dp.cards ++ [c.SetOwner (some dst)] }) := by
  have h2 : (b.setPile src { sp with cards := sp.cards.dropLast }).pile? dst = some dp := by
    rw [Baize.pile?_setPile_ne b src dst _ hne, hdst]
  simp [MoveCard, Baize.Pop, Baize.Push, hsrc, hc, h2, Card.SetOwner]

theorem MoveCard_frame (b b1 : Baize) (src dst : Nat) (h : MoveCard b src dst = some b1) :
    ∃ ps, b1 = { b with piles := ps } := by
  unfold MoveCard Baize.Pop at h
  cases hp : b.pile? src with
  | none => simp [hp] at h
  | some sp =>
    cases hc : sp.cards.getLast? with
    | none => simp [hp, hc] at h
    | some c =>
      simp only [hp, hc, Baize.Push] at h
      split at h
      · cases h
      · cases h
        exact ⟨_, rfl⟩

theorem Easy.PileTapped.loop_eq (w s : Nat) (hne : w ≠ s) :
    ∀ (fuel : Nat) (b : Baize) (wp sp : Pile), b.waste = some w → b.pile? w = some wp →
      b.pile? s = some sp → wp.Len < fuel →
      ∃ ps, Easy.PileTapped.loop fuel b s = some { b with piles := ps } ∧
        ps.length = b.piles.length ∧
        ps[w]? = some { wp with cards := [] } ∧
        ps[s]? = some { sp with cards :=
          sp.cards ++ wp.cards.reverse.map (fun c => c.SetOwner (some s)) } ∧
        ∀ j, j ≠ w → j ≠ s → ps[j]? = b.piles[j]? := by
  intro fuel
  induction fuel with
  | zero => intro b wp sp _ _ _ hf; exact absurd hf (Nat.not_lt_zero _)
  | succ fuel ih =>
    intro b wp sp hw hwp hsp hf
    have hstep : Easy.PileTapped.loop (fuel + 1) b s
        = if wp.Len > 0 then
            (match MoveCard b w s with
              | none => none
              | some b1 => Easy.PileTapped.loop fuel b1 s)
          else some b := by
      simp only [Easy.PileTapped.loop, hw, hwp]
    rcases List.eq_nil_or_concat wp.cards with hnil | ⟨init, c, hcat⟩
    · refine ⟨b.piles, ?_, rfl, ?_, ?_, fun _ _ _ => rfl⟩
      · have h0 : ¬ wp.Len > 0 := by simp [Pile.Len, hnil]
        rw [hstep, if_neg h0]
      · have : wp = { wp with cards := [] } := by
          cases wp; simp_all
        rw [← this]; exact hwp
      · have : sp = { sp with cards :=
            sp.cards ++ wp.cards.reverse.map (fun c => c.SetOwner (some s)) } := by
          cases sp; simp_all
        rw [← this]; exact hsp
    · rw [List.concat_eq_append] at hcat
      have hlast : wp.cards.getLast? = some c := by rw [hcat]; exact List.getLast?_concat init
      have hdrop : wp.cards.dropLast = init := by rw [hcat]; exact List.dropLast_concat
      have hmove := MoveCard_eq b w s wp sp c hwp hlast hsp hne
      rw [hdrop] at hmove
      have hw1 : (b.setPile w { wp with cards := init }).pile? w
          = some { wp with cards := init } := Baize.pile?_setPile_self b w wp _ hwp
      have hs1 : (b.setPile w { wp with cards := init }).pile? s = some sp := by
        rw [Baize.pile?_setPile_ne b w s _ hne, hsp]
      obtain ⟨ps, hloop, hlen, hpw, hps, hoth⟩ :=
        ih ((b.setPile w { wp with cards := init }).setPile s
            { sp with cards := sp.cards ++ [c.SetOwner (some s)] })
          { wp with cards := init } { sp with cards := sp.cards ++ [c.SetOwner (some s)] }
          hw
          (by rw [Baize.pile?_setPile_ne _ s w _ (Ne.symm hne)]; exact hw1)
          (Baize.pile?_setPile_self _ s sp _ hs1)
          (by
            have : wp.Len = init.length + 1 := by simp [Pile.Len, hcat]
            simp only [Pile.Len] at this hf ⊢
            omega)
      refine ⟨ps, ?_, ?_, hpw, ?_, ?_⟩
      · have hpos : wp.Len > 0 := by simp [Pile.Len, hcat]
        rw [hstep, if_pos hpos, hmove]
        show Easy.PileTapped.loop fuel _ s = _
        rw [hloop]
        rfl
      · rw [hlen]; simp [Baize.setPile]
      · rw [hps, hcat]; simp
      · intro j hjw hjs
        rw [hoth j hjw hjs]
        simp [Baize.setPile, List.getElem?_set_ne (Ne.symm hjw), List.getElem?_set_ne (Ne.symm hjs)]

/-- C6: Easy.PileTapped on the Stock `s` of a board whose waste `w` is another pile
holding n cards, run with more than n units of fuel.  With recycles above 0 it
returns a board that differs from the old one in its piles only: the waste is
empty, the stock has received the n waste cards (top of the waste first) and its
recycles are one less, and every other pile is unchanged.  With recycles at 0 (or
below) it only toasts "No more recycles": piles, undo stack and CRC are
unchanged.  Tapping a pile that is not a Stock returns the board unchanged. -/
theorem Easy.PileTapped_stock (fuel : Nat) (b : Baize) (s w : Nat) (sp wp : Pile)
    (hs : b.pile? s = some sp) (hk : sp.kind = PileKind.Stock) (hw : b.waste = some w)
    (hwp : b.pile? w = some wp) (hne : w ≠ s) (hfuel : wp.Len < fuel) :
    (0 < sp.recycles →
      ∃ ps wp2 sp2, Easy.PileTapped fuel b s = some { b with piles := ps } ∧
        ps.length = b.piles.length ∧
        ps[w]? = some wp2 ∧ wp2 = { wp with cards := [] } ∧ wp2.Len = 0 ∧
        ps[s]? = some sp2 ∧
        sp2 = { sp with
          cards := sp.cards ++ wp.cards.reverse.map (fun c => c.SetOwner (some s))
          recycles := sp.recycles - 1 } ∧
        sp2.Len = sp.Len + wp.Len ∧ sp2.recycles = sp.recycles - 1 ∧
        ∀ j, j ≠ w → j ≠ s → ps[j]? = b.piles[j]?) ∧
    (¬ 0 < sp.recycles →
      ∃ b2, Easy.PileTapped fuel b s = some b2 ∧ b2.piles = b.piles ∧
        b2.undoStack = b.undoStack ∧ b2.CRC = b.CRC ∧
        b2.events = b.events ++ [Event.Toast "No more recycles"]) ∧
    (∀ p, (b.pile? p).map Pile.kind ≠ some PileKind.Stock → Easy.PileTapped fuel b p = some b) := by
  refine ⟨fun hr => ?_, fun hr => ?_, fun p hp => ?_⟩
  · obtain ⟨ps, hloop, hlen, hpw, hps, hoth⟩ :=
      Easy.PileTapped.loop_eq w s hne fuel b wp sp hw hwp hs hfuel
    have hlt : s < ps.length := (List.getElem?_eq_some.1 hps).1
    refine ⟨ps.set s { sp with
        cards := sp.cards ++ wp.cards.reverse.map (fun c => c.SetOwner (some s))
        recycles := sp.recycles - 1 }, _, _, ?_, ?_, ?_, rfl, rfl, ?_, rfl, ?_, rfl, ?_⟩
    · simp only [Easy.PileTapped, hs, hk, hr, if_true, hloop]
      simp only [Baize.decRecycles, Baize.pile?, hps, Baize.setPile]
      rw [hk]
    · simp [hlen]
    · rw [List.getElem?_set_ne (Ne.symm hne), hpw]
    · simp [hlt]
    · simp [Pile.Len]
    · intro j hjw hjs
      rw [List.getElem?_set_ne (Ne.symm hjs), hoth j hjw hjs]
  · refine ⟨b.emit (Event.Toast "No more recycles"), ?_, rfl, rfl, rfl, rfl⟩
    simp only [Easy.PileTapped, hs, hk, hr, if_true, if_false]
  · cases hq : b.pile? p with
    | none => simp only [Easy.PileTapped, hq]
    | some q =>
      have hqk : q.kind ≠ PileKind.Stock := by
        intro h; apply hp; rw [hq]; simp [h]
      simp only [Easy.PileTapped, hq, hqk, if_false]

/-- Witness of C6 on the sample board (five waste cards, two recycles): after the
tap the waste is empty, the stock holds seven cards and has one recycle left. -/
theorem Easy.PileTapped_stock_witness :
    (∃ ps wp2 sp2, Easy.PileTapped 6 sampleBoard 0 = some { sampleBoard with piles := ps } ∧
        ps.length = sampleBoard.piles.length ∧
        ps[1]? = some wp2 ∧
        wp2 = { (samplePile PileKind.Waste [faceUp 2 7 1, faceUp 1 11 1, faceUp 4 2 1,
                faceUp 3 6 1, faceUp 1 8 1] 0).atSlot 1 0 with cards := [] } ∧
        wp2.Len = 0 ∧
        ps[0]? = some sp2 ∧
        sp2 = { (samplePile PileKind.Stock [faceDown 1 5 0, faceDown 3 9 0] 2).atSlot 0 0 with
          cards := [faceDown 1 5 0, faceDown 3 9 0] ++
            [faceUp 2 7 1, faceUp 1 11 1, faceUp 4 2 1, faceUp 3 6 1,
              faceUp 1 8 1].reverse.map (fun c => c.SetOwner (some 0))
          recycles := 2 - 1 } ∧
        sp2.Len = 2 + 5 ∧ sp2.recycles = 2 - 1 ∧
        ∀ j, j ≠ 1 → j ≠ 0 → ps[j]? = sampleBoard.piles[j]?) ∧
    Easy.PileTapped 6 sampleBoard 3 = some sampleBoard :=
  ⟨(Easy.PileTapped_stock 6 sampleBoard 0 1
      ((samplePile PileKind.Stock [faceDown 1 5 0, faceDown 3 9 0] 2).atSlot 0 0)
      ((samplePile PileKind.Waste [faceUp 2 7 1, faceUp 1 11 1, faceUp 4 2 1,
          faceUp 3 6 1, faceUp 1 8 1] 0).atSlot 1 0)
      rfl rfl rfl rfl (by decide) (by decide)).1 (by decide),
   (Easy.PileTapped_stock 6 sampleBoard 0 1
      ((samplePile PileKind.Stock [faceDown 1 5 0, faceDown 3 9 0] 2).atSlot 0 0)
      ((samplePile PileKind.Waste [faceUp 2 7 1, faceUp 1 11 1, faceUp 4 2 1,
          faceUp 3 6 1, faceUp 1 8 1] 0).atSlot 1 0)
      rfl rfl rfl rfl (by decide) (by decide)).2.2 3 (by decide)⟩

/-- C7: Easy.TailTapped with a one-card tail whose card is owned by the Stock `s`
(not empty, top card `top`) on a board whose waste `w` is another pile returns a
board that differs from the old one in its piles only: the stock has lost its top
card, that card is the new top card of the waste, and every other pile is
unchanged.  For any other tail (the owner is not a Stock, or the tail has not
exactly one card) the result is that of the owner pile's own TailTapped. -/
theorem Easy.TailTapped_stock (env : Env) (b : Baize) :
    (∀ (c1 top : Card) (s w : Nat) (sp wp : Pile), c1.Owner = some s → b.pile? s = some sp →
      sp.kind = PileKind.Stock → sp.Peek = some top → b.waste = some w → b.pile? w = some wp →
      s ≠ w →
      ∃ ps sp2 wp2, Easy.TailTapped env b [c1] = some { b with piles := ps } ∧
        ps.length = b.piles.length ∧
        ps[s]? = some sp2 ∧ sp2 = { sp with cards := sp.cards.dropLast } ∧
        sp2.Len + 1 = sp.Len ∧
        ps[w]? = some wp2 ∧ wp2 = { wp with cards := wp.cards ++ [top.SetOwner (some w)] } ∧
        wp2.Len = wp.Len + 1 ∧ wp2.Peek = some (top.SetOwner (some w)) ∧
        ∀ j, j ≠ s → j ≠ w → ps[j]? = b.piles[j]?) ∧
    (∀ (tail : List Card) (c1 : Card) (pile : Nat) (p : Pile), tail.head? = some c1 →
      c1.Owner = some pile → b.pile? pile = some p →
      ¬ (p.kind = PileKind.Stock ∧ tail.length = 1) →
      Easy.TailTapped env b tail = env.TailTapped b pile tail) := by
  constructor
  · intro c1 top s w sp wp ho hs hk htop hw hwp hne
    have hslt : s < b.piles.length := by
      simp only [Baize.pile?] at hs
      exact (List.getElem?_eq_some.1 hs).1
    have hwlt : w < b.piles.length := by
      simp only [Baize.pile?] at hwp
      exact (List.getElem?_eq_some.1 hwp).1
    have hne_nil : sp.cards ≠ [] := by
      intro h; simp [Pile.Peek, h] at htop
    have hpop : b.Pop s
        = some (top.SetOwner none, b.setPile s { sp with cards := sp.cards.dropLast }) := by
      simp only [Pile.Peek] at htop
      simp only [Baize.Pop, hs, htop]
    have hw1 : (b.setPile s { sp with cards := sp.cards.dropLast }).pile? w = some wp := by
      rw [Baize.pile?_setPile_ne b s w _ hne, hwp]
    refine ⟨(b.piles.set s { sp with cards := sp.cards.dropLast }).set w
        { wp with cards := wp.cards ++ [top.SetOwner (some w)] }, _, _, ?_, ?_, ?_, rfl, ?_,
        ?_, rfl, ?_, ?_, ?_⟩
    · have hcond : sp.kind = PileKind.Stock ∧ [c1].length = 1 := ⟨hk, rfl⟩
      have hw2 : (b.setPile s { sp with cards := sp.cards.dropLast }).waste = some w := hw
      simp only [Easy.TailTapped, List.head?_cons, ho, hs]
      rw [if_pos hcond]
      simp only [hpop, hw2, Baize.Push, hw1]
      rfl
    · simp
    · rw [List.getElem?_set_ne (Ne.symm hne)]
      simp [hslt]
    · have := List.length_pos.2 hne_nil
      simp only [Pile.Len, List.length_dropLast]
      omega
    · simp [hwlt]
    · simp [Pile.Len]
    · simp [Pile.Peek]
    · intro j hjs hjw
      rw [List.getElem?_set_ne (Ne.symm hjw), List.getElem?_set_ne (Ne.symm hjs)]
  · intro tail c1 pile p hh ho hp hcond
    simp only [Easy.TailTapped, hh, ho, hp, hcond, if_false]

/-- Witness of C7 on the sample board: tapping the top card of the stock deals the
nine of hearts to the waste; tapping the top card of tableau 3 is left to the
pile. -/
theorem Easy.TailTapped_stock_witness :
    (∃ ps sp2 wp2, Easy.TailTapped sampleEnv sampleBoard [faceDown 3 9 0]
          = some { sampleBoard with piles := ps } ∧
        ps.length = sampleBoard.piles.length ∧
        ps[0]? = some sp2 ∧
        sp2 = { (samplePile PileKind.Stock [faceDown 1 5 0, faceDown 3 9 0] 2).atSlot 0 0 with
          cards := [faceDown 1 5 0, faceDown 3 9 0].dropLast } ∧
        sp2.Len + 1 = 2 ∧
        ps[1]? = some wp2 ∧
        wp2 = { (samplePile PileKind.Waste [faceUp 2 7 1, faceUp 1 11 1, faceUp 4 2 1,
                faceUp 3 6 1, faceUp 1 8 1] 0).atSlot 1 0 with
          cards := [faceUp 2 7 1, faceUp 1 11 1, faceUp 4 2 1, faceUp 3 6 1, faceUp 1 8 1] ++
            [(faceDown 3 9 0).SetOwner (some 1)] } ∧
        wp2.Len = 5 + 1 ∧ wp2.Peek = some ((faceDown 3 9 0).SetOwner (some 1)) ∧
        ∀ j, j ≠ 0 → j ≠ 1 → ps[j]? = sampleBoard.piles[j]?) ∧
    Easy.TailTapped sampleEnv sampleBoard [faceUp 2 11 3]
      = sampleEnv.TailTapped sampleBoard 3 [faceUp 2 11 3] :=
  ⟨(Easy.TailTapped_stock sampleEnv sampleBoard).1 (faceDown 3 9 0) (faceDown 3 9 0) 0 1
      ((samplePile PileKind.Stock [faceDown 1 5 0, faceDown 3 9 0] 2).atSlot 0 0)
      ((samplePile PileKind.Waste [faceUp 2 7 1, faceUp 1 11 1, faceUp 4 2 1,
          faceUp 3 6 1, faceUp 1 8 1] 0).atSlot 1 0)
      rfl rfl rfl rfl rfl rfl (by decide),
   (Easy.TailTapped_stock sampleEnv sampleBoard).2 [faceUp 2 11 3] (faceUp 2 11 3) 3
      ((samplePile PileKind.Tableau
          [faceDown 4 13 3, faceUp 2 12 3, faceUp 2 11 3] 0).atSlot 0 1)
      rfl rfl rfl (by decide)⟩

/-! ## The commit rule -/

theorem Baize.userMoves_emit (b : Baize) (e : Event) (h : e ≠ Event.ScriptAfterMove) :
    (b.emit e).userMoves = b.userMoves := by
  simp [Baize.userMoves, Baize.emit, List.count_append, List.count_singleton, h]

theorem Baize.userMoves_emit_self (b : Baize) :
    (b.emit Event.ScriptAfterMove).userMoves = b.userMoves + 1 := by
  simp [Baize.userMoves, Baize.emit, List.count_append, List.count_singleton]

theorem Baize.AfterUserMove_history (s : ScriptInterface) (env : Env) (b : Baize)
    (hs : ∀ x : Baize, x.sameHistory (s.AfterMove x)) :
    (b.AfterUserMove s env).userMoves = b.userMoves + 1 ∧
    ∃ sav, (b.AfterUserMove s env).undoStack = b.undoStack ++ [sav] := by
  have h1 := hs (b.emit Event.ScriptAfterMove)
  have hu : ((s.AfterMove (b.emit Event.ScriptAfterMove)).UndoPush).userMoves
      = b.userMoves + 1 := by
    rw [← Baize.userMoves_emit_self b, ← h1.2]; rfl
  have hst : ((s.AfterMove (b.emit Event.ScriptAfterMove)).UndoPush).undoStack
      = b.undoStack ++ [(s.AfterMove (b.emit Event.ScriptAfterMove)).snapshot] := by
    show (s.AfterMove (b.emit Event.ScriptAfterMove)).undoStack ++ _ = _
    rw [h1.1]; rfl
  unfold Baize.AfterUserMove
  simp only []
  split
  · refine ⟨?_, _, hst⟩
    rw [Baize.userMoves_emit _ _ (by decide), Baize.userMoves_emit _ _ (by decide),
      Baize.userMoves_emit _ _ (by decide), Baize.userMoves_emit _ _ (by decide), hu]
  · split
    · exact ⟨by rw [Baize.userMoves_emit _ _ (by decide), hu], _, hst⟩
    · exact ⟨by rw [Baize.userMoves_emit _ _ (by decide), hu], _, hst⟩

theorem Baize.gated_of_commit (s : ScriptInterface) (env : Env) (b b1 b1s : Baize)
    (hs : ∀ x : Baize, x.sameHistory (s.AfterMove x)) (h1 : b.sameHistory b1)
    (h1s : b1.sameHistory b1s) :
    Baize.gated b b1 (if b.CRC ≠ b1.CRC then b1s.AfterUserMove s env else b1) := by
  constructor
  · intro hne
    rw [if_pos hne]
    obtain ⟨hu, sav, hst⟩ := Baize.AfterUserMove_history s env b1s hs
    exact ⟨by rw [hu, h1s.2, h1.2], sav, by rw [hst, h1s.1, h1.1]⟩
  · intro heq
    rw [if_neg (not_not.2 heq)]
    exact ⟨h1.2, h1.1⟩

theorem Baize.gated_StopTailDrag (b b1 b2 : Baize) (h : Baize.gated b b1 b2) :
    Baize.gated b b1 b2.StopTailDrag := h

theorem Baize.gated_of_same (b0 b b1 b2 : Baize) (h : Baize.gated b0 b1 b2)
    (hcrc : b0.CRC = b.CRC) (hu : b0.userMoves = b.userMoves)
    (hst : b0.undoStack = b.undoStack) : Baize.gated b b1 b2 := by
  unfold Baize.gated at h ⊢
  rw [hcrc, hu, hst] at h
  exact h

theorem Baize.sameHistory_emit_Sound (b : Baize) (name : String) :
    b.sameHistory (b.emit (Event.Sound name)) :=
  ⟨rfl, Baize.userMoves_emit b _ (by simp)⟩

theorem Baize.collectPass_sameHistory (env : Env) (he : env.keepsHistory) :
    ∀ (is : List Nat) (b b1 : Baize), Baize.collectPass env is b = some b1 → b.sameHistory b1 := by
  intro is
  induction is with
  | nil =>
    intro b b1 h
    simp only [Baize.collectPass] at h
    cases h
    exact ⟨rfl, rfl⟩
  | cons i rest ih =>
    intro b b1 h
    simp only [Baize.collectPass] at h
    cases hc : env.Collect b i with
    | none => simp [hc] at h
    | some bm =>
      simp only [hc] at h
      have h1 := he.2 b i bm hc
      have h2 := ih bm b1 h
      exact ⟨h2.1.trans h1.1, h2.2.trans h1.2⟩

theorem MoveCards_frame (b b1 : Baize) (c : Card) (dst : Nat) (h : MoveCards b c dst = some b1) :
    ∃ ps, b1 = { b with piles := ps } := by
  unfold MoveCards at h
  split at h
  · cases h
  · split at h
    · cases h
    · simp only [] at h
      split at h
      · split at h
        · cases h
        · cases h
          exact ⟨_, rfl⟩
      · cases h

theorem Baize.CRC_clearTargets (b : Baize) : b.clearTargets.CRC = b.CRC := by
  simp [Baize.CRC, Baize.clearTargets, List.map_map, Function.comp_def, Pile.Len]

theorem Baize.Pop_frame (b b1 : Baize) (i : Nat) (c : Card) (h : b.Pop i = some (c, b1)) :
    ∃ ps, b1 = { b with piles := ps } := by
  unfold Baize.Pop at h
  split at h
  · cases h
  · split at h
    · cases h
    · cases h
      exact ⟨_, rfl⟩

theorem Baize.Push_frame (b b1 : Baize) (i : Nat) (c : Card) (h : b.Push i c = some b1) :
    ∃ ps, b1 = { b with piles := ps } := by
  unfold Baize.Push at h
  split at h
  · cases h
  · cases h
    exact ⟨_, rfl⟩

theorem Easy.PileTapped.loop_frame :
    ∀ (fuel : Nat) (b b1 : Baize) (s : Nat), Easy.PileTapped.loop fuel b s = some b1 →
      ∃ ps, b1 = { b with piles := ps } := by
  intro fuel
  induction fuel with
  | zero => intro b b1 s h; simp [Easy.PileTapped.loop] at h
  | succ fuel ih =>
    intro b b1 s h
    unfold Easy.PileTapped.loop at h
    split at h
    · cases h
    · split at h
      · cases h
      · split at h
        · split at h
          · cases h
          · next bm hm =>
            obtain ⟨ps1, rfl⟩ := MoveCard_frame b bm _ s hm
            obtain ⟨ps2, rfl⟩ := ih _ b1 s h
            exact ⟨ps2, rfl⟩
        · cases h
          exact ⟨_, rfl⟩

theorem Easy.script_keepsHistory (env : Env) (fuel : Nat) (he : env.keepsHistory) :
    (Easy.script env fuel).keepsHistory := by
  refine ⟨fun b => ⟨rfl, rfl⟩, fun b tail b1 h => ?_, fun b p b1 h => ?_⟩
  · change Easy.TailTapped env b tail = some b1 at h
    unfold Easy.TailTapped at h
    split at h
    · cases h
    · split at h
      · cases h
      · split at h
        · cases h
        · split at h
          · split at h
            · cases h
            · next c2 bm hpop =>
              obtain ⟨ps1, rfl⟩ := Baize.Pop_frame b bm _ c2 hpop
              split at h
              · cases h
              · obtain ⟨ps2, rfl⟩ := Baize.Push_frame _ b1 _ c2 h
                exact ⟨rfl, rfl⟩
          · exact he.1 b _ tail b1 h
  · change Easy.PileTapped fuel b p = some b1 at h
    unfold Easy.PileTapped at h
    split at h
    · cases h
      exact ⟨rfl, rfl⟩
    · split at h
      · split at h
        · split at h
          · cases h
          · next bm hloop =>
            obtain ⟨ps1, rfl⟩ := Easy.PileTapped.loop_frame fuel b bm p hloop
            cases h
            unfold Baize.decRecycles
            split <;> exact ⟨rfl, rfl⟩
        · cases h
          exact ⟨rfl, Baize.userMoves_emit b _ (by simp)⟩
      · cases h
        exact ⟨rfl, rfl⟩

theorem sampleEnv_keepsHistory : sampleEnv.keepsHistory := by
  refine ⟨fun b i tail b1 h => ?_, fun b i b1 h => ?_⟩
  · cases (Option.some.inj h); exact ⟨rfl, rfl⟩
  · cases (Option.some.inj h); exact ⟨rfl, rfl⟩

/-- C9: the checksum-gated commit rule.  For a script and pile subtypes that leave
committing to the board, at each of the four sites (InputTap on a card, InputTap
on a pile, Collect, and the accepted-move branch of InputStop) the board the
caller ends with satisfies the rule against the board before the operation and
the board the operation leaves: AfterUserMove has run exactly once more, and the
undo stack has exactly one more entry, when the CRC after the operation differs
from the CRC before it; when the two are equal AfterUserMove has not run and the
undo stack is unchanged. -/
theorem Baize.commit_iff_CRC_changed (s : ScriptInterface) (env : Env) (b : Baize)
    (hs : s.keepsHistory) (he : env.keepsHistory) :
    (∀ c b1, s.TailTapped b b.tail = some b1 →
      ∃ b2, Baize.InputTap s env b (DraggedObject.Card c) = some b2 ∧ Baize.gated b b1 b2) ∧
    (∀ p b1, s.PileTapped b p = some b1 →
      ∃ b2, Baize.InputTap s env b (DraggedObject.Pile p) = some b2 ∧ Baize.gated b b1 b2) ∧
    (∀ b1, Baize.collectPass env (List.range b.piles.length) b = some b1 →
      ∃ b2, Baize.Collect s env b = some b2 ∧ Baize.gated b b1 b2) ∧
    (∀ c src d b1, c.WasDragged = true → c.Owner = some src →
      b.clearTargets.LargestIntersection env c = some d →
      (env.CanMoveTail b.clearTargets src b.clearTargets.tail).1 = true → src ≠ d →
      (env.CanAcceptTail b.clearTargets d b.clearTargets.tail).1 = true →
      (if b.clearTargets.tail.length = 1 then MoveCard b.clearTargets src d
        else MoveCards b.clearTargets c d) = some b1 →
      ∃ b2, Baize.InputStop s env b (DraggedObject.Card c) = some b2 ∧ Baize.gated b b1 b2) := by
  refine ⟨fun c b1 h => ?_, fun p b1 h => ?_, fun b1 h => ?_,
    fun c src d b1 hdrag hown hdst hmove hne hacc hmv => ?_⟩
  · refine ⟨_, (by simp only [Baize.InputTap, h]; rfl), ?_⟩
    exact Baize.gated_StopTailDrag _ _ _
      (Baize.gated_of_commit s env b b1 _ hs.1 (hs.2.1 b _ b1 h)
        (Baize.sameHistory_emit_Sound b1 "Slide"))
  · refine ⟨_, (by simp only [Baize.InputTap, h]; rfl), ?_⟩
    exact Baize.gated_of_commit s env b b1 _ hs.1 (hs.2.2 b p b1 h)
      (Baize.sameHistory_emit_Sound b1 "Slide")
  · refine ⟨_, (by simp only [Baize.Collect, h]; rfl), ?_⟩
    exact Baize.gated_of_commit s env b b1 b1 hs.1
      (Baize.collectPass_sameHistory env he _ b b1 h) ⟨rfl, rfl⟩
  · have hframe : ∃ ps, b1 = { b.clearTargets with piles := ps } := by
      split at hmv
      · exact MoveCard_frame _ _ _ _ hmv
      · exact MoveCards_frame _ _ _ _ hmv
    obtain ⟨ps, rfl⟩ := hframe
    refine ⟨(if b.clearTargets.CRC ≠ ({ b.clearTargets with piles := ps } : Baize).CRC then
        Baize.AfterUserMove s env { b.clearTargets with piles := ps }
        else { b.clearTargets with piles := ps }).StopTailDrag, ?_, ?_⟩
    · simp only [Baize.InputStop, hdrag, if_true, hdst, Baize.InputStop.drop, hown, hmove,
        hacc, hne, Bool.not_true, Bool.false_eq_true, if_false, hmv]
    · have hg := Baize.gated_StopTailDrag _ _ _ (Baize.gated_of_commit s env b.clearTargets
        { b.clearTargets with piles := ps } { b.clearTargets with piles := ps } hs.1
        ⟨rfl, rfl⟩ ⟨rfl, rfl⟩)
      exact Baize.gated_of_same _ b _ _ hg (Baize.CRC_clearTargets b) rfl rfl

/-- Witness of C9 with the Easy script on the sample board: a tap on the stock
(the recycle changes the CRC) and the drop of the dragged jack of diamonds on
tableau 4 both satisfy the commit rule. -/
theorem Baize.commit_iff_CRC_changed_witness :
    (∃ b2, Baize.InputTap (Easy.script sampleEnv 6) sampleEnv sampleBoardDragging
        (DraggedObject.Pile 0) = some b2 ∧
      Baize.gated sampleBoardDragging
        ((Easy.PileTapped 6 sampleBoardDragging 0).getD sampleBoardDragging) b2) ∧
    (∃ b2, Baize.InputStop (Easy.script sampleEnv 6) sampleEnv sampleBoardDragging
        (DraggedObject.Card draggedJack) = some b2 ∧
      Baize.gated sampleBoardDragging
        ((MoveCard sampleBoardDragging.clearTargets 3 4).getD sampleBoardDragging) b2) :=
  ⟨(Baize.commit_iff_CRC_changed (Easy.script sampleEnv 6) sampleEnv sampleBoardDragging
      (Easy.script_keepsHistory sampleEnv 6 sampleEnv_keepsHistory) sampleEnv_keepsHistory).2.1
      0 _ (by decide),
   (Baize.commit_iff_CRC_changed (Easy.script sampleEnv 6) sampleEnv sampleBoardDragging
      (Easy.script_keepsHistory sampleEnv 6 sampleEnv_keepsHistory) sampleEnv_keepsHistory).2.2.2
      draggedJack 3 4 _ (by decide) rfl (by decide) (by decide) (by decide) (by decide)
      (by decide)⟩

/-! ## A drag never ends on its source -/

theorem Baize.LargestIntersection.loop_ne_owner (env : Env) (c : Card) (d : Nat) :
    ∀ (piles : List Pile) (i : Nat) (largestArea : Int) (pile : Option Nat),
      Baize.LargestIntersection.loop env c piles i largestArea pile = some d →
      pile = some d ∨ c.Owner ≠ some d := by
  intro piles
  induction piles with
  | nil =>
    intro i largestArea pile h
    exact Or.inl h
  | cons p rest ih =>
    intro i largestArea pile h
    unfold Baize.LargestIntersection.loop at h
    split at h
    · exact ih _ _ _ h
    · next hown =>
      simp only [] at h
      split at h
      · rcases ih _ _ _ h with hd | hd
        · right
          intro hc
          apply hown
          rw [hd]
          exact hc.symm
        · exact Or.inr hd
      · exact ih _ _ _ h

theorem Baize.idents_ApplyToTail (b : Baize) (fn : Card → Card)
    (hfn : ∀ c, (fn c).ident = c.ident) : (b.ApplyToTail fn).idents = b.idents := by
  unfold Baize.idents Baize.ApplyToTail
  show List.map (fun p : Pile => p.cards.map Card.ident) (b.piles.map _) = _
  rw [List.map_map]
  apply List.map_congr_left
  intro p _
  show List.map Card.ident (p.cards.map _) = _
  rw [List.map_map]
  apply List.map_congr_left
  intro c _
  show Card.ident (if b.tail.any (Card.sameID c) = true then fn c else c) = _
  split
  · exact hfn c
  · rfl

theorem Baize.idents_CancelTailDrag (b : Baize) : b.CancelTailDrag.idents = b.idents :=
  Baize.idents_ApplyToTail b Card.CancelDrag (fun _ => rfl)

theorem Baize.idents_clearTargets (b : Baize) : b.clearTargets.idents = b.idents := by
  simp [Baize.idents, Baize.clearTargets, List.map_map, Function.comp_def]

theorem Baize.userMoves_toastError (b : Baize) (err : GoError) :
    (b.toastError err).userMoves = b.userMoves := by
  cases err with
  | none => rfl
  | some msg => exact Baize.userMoves_emit b _ (by simp)

theorem Baize.toastError_frame (b : Baize) (err : GoError) :
    ∃ ev, b.toastError err = { b with events := ev } := by
  cases err with
  | none => exact ⟨_, rfl⟩
  | some msg => exact ⟨_, rfl⟩

theorem Baize.cancelled_unchanged (b : Baize) (err : GoError) :
    (b.toastError err).CancelTailDrag.undoStack = b.undoStack ∧
    (b.toastError err).CancelTailDrag.userMoves = b.userMoves ∧
    (b.toastError err).CancelTailDrag.tail = [] ∧
    (b.toastError err).CancelTailDrag.idents = b.idents := by
  obtain ⟨ev, hev⟩ := Baize.toastError_frame b err
  refine ⟨?_, ?_, rfl, ?_⟩
  · rw [hev]; rfl
  · exact Baize.userMoves_toastError b err
  · rw [Baize.idents_CancelTailDrag, hev]; rfl

/-- C10: a drag is never committed onto its own source pile.  The destination that
LargestIntersection returns is never the owner of the dragged card.  Were the
destination the source all the same, the drop would only cancel the tail: undo
stack, number of committed moves and the cards of every pile stay as they are.
And whenever InputStop on a dragged card pushes an undo entry, runs
AfterUserMove or changes which cards lie in which pile, it has moved the tail
from the card's owner to a destination that is another pile. -/
theorem Baize.InputStop_never_commits_to_source (s : ScriptInterface) (env : Env)
    (b : Baize) (c : Card) :
    (∀ d, b.LargestIntersection env c = some d → c.Owner ≠ some d) ∧
    (∀ src, c.Owner = some src →
      ∃ b2, Baize.InputStop.drop s env b c (some src) = some b2 ∧
        b2.undoStack = b.undoStack ∧ b2.userMoves = b.userMoves ∧ b2.tail = [] ∧
        b2.idents = b.idents) ∧
    (∀ b2, Baize.InputStop s env b (DraggedObject.Card c) = some b2 →
      (b2.undoStack ≠ b.undoStack ∨ b2.userMoves ≠ b.userMoves ∨ b2.idents ≠ b.idents) →
      ∃ src d b1, c.Owner = some src ∧ b.clearTargets.LargestIntersection env c = some d ∧
        src ≠ d ∧
        (if b.clearTargets.tail.length = 1 then MoveCard b.clearTargets src d
          else MoveCards b.clearTargets c d) = some b1) := by
  have hcancel := Baize.cancelled_unchanged
  refine ⟨fun d h => ?_, fun src hown => ?_, fun b2 h hchg => ?_⟩
  · rcases Baize.LargestIntersection.loop_ne_owner env c d _ _ _ _ h with hd | hd
    · cases hd
    · exact hd
  · simp only [Baize.InputStop.drop, hown]
    split
    · exact ⟨_, rfl, hcancel b _⟩
    · exact ⟨_, rfl, hcancel b none⟩
  · have hct : b.clearTargets.undoStack = b.undoStack ∧ b.clearTargets.userMoves = b.userMoves ∧
        b.clearTargets.idents = b.idents := ⟨rfl, rfl, Baize.idents_clearTargets b⟩
    have hsame : ∀ err, (b.clearTargets.toastError err).CancelTailDrag = b2 → False := by
      intro err he
      obtain ⟨h1, h2, _, h4⟩ := hcancel b.clearTargets err
      rw [he] at h1 h2 h4
      rcases hchg with hx | hx | hx
      · exact hx (h1.trans hct.1)
      · exact hx (h2.trans hct.2.1)
      · exact hx (h4.trans hct.2.2)
    simp only [Baize.InputStop] at h
    split at h
    · unfold Baize.InputStop.drop at h
      split at h
      · exact absurd (Option.some.inj h) (fun he => hsame none he)
      · next d hd =>
        split at h
        · cases h
        · next src hown =>
          split at h
          · exact absurd (Option.some.inj h) (fun he => hsame _ he)
          · split at h
            · exact absurd (Option.some.inj h) (fun he => hsame none he)
            · next hne =>
              split at h
              · exact absurd (Option.some.inj h) (fun he => hsame _ he)
              · split at h
                · cases h
                · next b1 hmv => exact ⟨src, d, b1, hown, hd, hne, hmv⟩
    · exfalso
      have he := Option.some.inj h
      rw [← he] at hchg
      rcases hchg with hx | hx | hx
      · exact hx hct.1
      · exact hx hct.2.1
      · exact hx hct.2.2

/-- Witness of C10 on the sample board: the dragged jack of diamonds, owned by
tableau 3, finds tableau 4 as destination; dropped on tableau 3 it would only be
cancelled; and the drop that is committed is a move from tableau 3 to another
pile. -/
theorem Baize.InputStop_never_commits_to_source_witness :
    (sampleBoardDragging.LargestIntersection sampleEnv draggedJack = some 4 ∧
      draggedJack.Owner ≠ some 4) ∧
    (∃ b2, Baize.InputStop.drop (Easy.script sampleEnv 6) sampleEnv sampleBoardDragging
        draggedJack (some 3) = some b2 ∧
      b2.undoStack = sampleBoardDragging.undoStack ∧
      b2.userMoves = sampleBoardDragging.userMoves ∧ b2.tail = [] ∧
      b2.idents = sampleBoardDragging.idents) ∧
    (∃ src d b1, draggedJack.Owner = some src ∧
      sampleBoardDragging.clearTargets.LargestIntersection sampleEnv draggedJack = some d ∧
      src ≠ d ∧
      (if sampleBoardDragging.clearTargets.tail.length = 1 then
          MoveCard sampleBoardDragging.clearTargets src d
        else MoveCards sampleBoardDragging.clearTargets draggedJack d) = some b1) :=
  ⟨⟨by decide,
    (Baize.InputStop_never_commits_to_source (Easy.script sampleEnv 6) sampleEnv
      sampleBoardDragging draggedJack).1 4 (by decide)⟩,
   (Baize.InputStop_never_commits_to_source (Easy.script sampleEnv 6) sampleEnv
      sampleBoardDragging draggedJack).2.1 3 rfl,
   (Baize.InputStop_never_commits_to_source (Easy.script sampleEnv 6) sampleEnv
      sampleBoardDragging draggedJack).2.2
      ((Baize.InputStop (Easy.script sampleEnv 6) sampleEnv sampleBoardDragging
        (DraggedObject.Card draggedJack)).getD sampleBoardDragging)
      (by decide) (Or.inl (by decide))⟩

/-! ## Rejected drags -/

theorem Baize.snapshot_ApplyToTail (b : Baize) (fn : Card → Card)
    (hfn : ∀ c, (fn c).ident = c.ident ∧ (fn c).prone = c.prone) :
    (b.ApplyToTail fn).snapshot = b.snapshot := by
  unfold Baize.snapshot Baize.ApplyToTail
  simp only [List.map_map]
  apply List.map_congr_left
  intro p _
  simp only [Function.comp_apply, List.map_map]
  congr 1
  apply List.map_congr_left
  intro c _
  simp only [Function.comp_apply]
  split
  · rw [(hfn c).1, (hfn c).2]
  · rfl

theorem Baize.CRC_ApplyToTail (b : Baize) (fn : Card → Card) :
    (b.ApplyToTail fn).CRC = b.CRC := by
  simp [Baize.CRC, Baize.ApplyToTail, List.map_map, Function.comp_def, Pile.Len]

theorem Baize.snapshot_clearTargets (b : Baize) : b.clearTargets.snapshot = b.snapshot := by
  simp [Baize.snapshot, Baize.clearTargets, List.map_map, Function.comp_def]

theorem Baize.untouched_cancelled (b : Baize) (err : GoError) :
    b.untouched (b.clearTargets.toastError err).CancelTailDrag := by
  obtain ⟨h1, h2, h3, h4⟩ := Baize.cancelled_unchanged b.clearTargets err
  obtain ⟨ev, hev⟩ := Baize.toastError_frame b.clearTargets err
  refine ⟨h4.trans (Baize.idents_clearTargets b), ?_, ?_, h1, h2, h3⟩
  · unfold Baize.CancelTailDrag
    show ((b.clearTargets.toastError err).ApplyToTail Card.CancelDrag).snapshot = _
    rw [Baize.snapshot_ApplyToTail (b.clearTargets.toastError err) Card.CancelDrag
      (fun _ => ⟨rfl, rfl⟩), hev]
    exact Baize.snapshot_clearTargets b
  · unfold Baize.CancelTailDrag
    show ((b.clearTargets.toastError err).ApplyToTail Card.CancelDrag).CRC = _
    rw [Baize.CRC_ApplyToTail, hev]
    exact Baize.CRC_clearTargets b

/-- C11: rejected drags are atomic.  When InputStop on a dragged card rejects the
move, because no destination pile is found, because the source's CanMoveTail
fails, or because the destination's CanAcceptTail fails, it returns a board in
which every pile holds the same cards in the same order and orientation, the CRC
and the undo stack are as before, AfterUserMove has not run and the tail is
empty. -/
theorem Baize.InputStop_rejected_atomic (s : ScriptInterface) (env : Env) (b : Baize)
    (c : Card) (hdrag : c.WasDragged = true) :
    (b.clearTargets.LargestIntersection env c = none →
      ∃ b2, Baize.InputStop s env b (DraggedObject.Card c) = some b2 ∧ b.untouched b2) ∧
    (∀ d src, b.clearTargets.LargestIntersection env c = some d → c.Owner = some src →
      (env.CanMoveTail b.clearTargets src b.clearTargets.tail).1 = false →
      ∃ b2, Baize.InputStop s env b (DraggedObject.Card c) = some b2 ∧ b.untouched b2) ∧
    (∀ d src, b.clearTargets.LargestIntersection env c = some d → c.Owner = some src →
      (env.CanMoveTail b.clearTargets src b.clearTargets.tail).1 = true →
      (env.CanAcceptTail b.clearTargets d b.clearTargets.tail).1 = false →
      ∃ b2, Baize.InputStop s env b (DraggedObject.Card c) = some b2 ∧ b.untouched b2) := by
  refine ⟨fun hd => ?_, fun d src hd hown hmove => ?_, fun d src hd hown hmove hacc => ?_⟩
  · refine ⟨_, ?_, Baize.untouched_cancelled b none⟩
    simp only [Baize.InputStop, hdrag, if_true, hd, Baize.InputStop.drop]
    rfl
  · refine ⟨_, ?_, Baize.untouched_cancelled b (env.CanMoveTail b.clearTargets src
      b.clearTargets.tail).2⟩
    simp only [Baize.InputStop, hdrag, if_true, hd, Baize.InputStop.drop, hown, hmove,
      Bool.not_false]
  · by_cases hsd : src = d
    · subst hsd
      refine ⟨_, ?_, Baize.untouched_cancelled b none⟩
      simp only [Baize.InputStop, hdrag, if_true, hd, Baize.InputStop.drop, hown, hmove,
        Bool.not_true, Bool.false_eq_true, if_false]
      rfl
    · refine ⟨_, ?_, Baize.untouched_cancelled b (env.CanAcceptTail b.clearTargets d
        b.clearTargets.tail).2⟩
      simp only [Baize.InputStop, hdrag, if_true, hd, Baize.InputStop.drop, hown, hmove,
        Bool.not_true, Bool.false_eq_true, if_false, hsd, hacc, Bool.not_false]

/-- Witness of C11 on the sample board: the jack of diamonds let go away from every
pile, let go over tableau 4 when its own pile refuses to release it, and let go
over the waste, which refuses it. -/
theorem Baize.InputStop_rejected_atomic_witness :
    (∃ b2, Baize.InputStop (Easy.script sampleEnv 6) sampleEnv (sampleBoardWith jackNowhere)
        (DraggedObject.Card jackNowhere) = some b2 ∧ (sampleBoardWith jackNowhere).untouched b2) ∧
    (∃ b2, Baize.InputStop (Easy.script stubbornEnv 6) stubbornEnv
        (sampleBoardWith draggedJack) (DraggedObject.Card draggedJack) = some b2 ∧
      (sampleBoardWith draggedJack).untouched b2) ∧
    (∃ b2, Baize.InputStop (Easy.script sampleEnv 6) sampleEnv (sampleBoardWith jackOverWaste)
        (DraggedObject.Card jackOverWaste) = some b2 ∧
      (sampleBoardWith jackOverWaste).untouched b2) :=
  ⟨(Baize.InputStop_rejected_atomic (Easy.script sampleEnv 6) sampleEnv
      (sampleBoardWith jackNowhere) jackNowhere (by decide)).1 (by decide),
   (Baize.InputStop_rejected_atomic (Easy.script stubbornEnv 6) stubbornEnv
      (sampleBoardWith draggedJack) draggedJack (by decide)).2.1 4 3 (by decide) rfl
      (by decide),
   (Baize.InputStop_rejected_atomic (Easy.script sampleEnv 6) sampleEnv
      (sampleBoardWith jackOverWaste) jackOverWaste (by decide)).2.2 1 3 (by decide) rfl
      (by decide) (by decide)⟩

/-! ## The largest intersection -/

theorem Baize.LargestIntersection.loop_spec (env : Env) (c : Card) :
    ∀ (rest : List Pile) (i : Nat) (largestArea : Int) (pile : Option Nat),
      (Baize.LargestIntersection.loop env c rest i largestArea pile = pile ∧
        ∀ k q, rest[k]? = some q → c.owner ≠ some (i + k) →
          Baize.overlapArea env c q ≤ largestArea) ∨
      (∃ k q, Baize.LargestIntersection.loop env c rest i largestArea pile = some (i + k) ∧
        rest[k]? = some q ∧ c.owner ≠ some (i + k) ∧ largestArea < Baize.overlapArea env c q ∧
        (∀ k2 q2, rest[k2]? = some q2 → c.owner ≠ some (i + k2) →
          Baize.overlapArea env c q2 ≤ Baize.overlapArea env c q) ∧
        (∀ k2 q2, k2 < k → rest[k2]? = some q2 → c.owner ≠ some (i + k2) →
          Baize.overlapArea env c q2 < Baize.overlapArea env c q)) := by
  intro rest
  induction rest with
  | nil =>
    intro i largestArea pile
    left
    exact ⟨rfl, fun k q hq => by simp at hq⟩
  | cons p rest ih =>
    intro i largestArea pile
    have hidx : ∀ k, i + (k + 1) = i + 1 + k := fun k => by omega
    by_cases hown : some i = c.owner
    · have hstep : Baize.LargestIntersection.loop env c (p :: rest) i largestArea pile
          = Baize.LargestIntersection.loop env c rest (i + 1) largestArea pile := by
        simp only [Baize.LargestIntersection.loop, hown, if_true]
      rw [hstep]
      rcases ih (i + 1) largestArea pile with ⟨hr, hall⟩ | ⟨k, q, hr, hq, hel, hlt, hmax, hfirst⟩
      · left
        refine ⟨hr, fun k q hq hel => ?_⟩
        cases k with
        | zero => exact absurd hown.symm hel
        | succ k => exact hall k q (by simpa using hq) (by rw [← hidx k]; exact hel)
      · right
        refine ⟨k + 1, q, hr.trans (congrArg some (hidx k).symm), by simpa using hq, by rw [hidx k]; exact hel,
          hlt, fun k2 q2 hq2 hel2 => ?_, fun k2 q2 hk2 hq2 hel2 => ?_⟩
        · cases k2 with
          | zero => exact absurd hown.symm hel2
          | succ k2 => exact hmax k2 q2 (by simpa using hq2) (by rw [← hidx k2]; exact hel2)
        · cases k2 with
          | zero => exact absurd hown.symm hel2
          | succ k2 =>
            exact hfirst k2 q2 (by omega) (by simpa using hq2) (by rw [← hidx k2]; exact hel2)
    · have hel0 : c.owner ≠ some (i + 0) := fun h => hown h.symm
      by_cases harea : Baize.overlapArea env c p > largestArea
      · have hstep : Baize.LargestIntersection.loop env c (p :: rest) i largestArea pile
            = Baize.LargestIntersection.loop env c rest (i + 1) (Baize.overlapArea env c p)
                (some i) := by
          have harea2 := harea
          unfold Baize.overlapArea at harea2
          simp only [Baize.LargestIntersection.loop, hown, if_false, harea2, if_true]
          rfl
        rw [hstep]
        right
        rcases ih (i + 1) (Baize.overlapArea env c p) (some i) with
          ⟨hr, hall⟩ | ⟨k, q, hr, hq, hel, hlt, hmax, hfirst⟩
        · refine ⟨0, p, hr, by simp, hel0, harea, fun k2 q2 hq2 hel2 => ?_,
            fun k2 q2 hk2 _ _ => absurd hk2 (Nat.not_lt_zero _)⟩
          cases k2 with
          | zero =>
            have : q2 = p := by simpa using hq2.symm
            rw [this]
          | succ k2 => exact hall k2 q2 (by simpa using hq2) (by rw [← hidx k2]; exact hel2)
        · refine ⟨k + 1, q, hr.trans (congrArg some (hidx k).symm), by simpa using hq, by rw [hidx k]; exact hel,
            lt_trans harea hlt, fun k2 q2 hq2 hel2 => ?_, fun k2 q2 hk2 hq2 hel2 => ?_⟩
          · cases k2 with
            | zero =>
              have : q2 = p := by simpa using hq2.symm
              rw [this]; exact le_of_lt hlt
            | succ k2 => exact hmax k2 q2 (by simpa using hq2) (by rw [← hidx k2]; exact hel2)
          · cases k2 with
            | zero =>
              have : q2 = p := by simpa using hq2.symm
              rw [this]; exact hlt
            | succ k2 =>
              exact hfirst k2 q2 (by omega) (by simpa using hq2) (by rw [← hidx k2]; exact hel2)
      · have hstep : Baize.LargestIntersection.loop env c (p :: rest) i largestArea pile
            = Baize.LargestIntersection.loop env c rest (i + 1) largestArea pile := by
          have harea2 := harea
          unfold Baize.overlapArea at harea2
          simp only [Baize.LargestIntersection.loop, hown, if_false, harea2]
        have hle : Baize.overlapArea env c p ≤ largestArea := not_lt.1 harea
        rw [hstep]
        rcases ih (i + 1) largestArea pile with ⟨hr, hall⟩ | ⟨k, q, hr, hq, hel, hlt, hmax, hfirst⟩
        · left
          refine ⟨hr, fun k q hq hel => ?_⟩
          cases k with
          | zero =>
            have : q = p := by simpa using hq.symm
            rw [this]; exact hle
          | succ k => exact hall k q (by simpa using hq) (by rw [← hidx k]; exact hel)
        · right
          refine ⟨k + 1, q, hr.trans (congrArg some (hidx k).symm), by simpa using hq, by rw [hidx k]; exact hel,
            hlt, fun k2 q2 hq2 hel2 => ?_, fun k2 q2 hk2 hq2 hel2 => ?_⟩
          · cases k2 with
            | zero =>
              have : q2 = p := by simpa using hq2.symm
              rw [this]; exact le_of_lt (lt_of_le_of_lt hle hlt)
            | succ k2 => exact hmax k2 q2 (by simpa using hq2) (by rw [← hidx k2]; exact hel2)
          · cases k2 with
            | zero =>
              have : q2 = p := by simpa using hq2.symm
              rw [this]; exact lt_of_le_of_lt hle hlt
            | succ k2 =>
              exact hfirst k2 q2 (by omega) (by simpa using hq2) (by rw [← hidx k2]; exact hel2)

/-- C12: Baize.LargestIntersection.  When it returns a pile, that pile is not the
owner of the card, its overlap area with the card is positive and at least that
of every other pile that is not the owner, and strictly larger than that of
every such pile registered before it (so of several piles with the largest area
the first in registration order is returned).  It returns no pile exactly when no
pile other than the owner has a positive overlap area. -/
theorem Baize.LargestIntersection_largest (env : Env) (b : Baize) (c : Card) :
    (∀ d, b.LargestIntersection env c = some d →
      ∃ p, b.piles[d]? = some p ∧ c.owner ≠ some d ∧ 0 < Baize.overlapArea env c p ∧
        (∀ j q, b.piles[j]? = some q → c.owner ≠ some j →
          Baize.overlapArea env c q ≤ Baize.overlapArea env c p) ∧
        (∀ j q, j < d → b.piles[j]? = some q → c.owner ≠ some j →
          Baize.overlapArea env c q < Baize.overlapArea env c p)) ∧
    (b.LargestIntersection env c = none ↔
      ∀ j q, b.piles[j]? = some q → c.owner ≠ some j → Baize.overlapArea env c q ≤ 0) := by
  have hz : ∀ k, 0 + k = k := Nat.zero_add
  unfold Baize.LargestIntersection
  rcases Baize.LargestIntersection.loop_spec env c b.piles 0 0 none with
    ⟨hr, hall⟩ | ⟨k, q, hr, hq, hel, hlt, hmax, hfirst⟩
  · rw [hr]
    refine ⟨fun d hd => (by cases hd), fun _ j q hq hel => ?_, fun _ => rfl⟩
    exact hall j q hq (by rw [hz]; exact hel)
  · rw [hr, hz]
    rw [hz] at hel
    constructor
    · intro d hd
      obtain rfl : k = d := Option.some.inj hd
      refine ⟨q, hq, hel, hlt, fun j q2 hq2 hel2 => ?_, fun j q2 hj hq2 hel2 => ?_⟩
      · exact hmax j q2 hq2 (by rw [hz]; exact hel2)
      · exact hfirst j q2 hj hq2 (by rw [hz]; exact hel2)
    · constructor
      · intro h; cases h
      · intro h
        exact absurd (h k q hq hel) (not_le.2 hlt)

/-- Witness of C12 on the sample board: the dragged jack of diamonds overlaps
tableau 4 only, which is returned; dragged away from every pile it finds none. -/
theorem Baize.LargestIntersection_largest_witness :
    (∃ p, sampleBoardDragging.piles[4]? = some p ∧ draggedJack.owner ≠ some 4 ∧
      0 < Baize.overlapArea sampleEnv draggedJack p ∧
      (∀ j q, sampleBoardDragging.piles[j]? = some q → draggedJack.owner ≠ some j →
        Baize.overlapArea sampleEnv draggedJack q ≤ Baize.overlapArea sampleEnv draggedJack p) ∧
      (∀ j q, j < 4 → sampleBoardDragging.piles[j]? = some q → draggedJack.owner ≠ some j →
        Baize.overlapArea sampleEnv draggedJack q
          < Baize.overlapArea sampleEnv draggedJack p)) ∧
    (∀ j q, (sampleBoardWith jackNowhere).piles[j]? = some q → jackNowhere.owner ≠ some j →
      Baize.overlapArea sampleEnv jackNowhere q ≤ 0) :=
  ⟨(Baize.LargestIntersection_largest sampleEnv sampleBoardDragging draggedJack).1 4
      (by decide),
   (Baize.LargestIntersection_largest sampleEnv (sampleBoardWith jackNowhere) jackNowhere).2.1
      (by decide)⟩

/-! ## Percent complete -/

theorem Float64.floor_le_roundEven (q : ℚ) : Int.floor q ≤ Float64.roundEven q := by
  unfold Float64.roundEven
  split
  · exact le_refl _
  · split
    · omega
    · split <;> omega

theorem Float64.roundEven_le_floor_add_one (q : ℚ) :
    Float64.roundEven q ≤ Int.floor q + 1 := by
  unfold Float64.roundEven
  split
  · omega
  · split
    · omega
    · split <;> omega

theorem Float64.roundEven_intCast (n : Int) : Float64.roundEven (n : ℚ) = n := by
  unfold Float64.roundEven
  simp

theorem Float64.roundEven_mono {x y : ℚ} (h : x ≤ y) :
    Float64.roundEven x ≤ Float64.roundEven y := by
  have hf : Int.floor x ≤ Int.floor y := Int.floor_mono h
  rcases lt_or_eq_of_le hf with hlt | heq
  · have h1 := Float64.roundEven_le_floor_add_one x
    have h2 := Float64.floor_le_roundEven y
    omega
  · unfold Float64.roundEven
    rw [← heq]
    have hxy : x - Int.floor x ≤ y - Int.floor x := by linarith
    by_cases h1 : x - Int.floor x < 1 / 2
    · rw [if_pos h1]
      split
      · exact le_refl _
      · split
        · omega
        · split <;> omega
    · rw [if_neg h1]
      have h1y : ¬ y - (Int.floor x : ℚ) < 1 / 2 := by
        intro hc
        exact h1 (lt_of_le_of_lt hxy hc)
      rw [if_neg h1y]
      by_cases h2 : 1 / 2 < x - Int.floor x
      · have h2y : 1 / 2 < y - (Int.floor x : ℚ) := lt_of_lt_of_le h2 hxy
        rw [if_pos h2, if_pos h2y]
      · rw [if_neg h2]
        split
        · split <;> omega
        · split <;> omega

theorem Float64.roundEven_nonneg {x : ℚ} (h : 0 ≤ x) : 0 ≤ Float64.roundEven x :=
  le_trans (Int.floor_nonneg.2 h) (Float64.floor_le_roundEven x)

theorem Float64.two_zpow_pos (k : Int) : (0 : ℚ) < 2 ^ k := zpow_pos (by norm_num) k

theorem Float64.roundPos_nonneg {q : ℚ} (h : 0 ≤ q) : 0 ≤ Float64.roundPos q := by
  unfold Float64.roundPos
  apply mul_nonneg
  · exact_mod_cast Float64.roundEven_nonneg
      (div_nonneg h (le_of_lt (Float64.two_zpow_pos _)))
  · exact le_of_lt (Float64.two_zpow_pos _)

theorem Float64.roundPos_zero : Float64.roundPos 0 = 0 := by
  simp [Float64.roundPos, Float64.roundEven]

theorem Float64.log_le_ulpExp (q : ℚ) : Int.log 2 q ≤ Float64.ulpExp q + 52 := by
  unfold Float64.ulpExp
  have := le_max_left (Int.log 2 q) (-1022)
  omega

theorem Float64.ulpExp_mono {x y : ℚ} (hx : 0 < x) (h : x ≤ y) :
    Float64.ulpExp x ≤ Float64.ulpExp y := by
  unfold Float64.ulpExp
  have := Int.log_mono_right (b := 2) hx h
  have := max_le_max this (le_refl (-1022 : Int))
  omega

/-- The rounded value stays below the next power of two. -/
theorem Float64.roundPos_le_pow (x : ℚ) :
    Float64.roundPos x ≤ 2 ^ (Float64.ulpExp x + 53) := by
  have hpos := Float64.two_zpow_pos (Float64.ulpExp x)
  have h1 : x < 2 ^ (Int.log 2 x + 1) := by
    have := Int.lt_zpow_succ_log_self (b := 2) (by norm_num) x
    simpa using this
  have h2 : (2 : ℚ) ^ (Int.log 2 x + 1) ≤ 2 ^ (Float64.ulpExp x + 53) :=
    zpow_le_zpow_right₀ (by norm_num) (by have := Float64.log_le_ulpExp x; omega)
  have h3 : x / 2 ^ Float64.ulpExp x < ((2 ^ 53 : Int) : ℚ) := by
    rw [div_lt_iff₀ hpos]
    have : (((2 ^ 53 : Int) : ℚ)) * 2 ^ Float64.ulpExp x = 2 ^ (Float64.ulpExp x + 53) := by
      rw [zpow_add₀ (by norm_num : (2 : ℚ) ≠ 0)]
      norm_num
      ring
    rw [this]
    exact lt_of_lt_of_le h1 h2
  have h4 : Int.floor (x / 2 ^ Float64.ulpExp x) < 2 ^ 53 := Int.floor_lt.2 h3
  have h5 := Float64.roundEven_le_floor_add_one (x / 2 ^ Float64.ulpExp x)
  have h6 : Float64.roundEven (x / 2 ^ Float64.ulpExp x) ≤ 2 ^ 53 := by omega
  have h7 : (Float64.roundEven (x / 2 ^ Float64.ulpExp x) : ℚ) ≤ ((2 ^ 53 : Int) : ℚ) := by
    exact_mod_cast h6
  unfold Float64.roundPos
  calc (Float64.roundEven (x / 2 ^ Float64.ulpExp x) : ℚ) * 2 ^ Float64.ulpExp x
      ≤ ((2 ^ 53 : Int) : ℚ) * 2 ^ Float64.ulpExp x :=
        mul_le_mul_of_nonneg_right h7 (le_of_lt hpos)
    _ = 2 ^ (Float64.ulpExp x + 53) := by
        rw [zpow_add₀ (by norm_num : (2 : ℚ) ≠ 0)]
        norm_num
        ring

/-- The rounded value of a normal number stays above the power of two below
it. -/
theorem Float64.pow_le_roundPos {y : ℚ} (hy : 0 < y) (hn : -1022 ≤ Int.log 2 y) :
    2 ^ (Float64.ulpExp y + 52) ≤ Float64.roundPos y := by
  have hpos := Float64.two_zpow_pos (Float64.ulpExp y)
  have hk : Float64.ulpExp y + 52 = Int.log 2 y := by
    unfold Float64.ulpExp
    rw [max_eq_left hn]
    omega
  have h1 : (2 : ℚ) ^ (Float64.ulpExp y + 52) ≤ y := by
    rw [hk]
    have := Int.zpow_log_le_self (b := 2) (by norm_num) hy
    simpa using this
  have h3 : ((2 ^ 52 : Int) : ℚ) ≤ y / 2 ^ Float64.ulpExp y := by
    rw [le_div_iff₀ hpos]
    have : (((2 ^ 52 : Int) : ℚ)) * 2 ^ Float64.ulpExp y = 2 ^ (Float64.ulpExp y + 52) := by
      rw [zpow_add₀ (by norm_num : (2 : ℚ) ≠ 0)]
      norm_num
      ring
    rw [this]
    exact h1
  have h4 : 2 ^ 52 ≤ Int.floor (y / 2 ^ Float64.ulpExp y) := Int.le_floor.2 h3
  have h5 := Float64.floor_le_roundEven (y / 2 ^ Float64.ulpExp y)
  have h6 : 2 ^ 52 ≤ Float64.roundEven (y / 2 ^ Float64.ulpExp y) := by omega
  have h7 : ((2 ^ 52 : Int) : ℚ) ≤ (Float64.roundEven (y / 2 ^ Float64.ulpExp y) : ℚ) := by
    exact_mod_cast h6
  unfold Float64.roundPos
  calc (2 : ℚ) ^ (Float64.ulpExp y + 52)
      = ((2 ^ 52 : Int) : ℚ) * 2 ^ Float64.ulpExp y := by
        rw [zpow_add₀ (by norm_num : (2 : ℚ) ≠ 0)]
        norm_num
        ring
    _ ≤ (Float64.roundEven (y / 2 ^ Float64.ulpExp y) : ℚ) * 2 ^ Float64.ulpExp y :=
        mul_le_mul_of_nonneg_right h7 (le_of_lt hpos)

theorem Float64.roundPos_mono {x y : ℚ} (hx : 0 ≤ x) (h : x ≤ y) :
    Float64.roundPos x ≤ Float64.roundPos y := by
  rcases hx.eq_or_lt with h0 | hxpos
  · rw [← h0, Float64.roundPos_zero]
    exact Float64.roundPos_nonneg (le_trans hx h)
  · have hypos : 0 < y := lt_of_lt_of_le hxpos h
    have hk := Float64.ulpExp_mono hxpos h
    rcases hk.eq_or_lt with heq | hlt
    · unfold Float64.roundPos
      rw [← heq]
      have hpos := Float64.two_zpow_pos (Float64.ulpExp x)
      have h1 : x / 2 ^ Float64.ulpExp x ≤ y / 2 ^ Float64.ulpExp x :=
        div_le_div_of_nonneg_right h (le_of_lt hpos)
      have h2 : (Float64.roundEven (x / 2 ^ Float64.ulpExp x) : ℚ)
          ≤ (Float64.roundEven (y / 2 ^ Float64.ulpExp x) : ℚ) := by
        exact_mod_cast Float64.roundEven_mono h1
      exact mul_le_mul_of_nonneg_right h2 (le_of_lt hpos)
    · have hn : -1022 ≤ Int.log 2 y := by
        by_contra hc
        have hy : Float64.ulpExp y = -1074 := by
          unfold Float64.ulpExp
          rw [max_eq_right (by omega)]
          rfl
        have hxl : -1074 ≤ Float64.ulpExp x := by
          unfold Float64.ulpExp
          have := le_max_right (Int.log 2 x) (-1022)
          omega
        omega
      have ha := Float64.roundPos_le_pow x
      have hb := Float64.pow_le_roundPos hypos hn
      have hc : (2 : ℚ) ^ (Float64.ulpExp x + 53) ≤ 2 ^ (Float64.ulpExp y + 52) :=
        zpow_le_zpow_right₀ (by norm_num) (by omega)
      exact le_trans ha (le_trans hc hb)

theorem Float64.round_mono {x y : ℚ} (h : x ≤ y) : Float64.round x ≤ Float64.round y := by
  unfold Float64.round
  by_cases hx : x < 0
  · rw [if_pos hx]
    by_cases hy : y < 0
    · rw [if_pos hy]
      have := Float64.roundPos_mono (le_of_lt (neg_pos.2 hy)) (neg_le_neg h)
      linarith
    · rw [if_neg hy]
      have h1 := Float64.roundPos_nonneg (le_of_lt (neg_pos.2 hx))
      have h2 := Float64.roundPos_nonneg (not_lt.1 hy)
      linarith
  · rw [if_neg hx]
    have hy : ¬ y < 0 := not_lt.2 (le_trans (not_lt.1 hx) h)
    rw [if_neg hy]
    exact Float64.roundPos_mono (not_lt.1 hx) h

theorem truncToInt_intCast (n : Int) : truncToInt (n : ℚ) = n := by
  unfold truncToInt
  split <;> simp

theorem truncToInt_mono {x y : ℚ} (h : x ≤ y) : truncToInt x ≤ truncToInt y := by
  unfold truncToInt
  by_cases hx : 0 ≤ x
  · have hy : 0 ≤ y := le_trans hx h
    rw [if_pos hx, if_pos hy]
    exact Int.floor_mono h
  · rw [if_neg hx]
    by_cases hy : 0 ≤ y
    · rw [if_pos hy]
      have h1 : Int.ceil x ≤ 0 := Int.ceil_le.2 (by simpa using le_of_lt (not_le.1 hx))
      have h2 : 0 ≤ Int.floor y := Int.floor_nonneg.2 hy
      exact le_trans h1 h2
    · rw [if_neg hy]
      exact Int.ceil_mono h

/-- A number of at most 53 significant bits, not below the subnormal spacing, is a
float64: rounding leaves it as it is. -/
theorem Float64.round_exact (m : Nat) (e : Int) (hm : m < 2 ^ 53) (he : -1074 ≤ e) :
    Float64.round ((m : ℚ) * 2 ^ e) = (m : ℚ) * 2 ^ e := by
  have hpe := Float64.two_zpow_pos e
  have hq0 : ¬ ((m : ℚ) * 2 ^ e < 0) :=
    not_lt.2 (mul_nonneg (Nat.cast_nonneg m) (le_of_lt hpe))
  unfold Float64.round
  rw [if_neg hq0]
  rcases Nat.eq_zero_or_pos m with h0 | hpos
  · rw [h0]
    simp [Float64.roundPos_zero]
  · have hqpos : (0 : ℚ) < (m : ℚ) * 2 ^ e := mul_pos (by exact_mod_cast hpos) hpe
    have hlt : (m : ℚ) * 2 ^ e < ((2 : Nat) : ℚ) ^ (e + 53) := by
      have h1 : (m : ℚ) < 2 ^ (53 : Int) := by
        have h0 : (m : ℚ) < ((2 ^ 53 : Nat) : ℚ) := Nat.cast_lt.2 hm
        rw [Nat.cast_pow, Nat.cast_ofNat] at h0
        rw [show (53 : Int) = ((53 : Nat) : Int) from rfl, zpow_natCast]
        exact h0
      have h2 : ((2 : Nat) : ℚ) ^ (e + 53) = 2 ^ (53 : Int) * 2 ^ e := by
        rw [Nat.cast_ofNat, zpow_add₀ (by norm_num : (2 : ℚ) ≠ 0)]
        ring
      rw [h2]
      exact mul_lt_mul_of_pos_right h1 hpe
    have hlog : Int.log 2 ((m : ℚ) * 2 ^ e) < e + 53 :=
      (Int.lt_zpow_iff_log_lt (by norm_num) hqpos).1 hlt
    have hk : Float64.ulpExp ((m : ℚ) * 2 ^ e) ≤ e := by
      unfold Float64.ulpExp
      have := max_le (show Int.log 2 ((m : ℚ) * 2 ^ e) ≤ e + 52 by omega)
        (show (-1022 : Int) ≤ e + 52 by omega)
      omega
    unfold Float64.roundPos
    generalize Float64.ulpExp ((m : ℚ) * 2 ^ e) = k at hk
    obtain ⟨n, hn⟩ : ∃ n : Nat, e = k + n := ⟨(e - k).toNat, by omega⟩
    have hpk := Float64.two_zpow_pos k
    have hdiv : (m : ℚ) * 2 ^ e / 2 ^ k = (((m * 2 ^ n : Nat) : Int) : ℚ) := by
      rw [hn, zpow_add₀ (by norm_num : (2 : ℚ) ≠ 0), zpow_natCast]
      field_simp
      ring
    rw [hdiv, Float64.roundEven_intCast, hn, zpow_add₀ (by norm_num : (2 : ℚ) ≠ 0),
      zpow_natCast]
    push_cast
    ring

theorem Float64.round_natCast (n : Nat) (h : n < 2 ^ 53) : Float64.round (n : ℚ) = n := by
  have := Float64.round_exact n 0 h (by norm_num)
  simpa using this

theorem Float64.ofInt_natCast (n : Nat) (h : n < 2 ^ 53) :
    Float64.ofInt (n : Int) = (n : ℚ) := by
  unfold Float64.ofInt
  rw [Int.cast_natCast]
  exact Float64.round_natCast n h

theorem Float64.round_hundred : Float64.round 100 = 100 := by
  have := Float64.round_natCast 100 (by norm_num)
  simpa using this

/-- The value of `Baize.PercentComplete` for totals below 2^53. -/
theorem Baize.PercentComplete.percent_eq (P U : Nat) (hP : P < 2 ^ 53) (hU : U < 2 ^ 53) :
    Baize.PercentComplete.percent P U
      = truncToInt (Float64.round (100 - Float64.round (0 + Float64.round
          (100 * Float64.round ((U : ℚ) / (P : ℚ)))))) := by
  unfold Baize.PercentComplete.percent util.MapValue Float64.sub Float64.add Float64.mul
    Float64.div
  rw [Float64.ofInt_natCast U hU, Float64.ofInt_natCast P hP]
  simp only [sub_zero, Float64.round_natCast U hU, Float64.round_natCast P hP,
    Float64.round_hundred]

/-- Percent-complete does not go down when the share of unsorted pairs does not go
up. -/
theorem Baize.PercentComplete.percent_mono_share (P U P2 U2 : Nat) (hP : 0 < P)
    (hP2 : 0 < P2) (hPb : P < 2 ^ 53) (hUb : U < 2 ^ 53) (hP2b : P2 < 2 ^ 53)
    (hU2b : U2 < 2 ^ 53) (h : U2 * P ≤ U * P2) :
    Baize.PercentComplete.percent P U ≤ Baize.PercentComplete.percent P2 U2 := by
  rw [Baize.PercentComplete.percent_eq P U hPb hUb,
    Baize.PercentComplete.percent_eq P2 U2 hP2b hU2b]
  have hPq : (0 : ℚ) < (P : ℚ) := by exact_mod_cast hP
  have hP2q : (0 : ℚ) < (P2 : ℚ) := by exact_mod_cast hP2
  have h1 : (U2 : ℚ) / (P2 : ℚ) ≤ (U : ℚ) / (P : ℚ) := by
    rw [div_le_div_iff₀ hP2q hPq]
    exact_mod_cast h
  have h2 := Float64.round_mono h1
  have h3 : 100 * Float64.round ((U2 : ℚ) / (P2 : ℚ))
      ≤ 100 * Float64.round ((U : ℚ) / (P : ℚ)) :=
    mul_le_mul_of_nonneg_left h2 (by norm_num)
  have h4 := Float64.round_mono h3
  have h5 : 0 + Float64.round (100 * Float64.round ((U2 : ℚ) / (P2 : ℚ)))
      ≤ 0 + Float64.round (100 * Float64.round ((U : ℚ) / (P : ℚ))) := by linarith
  have h6 := Float64.round_mono h5
  apply truncToInt_mono
  apply Float64.round_mono
  linarith

theorem Float64.roundEven_of_lt (q : ℚ) (f : Int) (h1 : (f : ℚ) ≤ q)
    (h2 : q - f < 1 / 2) : Float64.roundEven q = f := by
  have hf : Int.floor q = f := Int.floor_eq_iff.2 ⟨h1, by linarith⟩
  unfold Float64.roundEven
  rw [hf, if_pos h2]

theorem Float64.roundEven_of_gt (q : ℚ) (f : Int) (h1 : 1 / 2 < q - f)
    (h2 : q < f + 1) : Float64.roundEven q = f + 1 := by
  have hf : Int.floor q = f := Int.floor_eq_iff.2 ⟨by linarith, h2⟩
  unfold Float64.roundEven
  rw [hf, if_neg (not_lt.2 (le_of_lt h1)), if_pos h1]

/-- The float64 nearest to a positive normal number between two powers of two. -/
theorem Float64.round_of_bounds (q : ℚ) (e n : Int) (h1 : 2 ^ e ≤ q) (h2 : q < 2 ^ (e + 1))
    (he : -1022 ≤ e) (hn : Float64.roundEven (q / 2 ^ (e - 52)) = n) :
    Float64.round q = (n : ℚ) * 2 ^ (e - 52) := by
  have hq : 0 < q := lt_of_lt_of_le (Float64.two_zpow_pos e) h1
  have hlog : Int.log 2 q = e := by
    have ha : e ≤ Int.log 2 q :=
      (Int.zpow_le_iff_le_log (by norm_num) hq).1 (by simpa using h1)
    have hb : Int.log 2 q < e + 1 :=
      (Int.lt_zpow_iff_log_lt (by norm_num) hq).1 (by simpa using h2)
    omega
  have hk : Float64.ulpExp q = e - 52 := by
    unfold Float64.ulpExp
    rw [hlog, max_eq_left he]
  unfold Float64.round Float64.roundPos
  rw [if_neg (not_lt.2 (le_of_lt hq)), hk, hn]

theorem Baize.PercentComplete.percent_one_zero : Baize.PercentComplete.percent 1 0 = 100 := by
  rw [Baize.PercentComplete.percent_eq 1 0 (by norm_num) (by norm_num)]
  have h0 : Float64.round 0 = 0 := by simpa using Float64.round_natCast 0 (by norm_num)
  simp only [Nat.cast_zero, Nat.cast_one, zero_div, h0, mul_zero, add_zero, sub_zero,
    Float64.round_hundred]
  exact truncToInt_intCast 100

theorem Baize.PercentComplete.percent_one_one : Baize.PercentComplete.percent 1 1 = 0 := by
  rw [Baize.PercentComplete.percent_eq 1 1 (by norm_num) (by norm_num)]
  have h0 : Float64.round 0 = 0 := by simpa using Float64.round_natCast 0 (by norm_num)
  have h1 : Float64.round 1 = 1 := by simpa using Float64.round_natCast 1 (by norm_num)
  simp only [Nat.cast_one, div_one, h1, mul_one, zero_add, Float64.round_hundred, sub_self, h0]
  exact truncToInt_intCast 0

theorem Baize.PercentComplete.percent_two_one : Baize.PercentComplete.percent 2 1 = 50 := by
  rw [Baize.PercentComplete.percent_eq 2 1 (by norm_num) (by norm_num)]
  have hhalf : Float64.round ((1 : ℚ) / 2) = 1 / 2 := by
    have := Float64.round_exact 1 (-1) (by norm_num) (by norm_num)
    norm_num at this
    exact this
  have h50 : Float64.round 50 = 50 := by simpa using Float64.round_natCast 50 (by norm_num)
  have e1 : (100 : ℚ) * (1 / 2) = 50 := by norm_num
  have e2 : (100 : ℚ) - 50 = 50 := by norm_num
  simp only [Nat.cast_one, Nat.cast_ofNat, hhalf, e1, h50, zero_add, e2]
  exact truncToInt_intCast 50

/-- A value on which float64 and exact arithmetic part: 11 unsorted pairs of 20
give 44, not 45. -/
theorem Baize.PercentComplete.percent_twenty_eleven :
    Baize.PercentComplete.percent 20 11 = 44 := by
  rw [Baize.PercentComplete.percent_eq 20 11 (by norm_num) (by norm_num)]
  have hd : Float64.round ((11 : ℚ) / 20) = 4953959590107546 * 2 ^ (-53 : Int) := by
    have := Float64.round_of_bounds (11 / 20) (-1) 4953959590107546 (by norm_num)
      (by norm_num) (by norm_num)
      (by
        have := Float64.roundEven_of_gt ((11 : ℚ) / 20 / 2 ^ ((-1 : Int) - 52))
          4953959590107545 (by norm_num) (by norm_num)
        simpa using this)
    simpa using this
  have hm : Float64.round (100 * (4953959590107546 * 2 ^ (-53 : Int)))
      = 7740561859543041 * 2 ^ (-47 : Int) := by
    have := Float64.round_of_bounds (100 * (4953959590107546 * 2 ^ (-53 : Int))) 5
      7740561859543041 (by norm_num) (by norm_num) (by norm_num)
      (by
        have := Float64.roundEven_of_gt
          (100 * (4953959590107546 * 2 ^ (-53 : Int)) / 2 ^ ((5 : Int) - 52))
          7740561859543040 (by norm_num) (by norm_num)
        simpa using this)
    simpa using this
  have ha : Float64.round (7740561859543041 * 2 ^ (-47 : Int))
      = 7740561859543041 * 2 ^ (-47 : Int) := by
    have := Float64.round_exact 7740561859543041 (-47) (by norm_num) (by norm_num)
    simpa using this
  have hs : Float64.round (100 - 7740561859543041 * 2 ^ (-47 : Int))
      = 6333186975989759 * 2 ^ (-47 : Int) := by
    have := Float64.round_exact 6333186975989759 (-47) (by norm_num) (by norm_num)
    have e : (100 : ℚ) - 7740561859543041 * 2 ^ (-47 : Int)
        = ((6333186975989759 : Nat) : ℚ) * 2 ^ (-47 : Int) := by norm_num
    rw [e, this]
    norm_num
  simp only [Nat.cast_ofNat, hd, hm, zero_add, ha, hs]
  unfold truncToInt
  rw [if_pos (by norm_num)]
  exact Int.floor_eq_iff.2 ⟨by norm_num, by norm_num⟩

theorem Baize.PercentComplete.loop_eq_sum (env : Env) :
    ∀ (piles : List Pile) (acc : Nat × Nat),
      Baize.PercentComplete.loop env piles acc
        = (acc.1 + (piles.map (fun p => p.Len - 1)).sum,
           acc.2 + (piles.map env.UnsortedPairs).sum) := by
  intro piles
  induction piles with
  | nil => intro acc; simp [Baize.PercentComplete.loop]
  | cons p rest ih =>
    intro acc
    simp only [Baize.PercentComplete.loop, ih, List.map_cons, List.sum_cons]
    by_cases hp : p.Len > 1
    · simp only [if_pos hp]
      exact Prod.ext (Nat.add_assoc _ _ _) (Nat.add_assoc _ _ _)
    · simp only [if_neg hp]
      have h0 : p.Len - 1 = 0 := by omega
      rw [h0, Nat.zero_add]
      exact Prod.ext rfl (Nat.add_assoc _ _ _)

theorem List.sum_map_set_add {α : Type} (g : α → Nat) :
    ∀ (l : List α) (i : Nat) (a a2 : α), l[i]? = some a →
      ((l.set i a2).map g).sum + g a = (l.map g).sum + g a2 := by
  intro l
  induction l with
  | nil => intro i a a2 h; simp at h
  | cons x rest ih =>
    intro i a a2 h
    cases i with
    | zero =>
      have hx : x = a := by simpa using h
      subst hx
      simp only [List.set_cons_zero, List.map_cons, List.sum_cons]
      omega
    | succ i =>
      have h2 : rest[i]? = some a := by simpa using h
      have := ih i a a2 h2
      simp only [List.set_cons_succ, List.map_cons, List.sum_cons]
      omega

theorem List.sum_map_set_set_add {α : Type} (g : α → Nat) (l : List α) (i j : Nat)
    (a b a2 b2 : α) (hi : l[i]? = some a) (hj : l[j]? = some b) (hne : i ≠ j) :
    (((l.set i a2).set j b2).map g).sum + g a + g b = (l.map g).sum + g a2 + g b2 := by
  have h1 := List.sum_map_set_add g l i a a2 hi
  have hj2 : (l.set i a2)[j]? = some b := by rw [List.getElem?_set_ne hne]; exact hj
  have h2 := List.sum_map_set_add g (l.set i a2) j b b2 hj2
  omega

theorem Easy.UnsortedPairs.foldl_eq (r : CompareReasons) :
    ∀ (pairs : List CardPair) (acc : Nat),
      pairs.foldl (fun unsorted pair =>
        if pair.EitherProne then unsorted + 1
        else if !(pair.Compare_DownSuit r).1 then unsorted + 1
        else unsorted) acc
      = acc + (pairs.map (Easy.unsortedPair r)).sum := by
  intro pairs
  induction pairs with
  | nil => intro acc; simp
  | cons p rest ih =>
    intro acc
    rw [List.foldl_cons, ih, List.map_cons, List.sum_cons]
    unfold Easy.unsortedPair
    by_cases h1 : p.EitherProne = true
    · rw [if_pos h1, if_pos h1]; omega
    · rw [if_neg h1, if_neg h1]
      by_cases h2 : (!(p.Compare_DownSuit r).1) = true
      · rw [if_pos h2, if_pos h2]; omega
      · rw [if_neg h2, if_neg h2]; omega

theorem Easy.UnsortedPairs_eq_sum (r : CompareReasons) (pile : Pile) :
    Easy.UnsortedPairs r pile = ((NewCardPairs pile.cards).map (Easy.unsortedPair r)).sum := by
  unfold Easy.UnsortedPairs Pile.Cards
  rw [Easy.UnsortedPairs.foldl_eq, Nat.zero_add]

theorem NewCardPairs_append (x y : Card) (T : List Card) :
    ∀ S : List Card, NewCardPairs (S ++ x :: y :: T)
      = NewCardPairs (S ++ [x]) ++ ⟨x, y⟩ :: NewCardPairs (y :: T) := by
  intro S
  induction S with
  | nil => simp [NewCardPairs]
  | cons s S ih =>
    cases S with
    | nil => simp [NewCardPairs]
    | cons s2 S2 =>
      have h1 : NewCardPairs (s :: s2 :: S2 ++ x :: y :: T)
          = ⟨s, s2⟩ :: NewCardPairs (s2 :: S2 ++ x :: y :: T) := by
        simp [NewCardPairs]
      have h2 : NewCardPairs (s :: s2 :: S2 ++ [x])
          = ⟨s, s2⟩ :: NewCardPairs (s2 :: S2 ++ [x]) := by
        simp [NewCardPairs]
      rw [h1, h2, ih]
      rfl

theorem NewCardPairs_map (f : Card → Card) :
    ∀ T : List Card, NewCardPairs (T.map f)
      = (NewCardPairs T).map (fun pair => ⟨f pair.c1, f pair.c2⟩) := by
  intro T
  induction T with
  | nil => rfl
  | cons t T ih =>
    cases T with
    | nil => rfl
    | cons t2 T2 =>
      have h1 : NewCardPairs (List.map f (t :: t2 :: T2))
          = ⟨f t, f t2⟩ :: NewCardPairs (List.map f (t2 :: T2)) := by
        simp [NewCardPairs]
      rw [h1, ih]
      simp [NewCardPairs]

theorem Easy.unsortedPair_SetOwner (r : CompareReasons) (o : Option Nat) (pair : CardPair) :
    Easy.unsortedPair r ⟨pair.c1.SetOwner o, pair.c2.SetOwner o⟩ = Easy.unsortedPair r pair := by
  have hc : (CardPair.Compare_DownSuit r ⟨pair.c1.SetOwner o, pair.c2.SetOwner o⟩).1
      = (CardPair.Compare_DownSuit r pair).1 := by
    by_cases h : pair.c1.Ordinal = pair.c2.Ordinal + 1 ∧ pair.c1.Suit = pair.c2.Suit
    · have h2 : (pair.c1.SetOwner o).Ordinal = (pair.c2.SetOwner o).Ordinal + 1 ∧
          (pair.c1.SetOwner o).Suit = (pair.c2.SetOwner o).Suit := h
      unfold CardPair.Compare_DownSuit
      rw [if_pos h, if_pos h2]
    · have h2 : ¬ ((pair.c1.SetOwner o).Ordinal = (pair.c2.SetOwner o).Ordinal + 1 ∧
          (pair.c1.SetOwner o).Suit = (pair.c2.SetOwner o).Suit) := h
      unfold CardPair.Compare_DownSuit
      rw [if_neg h, if_neg h2]
  unfold Easy.unsortedPair
  rw [hc]
  rfl

theorem Easy.unsortedSum_SetOwner (r : CompareReasons) (o : Option Nat) (T : List Card) :
    ((NewCardPairs (T.map (fun t => t.SetOwner o))).map (Easy.unsortedPair r)).sum
      = ((NewCardPairs T).map (Easy.unsortedPair r)).sum := by
  rw [NewCardPairs_map, List.map_map]
  congr 1
  apply List.map_congr_left
  intro pair _
  exact Easy.unsortedPair_SetOwner r o pair

theorem Baize.moveTail_eq (b : Baize) (c : Card) (src dst : Nat) (sp dp : Pile)
    (S T : List Card) (hsrc : b.pile? src = some sp) (hdst : b.pile? dst = some dp)
    (hne : src ≠ dst) (hcards : sp.cards = S ++ c :: T) (htail : b.tail = c :: T)
    (hown : c.Owner = some src) (hid : ∀ x ∈ S, Card.sameID c x = false) :
    b.moveTail c src dst = some { b with piles :=
      ((b.piles.set src { sp with cards := S }).set dst
        { dp with cards := dp.cards ++ (c :: T).map (fun t => t.SetOwner (some dst)) }) } := by
  unfold Baize.moveTail
  by_cases hlen : b.tail.length = 1
  · rw [if_pos hlen]
    have hT : T = [] := by
      rw [htail] at hlen
      exact List.length_eq_zero.1 (by simpa using hlen)
    subst hT
    have hlast : sp.cards.getLast? = some c := by rw [hcards]; exact List.getLast?_concat S
    have hdrop : sp.cards.dropLast = S := by rw [hcards]; exact List.dropLast_concat
    rw [MoveCard_eq b src dst sp dp c hsrc hlast hdst hne, hdrop]
    rfl
  · rw [if_neg hlen]
    have hidx : sp.cards.findIdx (Card.sameID c) = S.length := by
      rw [hcards, List.findIdx_append, List.findIdx_eq_length_of_false hid]
      simp [List.findIdx_cons, Card.sameID]
    have hlt : S.length < sp.cards.length := by rw [hcards]; simp
    have htake : sp.cards.take S.length = S := by rw [hcards]; simp
    have hdropn : sp.cards.drop S.length = c :: T := by rw [hcards]; simp
    have hd1 : (b.setPile src { sp with cards := S }).pile? dst = some dp := by
      rw [Baize.pile?_setPile_ne b src dst _ hne, hdst]
    simp only [MoveCards, hown, hsrc, hidx, hlt, if_true, htake, hd1, hdropn]
    rfl

theorem Easy.unsortedPair_SetOwner_right (r : CompareReasons) (o : Option Nat) (a c : Card) :
    Easy.unsortedPair r ⟨a, c.SetOwner o⟩ = Easy.unsortedPair r ⟨a, c⟩ := by
  have hc : (CardPair.Compare_DownSuit r ⟨a, c.SetOwner o⟩).1
      = (CardPair.Compare_DownSuit r ⟨a, c⟩).1 := by
    by_cases h : a.Ordinal = c.Ordinal + 1 ∧ a.Suit = c.Suit
    · have h2 : a.Ordinal = (c.SetOwner o).Ordinal + 1 ∧ a.Suit = (c.SetOwner o).Suit := h
      unfold CardPair.Compare_DownSuit
      rw [if_pos h, if_pos h2]
    · have h2 : ¬ (a.Ordinal = (c.SetOwner o).Ordinal + 1 ∧ a.Suit = (c.SetOwner o).Suit) := h
      unfold CardPair.Compare_DownSuit
      rw [if_neg h, if_neg h2]
  unfold Easy.unsortedPair
  rw [hc]
  rfl

theorem Easy.unsortedSum_append (r : CompareReasons) (S : List Card) (c : Card)
    (T : List Card) :
    ((NewCardPairs (S ++ c :: T)).map (Easy.unsortedPair r)).sum
      = ((NewCardPairs S).map (Easy.unsortedPair r)).sum + Easy.junction r S c
        + ((NewCardPairs (c :: T)).map (Easy.unsortedPair r)).sum := by
  rcases List.eq_nil_or_concat S with h | ⟨S0, x, h⟩
  · subst h
    simp [Easy.junction, NewCardPairs]
  · rw [List.concat_eq_append] at h
    subst h
    have hj : Easy.junction r (S0 ++ [x]) c = Easy.unsortedPair r ⟨x, c⟩ := by
      simp [Easy.junction]
    rw [hj, List.append_assoc, List.singleton_append, NewCardPairs_append]
    simp only [List.map_append, List.map_cons, List.sum_append, List.sum_cons]
    omega

theorem Easy.junction_SetOwner (r : CompareReasons) (o : Option Nat) (S : List Card)
    (c : Card) : Easy.junction r S (c.SetOwner o) = Easy.junction r S c := by
  unfold Easy.junction
  cases S.getLast? with
  | none => rfl
  | some x => exact Easy.unsortedPair_SetOwner_right r o x c

theorem Baize.PercentComplete_eq_percent (env : Env) (b : Baize) (P U : Nat)
    (h : Baize.PercentComplete.loop env b.piles (0, 0) = (P, U)) (hP : 0 < P) :
    Baize.PercentComplete env b = some (Baize.PercentComplete.percent P U) := by
  unfold Baize.PercentComplete
  simp only [h, if_neg (Nat.pos_iff_ne_zero.1 hP)]

/-- C13 fails as stated: on a small Easy board with one sorted and one unsorted
pair the queen of spades lifted from the king of spades passes TailMoveError, the
empty tableau passes TailAppendError for it, and the move takes the totals
(pairs, unsorted) from (2, 1) to (1, 1) and PercentComplete from 50 down to 0. -/
theorem Baize.PercentComplete_not_monotone :
    (∀ p, p.kind = PileKind.Tableau →
      sampleEnv.UnsortedPairs p = Easy.UnsortedPairs sampleReasons p) ∧
    Easy.TailMoveError sampleReasons halfBoard halfBoard.tail = some (true, none) ∧
    (∃ dp, halfBoard.pile? 5 = some dp ∧
      Easy.TailAppendError sampleReasons dp halfBoard.tail = some (true, none)) ∧
    (∃ b2, halfBoard.moveTail (faceUp 4 12 3) 3 5 = some b2 ∧
      Baize.PercentComplete.loop sampleEnv halfBoard.piles (0, 0) = (2, 1) ∧
      Baize.PercentComplete.loop sampleEnv b2.piles (0, 0) = (1, 1) ∧
      Baize.PercentComplete sampleEnv halfBoard = some 50 ∧
      Baize.PercentComplete sampleEnv b2 = some 0 ∧
      ¬ ((50 : Int) ≤ 0)) := by
  have h1 : Baize.PercentComplete.loop sampleEnv halfBoard.piles (0, 0) = (2, 1) := by
    decide
  have h2 : Baize.PercentComplete.loop sampleEnv
      ((halfBoard.moveTail (faceUp 4 12 3) 3 5).getD halfBoard).piles (0, 0) = (1, 1) := by
    decide
  refine ⟨fun p hp => ?_, by decide, ⟨_, rfl, by decide⟩,
    ⟨(halfBoard.moveTail (faceUp 4 12 3) 3 5).getD halfBoard, by decide, h1, h2, ?_, ?_,
      by decide⟩⟩
  · simp only [sampleEnv, hp]
  · rw [Baize.PercentComplete_eq_percent _ _ 2 1 h1 (by decide),
      Baize.PercentComplete.percent_two_one]
  · rw [Baize.PercentComplete_eq_percent _ _ 1 1 h2 (by decide),
      Baize.PercentComplete.percent_one_one]

/-- C13 as amended: percent-complete does not go down under an accepted move that
does not raise the share of unsorted pairs among the pairs of the board.  For every
Easy board (tableaux count their unsorted pairs with Easy.UnsortedPairs) and every
move of the tail `c :: T` from on top of the cards `S` of a source pile to another
pile that passes TailMoveError and TailAppendError, the move gives a board; with
(P, U) the totals (pairs, unsorted) of PercentComplete before and (P2, U2) after,
all below 2^53 and P and P2 at least 1, U2 * P <= U * P2 implies that
PercentComplete after the move is at least PercentComplete before.  The move
changes the pairs by +1 when it empties the source onto a pile that is not empty
and by -1 when the source keeps a card and the destination was empty; between two
tableaux it takes the pair broken on the source off the unsorted pairs, if it was
unsorted, and adds the pair made on the destination, if that is unsorted. -/
theorem Baize.PercentComplete_share_move (r : CompareReasons) (env : Env) (b : Baize)
    (c : Card) (src dst : Nat) (sp dp : Pile) (S T : List Card)
    (henv : ∀ p, p.kind = PileKind.Tableau → env.UnsortedPairs p = Easy.UnsortedPairs r p)
    (hsrc : b.pile? src = some sp) (hdst : b.pile? dst = some dp) (hne : src ≠ dst)
    (hcards : sp.cards = S ++ c :: T) (htail : b.tail = c :: T)
    (hown : c.Owner = some src) (hid : ∀ x ∈ S, Card.sameID c x = false)
    (_hmove : Easy.TailMoveError r b b.tail = some (true, none))
    (_happend : Easy.TailAppendError r dp b.tail = some (true, none)) :
    ∃ (b2 : Baize) (P U P2 U2 : Nat), b.moveTail c src dst = some b2 ∧
      Baize.PercentComplete.loop env b.piles (0, 0) = (P, U) ∧
      Baize.PercentComplete.loop env b2.piles (0, 0) = (P2, U2) ∧
      (0 < P → 0 < P2 → P < 2 ^ 53 → U < 2 ^ 53 → P2 < 2 ^ 53 → U2 < 2 ^ 53 →
        U2 * P ≤ U * P2 →
        ∃ p p2, Baize.PercentComplete env b = some p ∧
          Baize.PercentComplete env b2 = some p2 ∧ p ≤ p2) ∧
      P2 + (if S ≠ [] ∧ dp.cards = [] then 1 else 0)
        = P + (if S = [] ∧ dp.cards ≠ [] then 1 else 0) ∧
      (sp.kind = PileKind.Tableau → dp.kind = PileKind.Tableau →
        U2 + Easy.junction r S c = U + Easy.junction r dp.cards c) := by
  -- the board after the move
  have hmv := Baize.moveTail_eq b c src dst sp dp S T hsrc hdst hne hcards htail hown hid
  have hsp : b.piles[src]? = some sp := hsrc
  have hdp : b.piles[dst]? = some dp := hdst
  refine ⟨_, (b.piles.map (fun p : Pile => p.Len - 1)).sum,
    (b.piles.map env.UnsortedPairs).sum,
    (((b.piles.set src { sp with cards := S }).set dst
      { dp with cards := dp.cards ++ (c :: T).map (fun t => t.SetOwner (some dst)) }).map
        (fun p : Pile => p.Len - 1)).sum,
    (((b.piles.set src { sp with cards := S }).set dst
      { dp with cards := dp.cards ++ (c :: T).map (fun t => t.SetOwner (some dst)) }).map
        env.UnsortedPairs).sum, hmv, ?_, ?_, ?_, ?_, ?_⟩
  · rw [Baize.PercentComplete.loop_eq_sum]
    simp only [Nat.zero_add]
  · rw [Baize.PercentComplete.loop_eq_sum]
    simp only [Nat.zero_add]
  · intro hP hP2 hPb hUb hP2b hU2b hshare
    refine ⟨_, _, Baize.PercentComplete_eq_percent env b _ _ ?_ hP,
      Baize.PercentComplete_eq_percent env _ _ _ ?_ hP2,
      Baize.PercentComplete.percent_mono_share _ _ _ _ hP hP2 hPb hUb hP2b hU2b hshare⟩
    · rw [Baize.PercentComplete.loop_eq_sum]
      simp only [Nat.zero_add]
    · rw [Baize.PercentComplete.loop_eq_sum]
      simp only [Nat.zero_add]
  · -- the pairs
    have hpairs := List.sum_map_set_set_add (fun p : Pile => p.Len - 1) b.piles src dst sp dp
      { sp with cards := S }
      { dp with cards := dp.cards ++ (c :: T).map (fun t => t.SetOwner (some dst)) }
      hsp hdp hne
    have hlen_sp : sp.Len = S.length + (T.length + 1) := by
      simp only [Pile.Len, hcards, List.length_append, List.length_cons]
    have hlen_sp2 : ({ sp with cards := S } : Pile).Len = S.length := rfl
    have hlen_dp : dp.Len = dp.cards.length := rfl
    have hlen_dp2 : ({ dp with cards :=
        dp.cards ++ (c :: T).map (fun t => t.SetOwner (some dst)) } : Pile).Len
        = dp.cards.length + (T.length + 1) := by
      simp only [Pile.Len, List.length_append, List.length_map, List.length_cons]
    beta_reduce at hpairs
    rw [hlen_sp, hlen_dp2, hlen_sp2, hlen_dp] at hpairs
    by_cases hS : S = []
    · have hS0 : S.length = 0 := by rw [hS]; rfl
      rw [if_neg (show ¬ (S ≠ [] ∧ dp.cards = []) from fun h => h.1 hS)]
      by_cases hD : dp.cards = []
      · have hD0 : dp.cards.length = 0 := by rw [hD]; rfl
        rw [if_neg (show ¬ (S = [] ∧ dp.cards ≠ []) from fun h => h.2 hD)]
        omega
      · have hD0 : 0 < dp.cards.length := List.length_pos.2 hD
        rw [if_pos (show S = [] ∧ dp.cards ≠ [] from ⟨hS, hD⟩)]
        omega
    · have hS0 : 0 < S.length := List.length_pos.2 hS
      rw [if_neg (show ¬ (S = [] ∧ dp.cards ≠ []) from fun h => hS h.1)]
      by_cases hD : dp.cards = []
      · have hD0 : dp.cards.length = 0 := by rw [hD]; rfl
        rw [if_pos (show S ≠ [] ∧ dp.cards = [] from ⟨hS, hD⟩)]
        omega
      · have hD0 : 0 < dp.cards.length := List.length_pos.2 hD
        rw [if_neg (show ¬ (S ≠ [] ∧ dp.cards = []) from fun h => hD h.2)]
        omega
  · -- the unsorted pairs
    intro hsk hdk
    have hunsorted := List.sum_map_set_set_add env.UnsortedPairs b.piles src dst sp dp
      { sp with cards := S }
      { dp with cards := dp.cards ++ (c :: T).map (fun t => t.SetOwner (some dst)) }
      hsp hdp hne
    have hu_sp : env.UnsortedPairs sp
        = ((NewCardPairs S).map (Easy.unsortedPair r)).sum + Easy.junction r S c
          + ((NewCardPairs (c :: T)).map (Easy.unsortedPair r)).sum := by
      rw [henv sp hsk, Easy.UnsortedPairs_eq_sum, hcards, Easy.unsortedSum_append]
    have hu_sp2 : env.UnsortedPairs { sp with cards := S }
        = ((NewCardPairs S).map (Easy.unsortedPair r)).sum := by
      rw [henv { sp with cards := S } hsk, Easy.UnsortedPairs_eq_sum]
    have hu_dp : env.UnsortedPairs dp
        = ((NewCardPairs dp.cards).map (Easy.unsortedPair r)).sum := by
      rw [henv dp hdk, Easy.UnsortedPairs_eq_sum]
    have hu_dp2 : env.UnsortedPairs
        { dp with cards := dp.cards ++ (c :: T).map (fun t => t.SetOwner (some dst)) }
        = ((NewCardPairs dp.cards).map (Easy.unsortedPair r)).sum
          + Easy.junction r dp.cards c
          + ((NewCardPairs (c :: T)).map (Easy.unsortedPair r)).sum := by
      rw [henv { dp with cards := dp.cards ++ (c :: T).map (fun t => t.SetOwner (some dst)) }
        hdk, Easy.UnsortedPairs_eq_sum]
      show ((NewCardPairs (dp.cards ++ (c :: T).map (fun t => t.SetOwner (some dst)))).map
        (Easy.unsortedPair r)).sum = _
      rw [← Easy.unsortedSum_SetOwner r (some dst) (c :: T), List.map_cons,
        Easy.unsortedSum_append, Easy.junction_SetOwner]
    rw [hu_sp, hu_dp, hu_sp2, hu_dp2] at hunsorted
    omega

/-- Witness of C13 as amended: on a small Easy board the jack of diamonds, alone on
its tableau, moves onto the queen of diamonds; the totals go from (1, 1) to (2, 1)
and percent-complete from 0 to 50. -/
theorem Baize.PercentComplete_share_move_witness :
    (∃ (b2 : Baize) (P U P2 U2 : Nat),
      loneJackBoard.moveTail (faceUp 2 11 3) 3 4 = some b2 ∧
      Baize.PercentComplete.loop sampleEnv loneJackBoard.piles (0, 0) = (P, U) ∧
      Baize.PercentComplete.loop sampleEnv b2.piles (0, 0) = (P2, U2) ∧
      (0 < P → 0 < P2 → P < 2 ^ 53 → U < 2 ^ 53 → P2 < 2 ^ 53 → U2 < 2 ^ 53 →
        U2 * P ≤ U * P2 →
        ∃ p p2, Baize.PercentComplete sampleEnv loneJackBoard = some p ∧
          Baize.PercentComplete sampleEnv b2 = some p2 ∧ p ≤ p2) ∧
      P2 + (if ([] : List Card) ≠ [] ∧
          ((samplePile PileKind.Tableau [faceUp 2 12 4] 0).atSlot 1 1).cards = [] then 1 else 0)
        = P + (if ([] : List Card) = [] ∧
          ((samplePile PileKind.Tableau [faceUp 2 12 4] 0).atSlot 1 1).cards ≠ [] then 1
            else 0) ∧
      (((samplePile PileKind.Tableau [faceUp 2 11 3] 0).atSlot 0 1).kind = PileKind.Tableau →
        ((samplePile PileKind.Tableau [faceUp 2 12 4] 0).atSlot 1 1).kind = PileKind.Tableau →
        U2 + Easy.junction sampleReasons [] (faceUp 2 11 3)
          = U + Easy.junction sampleReasons
            ((samplePile PileKind.Tableau [faceUp 2 12 4] 0).atSlot 1 1).cards
            (faceUp 2 11 3))) ∧
    Baize.PercentComplete sampleEnv loneJackBoard = some 0 ∧
    Baize.PercentComplete sampleEnv
      ((loneJackBoard.moveTail (faceUp 2 11 3) 3 4).getD loneJackBoard) = some 50 :=
  ⟨Baize.PercentComplete_share_move sampleReasons sampleEnv loneJackBoard (faceUp 2 11 3)
      3 4 ((samplePile PileKind.Tableau [faceUp 2 11 3] 0).atSlot 0 1)
      ((samplePile PileKind.Tableau [faceUp 2 12 4] 0).atSlot 1 1) [] []
      (fun p hp => by simp only [sampleEnv, hp]) rfl rfl (by decide) rfl rfl rfl
      (by decide) (by decide) (by decide),
    by
      rw [Baize.PercentComplete_eq_percent _ _ 1 1 (by decide) (by decide),
        Baize.PercentComplete.percent_one_one],
    by
      rw [Baize.PercentComplete_eq_percent _ _ 2 1 (by decide) (by decide),
        Baize.PercentComplete.percent_two_one]⟩

/-! ## Collecting terminates -/

theorem Baize.terminalCards_le_total (b : Baize) : b.terminalCards ≤ b.total := by
  unfold Baize.terminalCards Baize.total
  induction b.piles with
  | nil => simp
  | cons p rest ih =>
    simp only [List.map_cons, List.sum_cons]
    have : p.terminalLen ≤ p.Len := by
      unfold Pile.terminalLen
      split
      · exact le_refl _
      · exact Nat.zero_le _
    omega

theorem Baize.CRC_eq_of_lens (b b1 : Baize) (h : b1.lens = b.lens) : b1.CRC = b.CRC := by
  unfold Baize.lens at h
  have h2 : b1.piles.map (fun p => p.Len % 256) = b.piles.map (fun p => p.Len % 256) := by
    have := congrArg (List.map (fun n => n % 256)) h
    simpa [List.map_map, Function.comp_def] using this
  simp only [Baize.CRC, h2]

theorem Baize.collectPass_measure (env : Env) (henv : env.collectsToTerminal) :
    ∀ (is : List Nat) (b : Baize), ∃ b1, Baize.collectPass env is b = some b1 ∧
      b1.piles.length = b.piles.length ∧ b1.total = b.total ∧
      b.terminalCards ≤ b1.terminalCards ∧
      (b1.lens ≠ b.lens → b.terminalCards < b1.terminalCards) := by
  intro is
  induction is with
  | nil =>
    intro b
    exact ⟨b, rfl, rfl, rfl, le_refl _, fun h => absurd rfl h⟩
  | cons i rest ih =>
    intro b
    obtain ⟨bm, hc, hlen, htot, hle, hstrict⟩ := henv b i
    obtain ⟨b1, hp, hlen1, htot1, hle1, hstrict1⟩ := ih bm
    refine ⟨b1, ?_, hlen1.trans hlen, htot1.trans htot, le_trans hle hle1, fun hne => ?_⟩
    · simp only [Baize.collectPass, hc, hp]
    · by_cases hm : bm.lens = b.lens
      · have : b1.lens ≠ bm.lens := fun h => hne (h.trans hm)
        exact lt_of_le_of_lt hle (hstrict1 this)
      · exact lt_of_lt_of_le (hstrict hm) hle1

theorem Baize.CollectAll.loop_terminates (env : Env) (henv : env.collectsToTerminal) :
    ∀ (fuel : Nat) (b : Baize), b.total - b.terminalCards < fuel →
      ∃ b2, Baize.CollectAll.loop env fuel b = some b2 := by
  intro fuel
  induction fuel with
  | zero => intro b h; exact absurd h (Nat.not_lt_zero _)
  | succ fuel ih =>
    intro b h
    obtain ⟨b1, hp, _, htot, hle, hstrict⟩ :=
      Baize.collectPass_measure env henv (List.range b.piles.length) b
    by_cases hcrc : b1.CRC = b.CRC
    · exact ⟨b1, by simp only [Baize.CollectAll.loop, hp, hcrc, if_true]⟩
    · have hlens : b1.lens ≠ b.lens := fun hl => hcrc (Baize.CRC_eq_of_lens b b1 hl)
      have hlt := hstrict hlens
      have hb1 := Baize.terminalCards_le_total b1
      obtain ⟨b2, h2⟩ := ih b1 (by omega)
      exact ⟨b2, by simp only [Baize.CollectAll.loop, hp, hcrc, if_false, h2]⟩

/-- C14: Baize.CollectAll terminates.  For pile subtypes whose Collect does what the
spec says (it returns, and its auto-moves take cards into Foundation or Discard
piles), on every board: a pass that changes the CRC leaves strictly more cards
in terminal piles; the loop ends with the first pass that leaves the CRC
unchanged; and with fuel for total card count plus one passes CollectAll
returns. -/
theorem Baize.CollectAll_terminates (s : ScriptInterface) (env : Env)
    (henv : env.collectsToTerminal) (b : Baize) :
    (∀ b1, Baize.collectPass env (List.range b.piles.length) b = some b1 →
      b1.CRC ≠ b.CRC → b.terminalCards < b1.terminalCards) ∧
    (∀ fuel b1, Baize.collectPass env (List.range b.piles.length) b = some b1 →
      b1.CRC = b.CRC → Baize.CollectAll.loop env (fuel + 1) b = some b1) ∧
    (∀ fuel, b.total + 1 ≤ fuel → ∃ b2, Baize.CollectAll s env fuel b = some b2) := by
  refine ⟨fun b1 hp hcrc => ?_, fun fuel b1 hp hcrc => ?_, fun fuel hfuel => ?_⟩
  · obtain ⟨b1x, hpx, _, _, _, hstrict⟩ :=
      Baize.collectPass_measure env henv (List.range b.piles.length) b
    rw [hp] at hpx
    obtain rfl : b1 = b1x := Option.some.inj hpx
    exact hstrict (fun hl => hcrc (Baize.CRC_eq_of_lens b b1 hl))
  · simp only [Baize.CollectAll.loop, hp, hcrc, if_true]
  · obtain ⟨b2, h2⟩ := Baize.CollectAll.loop_terminates env henv fuel b (by omega)
    exact ⟨if b2.CRC ≠ b.CRC then b2.AfterUserMove s env else b2,
      by simp only [Baize.CollectAll, h2]⟩

theorem Pile.Collect_collectsToTerminal (accept : Baize → Nat → List Card → Bool × GoError)
    (b : Baize) (i : Nat) :
    ∃ b1, Pile.Collect accept b i = some b1 ∧
      b1.piles.length = b.piles.length ∧ b1.total = b.total ∧
      b.terminalCards ≤ b1.terminalCards ∧
      (b1.lens ≠ b.lens → b.terminalCards < b1.terminalCards) := by
  have hsame : ∃ b1, some b = some b1 ∧
      b1.piles.length = b.piles.length ∧ b1.total = b.total ∧
      b.terminalCards ≤ b1.terminalCards ∧
      (b1.lens ≠ b.lens → b.terminalCards < b1.terminalCards) :=
    ⟨b, rfl, rfl, rfl, le_refl _, fun h => absurd rfl h⟩
  unfold Pile.Collect
  cases hp : b.pile? i with
  | none => exact hsame
  | some p =>
    simp only []
    by_cases hterm : p.kind.terminal = true
    · rw [if_pos hterm]; exact hsame
    · rw [if_neg hterm]
      cases htop : p.Peek with
      | none => exact hsame
      | some top =>
        simp only []
        cases hfind : (List.range b.piles.length).find? (fun j =>
            ((b.pile? j).map (fun q => q.kind.terminal)).getD false && (accept b j [top]).1) with
        | none => exact hsame
        | some j =>
          simp only []
          have hj := List.find?_some hfind
          simp only [Bool.and_eq_true] at hj
          obtain ⟨q, hq, hqterm⟩ : ∃ q, b.pile? j = some q ∧ q.kind.terminal = true := by
            cases hq : b.pile? j with
            | none => rw [hq] at hj; simp at hj
            | some q => rw [hq] at hj; exact ⟨q, rfl, by simpa using hj.1⟩
          have hne : i ≠ j := by
            rintro rfl
            rw [hp] at hq
            obtain rfl : p = q := Option.some.inj hq
            exact hterm hqterm
          have hmv := MoveCard_eq b i j p q top hp (by simpa [Pile.Peek] using htop) hq hne
          have hpne : p.cards ≠ [] := by
            intro h; simp [Pile.Peek, h] at htop
          have hplen : 0 < p.cards.length := List.length_pos.2 hpne
          have hL := List.sum_map_set_set_add Pile.Len b.piles i j p q
            { p with cards := p.cards.dropLast }
            { q with cards := q.cards ++ [top.SetOwner (some j)] } hp hq hne
          have hT := List.sum_map_set_set_add Pile.terminalLen b.piles i j p q
            { p with cards := p.cards.dropLast }
            { q with cards := q.cards ++ [top.SetOwner (some j)] } hp hq hne
          have h1 : ({ p with cards := p.cards.dropLast } : Pile).Len = p.Len - 1 := by
            simp [Pile.Len]
          have h2 : ({ q with cards := q.cards ++ [top.SetOwner (some j)] } : Pile).Len
              = q.Len + 1 := by
            simp [Pile.Len]
          have h3 : ({ p with cards := p.cards.dropLast } : Pile).terminalLen = 0 := by
            unfold Pile.terminalLen
            exact if_neg hterm
          have h4 : p.terminalLen = 0 := by
            unfold Pile.terminalLen
            exact if_neg hterm
          have h5 : ({ q with cards := q.cards ++ [top.SetOwner (some j)] } : Pile).terminalLen
              = q.Len + 1 := by
            unfold Pile.terminalLen
            rw [if_pos hqterm]
            exact h2
          have h6 : q.terminalLen = q.Len := by
            unfold Pile.terminalLen
            exact if_pos hqterm
          have h7 : p.Len = p.cards.length := rfl
          rw [h1, h2] at hL
          rw [h3, h4, h5, h6] at hT
          refine ⟨_, hmv, by simp [Baize.setPile], ?_, ?_, fun _ => ?_⟩
          · show (List.map Pile.Len ((b.piles.set i _).set j _)).sum = (List.map Pile.Len b.piles).sum
            omega
          · show (List.map Pile.terminalLen b.piles).sum
              ≤ (List.map Pile.terminalLen ((b.piles.set i _).set j _)).sum
            omega
          · show (List.map Pile.terminalLen b.piles).sum
              < (List.map Pile.terminalLen ((b.piles.set i _).set j _)).sum
            omega

theorem collectingEnv_collectsToTerminal : collectingEnv.collectsToTerminal :=
  fun b i => Pile.Collect_collectsToTerminal sampleEnv.CanAcceptTail b i

/-- Witness of C14: with the collect action of the spec, collecting all on the board
that needs three passes returns within total card count plus one passes, and its
first pass, which changes the CRC, takes cards into the foundation. -/
theorem Baize.CollectAll_terminates_witness :
    (collectBoard.terminalCards
      < ((Baize.collectPass collectingEnv (List.range collectBoard.piles.length)
          collectBoard).getD collectBoard).terminalCards) ∧
    (∃ b2, Baize.CollectAll (Easy.script collectingEnv 6) collectingEnv (collectBoard.total + 1)
      collectBoard = some b2) :=
  ⟨(Baize.CollectAll_terminates (Easy.script collectingEnv 6) collectingEnv
      collectingEnv_collectsToTerminal collectBoard).1 _ (by decide) (by decide),
   (Baize.CollectAll_terminates (Easy.script collectingEnv 6) collectingEnv
      collectingEnv_collectsToTerminal collectBoard).2.2 _ (le_refl _)⟩

/-! ## Aggregates over the piles -/

/-- C15: Baize.Complete answers true exactly when the Complete of every registered
pile is true, and Baize.Conformant exactly when the Conformant of every
registered pile is true; on a board without piles both are true.  Both only
return a boolean: no pile is changed. -/
theorem Baize.Complete_Conformant_all (env : Env) (b : Baize) :
    (b.Complete env = true ↔ ∀ p ∈ b.piles, env.Complete p = true) ∧
    (b.Conformant env = true ↔ ∀ p ∈ b.piles, env.Conformant p = true) ∧
    ({ b with piles := [] } : Baize).Complete env = true ∧
    ({ b with piles := [] } : Baize).Conformant env = true := by
  refine ⟨?_, ?_, rfl, rfl⟩
  · simp [Baize.Complete, List.all_eq_true]
  · simp [Baize.Conformant, List.all_eq_true]

/-- C16: Reserve.UnsortedPairs is 0 for an empty reserve and the length minus one
otherwise, so it depends on the number of cards only; it is 0 exactly when the
pile holds at most one card, which is exactly when Reserve.Conformant is
true. -/
theorem Reserve.UnsortedPairs_length (parent : Pile) :
    ((Reserve.UnsortedPairs parent : Int)
      = if parent.cards.length = 0 then 0 else (parent.cards.length : Int) - 1) ∧
    (Reserve.UnsortedPairs parent = 0 ↔ parent.cards.length ≤ 1) ∧
    (parent.cards.length ≤ 1 ↔ Reserve.Conformant parent = true) := by
  have hE : parent.Empty = true ↔ parent.cards.length = 0 := by
    simp [Pile.Empty, List.isEmpty_iff]
  refine ⟨?_, ?_, ?_⟩
  · unfold Reserve.UnsortedPairs
    by_cases h : parent.cards.length = 0
    · rw [if_pos (hE.2 h), if_pos h]; rfl
    · have hne : ¬ parent.Empty = true := fun he => h (hE.1 he)
      rw [if_neg hne, if_neg h]
      simp only [Pile.Len]
      omega
  · unfold Reserve.UnsortedPairs
    by_cases h : parent.cards.length = 0
    · rw [if_pos (hE.2 h)]
      exact ⟨fun _ => by omega, fun _ => rfl⟩
    · have hne : ¬ parent.Empty = true := fun he => h (hE.1 he)
      rw [if_neg hne]
      simp only [Pile.Len]
      omega
  · simp only [Reserve.Conformant, Pile.Len, decide_eq_true_eq]
    omega

/-! ## The Easy deal -/

theorem pilesWeight_set (f : Card → Nat) (ps : List Pile) (i : Nat) (a a2 : Pile)
    (hi : ps[i]? = some a) (h : (a2.cards.map f).sum = (a.cards.map f).sum) :
    pilesWeight f (ps.set i a2) = pilesWeight f ps := by
  have := List.sum_map_set_add (fun p : Pile => (p.cards.map f).sum) ps i a a2 hi
  beta_reduce at this
  unfold pilesWeight
  omega

theorem pilesWeight_set_set (f : Card → Nat) (ps : List Pile) (i j : Nat) (a b a2 b2 : Pile)
    (hi : ps[i]? = some a) (hj : ps[j]? = some b) (hne : i ≠ j)
    (h : (a2.cards.map f).sum + (b2.cards.map f).sum
      = (a.cards.map f).sum + (b.cards.map f).sum) :
    pilesWeight f ((ps.set i a2).set j b2) = pilesWeight f ps := by
  have := List.sum_map_set_set_add (fun p : Pile => (p.cards.map f).sum) ps i j a b a2 b2
    hi hj hne
  beta_reduce at this
  unfold pilesWeight
  omega

theorem MoveCard_spec (b : Baize) (s t : Nat) (sp tp : Pile) (c : Card)
    (hs : b.pile? s = some sp) (hc : sp.cards.getLast? = some c)
    (ht : b.pile? t = some tp) (hne : s ≠ t) :
    ∃ ps, MoveCard b s t = some { b with piles := ps } ∧ ps.length = b.piles.length ∧
      ps[s]? = some { sp with cards := sp.cards.dropLast } ∧
      ps[t]? = some { tp with cards := tp.cards ++ [c.SetOwner (some t)] } ∧
      (∀ j, j ≠ s → j ≠ t → ps[j]? = b.piles[j]?) ∧
      (∀ f : Card → Nat, (∀ x o, f (Card.SetOwner x o) = f x) →
        pilesWeight f ps = pilesWeight f b.piles) := by
  have hslt : s < b.piles.length := (List.getElem?_eq_some.1 hs).1
  have htlt : t < b.piles.length := (List.getElem?_eq_some.1 ht).1
  refine ⟨(b.piles.set s { sp with cards := sp.cards.dropLast }).set t
      { tp with cards := tp.cards ++ [c.SetOwner (some t)] },
    MoveCard_eq b s t sp tp c hs hc ht hne, by simp, ?_, ?_, fun j hjs hjt => ?_,
    fun f hf => ?_⟩
  · rw [List.getElem?_set_ne (Ne.symm hne)]
    simp [hslt]
  · simp [htlt]
  · rw [List.getElem?_set_ne (Ne.symm hjt), List.getElem?_set_ne (Ne.symm hjs)]
  · apply pilesWeight_set_set f b.piles s t sp tp _ _ hs ht hne
    have hsplit : sp.cards.dropLast ++ [c] = sp.cards := List.dropLast_append_getLast? c hc
    have h1 : (sp.cards.map f).sum = (sp.cards.dropLast.map f).sum + f c := by
      conv_lhs => rw [← hsplit]
      simp
    simp only [List.map_append, List.sum_append, List.map_cons, List.map_nil, List.sum_cons,
      List.sum_nil, hf]
    omega

theorem Baize.flipDownTop_spec (b : Baize) (t : Nat) (tp : Pile) (c : Card)
    (ht : b.pile? t = some tp) (hc : tp.cards.getLast? = some c) :
    ∃ ps, b.flipDownTop t = some { b with piles := ps } ∧ ps.length = b.piles.length ∧
      ps[t]? = some { tp with cards := tp.cards.dropLast ++ [c.FlipDown] } ∧
      (∀ j, j ≠ t → ps[j]? = b.piles[j]?) ∧
      (∀ f : Card → Nat, (∀ x, f (Card.FlipDown x) = f x) →
        pilesWeight f ps = pilesWeight f b.piles) := by
  have htlt : t < b.piles.length := (List.getElem?_eq_some.1 ht).1
  refine ⟨b.piles.set t { tp with cards := tp.cards.dropLast ++ [c.FlipDown] }, ?_, by simp,
    by simp [htlt], fun j hj => List.getElem?_set_ne (Ne.symm hj), fun f hf => ?_⟩
  · simp only [Baize.flipDownTop, ht, hc]
    rfl
  · apply pilesWeight_set f b.piles t tp _ ht
    have hsplit : tp.cards.dropLast ++ [c] = tp.cards := List.dropLast_append_getLast? c hc
    conv_rhs => rw [← hsplit]
    simp [hf]

theorem Card.prone_FlipDown (c : Card) : c.FlipDown.prone = true := by
  unfold Card.FlipDown Card.Prone
  cases h : c.prone <;> simp [h]

theorem Easy.StartGame.deal_spec (b : Baize) (s t : Nat) (sp tp : Pile) (rest : List Card)
    (c3 c2 c1 : Card) (hstock : b.stock = some s) (hs : b.pile? s = some sp)
    (hcards : sp.cards = rest ++ [c3, c2, c1]) (ht : b.pile? t = some tp) (hne : s ≠ t) :
    ∃ ps, Easy.StartGame.deal b t = some { b with piles := ps } ∧
      ps.length = b.piles.length ∧
      ps[s]? = some { sp with cards := rest } ∧
      ps[t]? = some { tp with cards := tp.cards ++
        [(c1.SetOwner (some t)).FlipDown, (c2.SetOwner (some t)).FlipDown,
          c3.SetOwner (some t)] } ∧
      (∀ j, j ≠ s → j ≠ t → ps[j]? = b.piles[j]?) ∧
      (∀ f : Card → Nat, (∀ x o, f (Card.SetOwner x o) = f x) →
        (∀ x, f (Card.FlipDown x) = f x) → pilesWeight f ps = pilesWeight f b.piles) := by
  have hnet : t ≠ s := Ne.symm hne
  -- first card
  have hl1 : sp.cards.getLast? = some c1 := by
    rw [hcards, show rest ++ [c3, c2, c1] = (rest ++ [c3, c2]) ++ [c1] by simp]
    exact List.getLast?_concat _
  have hd1 : sp.cards.dropLast = rest ++ [c3, c2] := by
    rw [hcards, show rest ++ [c3, c2, c1] = (rest ++ [c3, c2]) ++ [c1] by simp]
    exact List.dropLast_concat
  obtain ⟨ps1, hm1, hlen1, hs1, ht1, ho1, hw1⟩ := MoveCard_spec b s t sp tp c1 hs hl1 ht hne
  rw [hd1] at hs1
  obtain ⟨ps2, hf2, hlen2, ht2, ho2, hw2⟩ :=
    Baize.flipDownTop_spec { b with piles := ps1 } t _ (c1.SetOwner (some t)) ht1
      (List.getLast?_concat _)
  have hs2 : ps2[s]? = some { sp with cards := rest ++ [c3, c2] } := by
    rw [ho2 s hne]; exact hs1
  have ht2b : ps2[t]? = some { tp with cards := tp.cards ++ [(c1.SetOwner (some t)).FlipDown] } := by
    rw [ht2]; simp
  -- second card
  have hl2 : (rest ++ [c3, c2]).getLast? = some c2 := by
    rw [show rest ++ [c3, c2] = (rest ++ [c3]) ++ [c2] by simp]
    exact List.getLast?_concat _
  have hd2 : (rest ++ [c3, c2]).dropLast = rest ++ [c3] := by
    rw [show rest ++ [c3, c2] = (rest ++ [c3]) ++ [c2] by simp]
    exact List.dropLast_concat
  obtain ⟨ps3, hm3, hlen3, hs3, ht3, ho3, hw3⟩ :=
    MoveCard_spec { b with piles := ps2 } s t _ _ c2 hs2 hl2 ht2b hne
  simp only [hd2] at hs3
  obtain ⟨ps4, hf4, hlen4, ht4, ho4, hw4⟩ :=
    Baize.flipDownTop_spec { b with piles := ps3 } t _ (c2.SetOwner (some t)) ht3
      (List.getLast?_concat _)
  have hs4 : ps4[s]? = some { sp with cards := rest ++ [c3] } := by
    rw [ho4 s hne]; exact hs3
  have ht4b : ps4[t]? = some { tp with cards := tp.cards ++
      [(c1.SetOwner (some t)).FlipDown, (c2.SetOwner (some t)).FlipDown] } := by
    rw [ht4]; simp
  -- third card
  obtain ⟨ps5, hm5, hlen5, hs5, ht5, ho5, hw5⟩ :=
    MoveCard_spec { b with piles := ps4 } s t _ _ c3 hs4 (List.getLast?_concat _) ht4b hne
  refine ⟨ps5, ?_, ?_, ?_, ?_, fun j hjs hjt => ?_, fun f hf1 hf2 => ?_⟩
  · have hdeal : Easy.StartGame.deal b t
        = match MoveCard b s t with
          | none => none
          | some b1 =>
            match b1.flipDownTop t with
            | none => none
            | some b2 =>
              match MoveCard b2 s t with
              | none => none
              | some b3 =>
                match b3.flipDownTop t with
                | none => none
                | some b4 => MoveCard b4 s t := by
      unfold Easy.StartGame.deal
      rw [hstock]
    rw [hdeal]
    simp only [hm1, hf2, hm3, hf4]
    exact hm5
  · rw [hlen5, hlen4, hlen3, hlen2, hlen1]
  · rw [hs5]; simp
  · rw [ht5]; simp
  · rw [ho5 j hjs hjt, ho4 j hjt, ho3 j hjs hjt, ho2 j hjt, ho1 j hjs hjt]
  · rw [hw5 f hf1, hw4 f hf2, hw3 f hf1, hw2 f hf2, hw1 f hf1]

theorem List.exists_three_suffix {α : Type} (l : List α) (h : 3 ≤ l.length) :
    ∃ rest c3 c2 c1, l = rest ++ [c3, c2, c1] ∧ rest = l.take (l.length - 3) := by
  rcases List.eq_nil_or_concat l with h1 | ⟨l1, c1, h1⟩
  · rw [h1] at h; simp at h
  rw [List.concat_eq_append] at h1
  have hl1 : 2 ≤ l1.length := by rw [h1] at h; simp at h; omega
  rcases List.eq_nil_or_concat l1 with h2 | ⟨l2, c2, h2⟩
  · rw [h2] at hl1; simp at hl1
  rw [List.concat_eq_append] at h2
  have hl2 : 1 ≤ l2.length := by rw [h2] at hl1; simp at hl1; omega
  rcases List.eq_nil_or_concat l2 with h3 | ⟨l3, c3, h3⟩
  · rw [h3] at hl2; simp at hl2
  rw [List.concat_eq_append] at h3
  have hl : l = l3 ++ [c3, c2, c1] := by rw [h1, h2, h3]; simp
  refine ⟨l3, c3, c2, c1, hl, ?_⟩
  rw [hl]
  simp

theorem Easy.StartGame.loop_deals (s : Nat) :
    ∀ (ts : List Nat) (b : Baize) (sp : Pile), b.stock = some s → b.pile? s = some sp →
      (∀ t ∈ ts, t ≠ s ∧ t < b.piles.length) → ts.Nodup → 3 * ts.length ≤ sp.cards.length →
      ∃ ps, Easy.StartGame.loop ts b = some { b with piles := ps } ∧
        ps.length = b.piles.length ∧
        ps[s]? = some { sp with cards := sp.cards.take (sp.cards.length - 3 * ts.length) } ∧
        (∀ t ∈ ts, ∀ tp, b.piles[t]? = some tp →
          ∃ c1 c2 c3, ps[t]? = some { tp with cards := tp.cards ++ [c1, c2, c3] } ∧
            c1.prone = true ∧ c2.prone = true) ∧
        (∀ j, j ≠ s → j ∉ ts → ps[j]? = b.piles[j]?) ∧
        (∀ f : Card → Nat, (∀ x o, f (Card.SetOwner x o) = f x) →
          (∀ x, f (Card.FlipDown x) = f x) → pilesWeight f ps = pilesWeight f b.piles) := by
  intro ts
  induction ts with
  | nil =>
    intro b sp _ hs _ _ _
    refine ⟨b.piles, rfl, rfl, ?_, fun t ht => absurd ht (List.not_mem_nil t),
      fun _ _ _ => rfl, fun _ _ _ => rfl⟩
    have : sp = { sp with cards := sp.cards.take (sp.cards.length - 3 * ([] : List Nat).length) } := by
      cases sp; simp
    rw [← this]; exact hs
  | cons t rest ih =>
    intro b sp hstock hs hvalid hnodup hlen
    have ht := hvalid t (List.mem_cons_self t rest)
    obtain ⟨tp, htp⟩ : ∃ tp, b.pile? t = some tp :=
      ⟨b.piles[t], by simp [Baize.pile?, ht.2]⟩
    have h3 : 3 ≤ sp.cards.length := by simp only [List.length_cons] at hlen; omega
    obtain ⟨r, c3, c2, c1, hcards, hr⟩ := List.exists_three_suffix sp.cards h3
    obtain ⟨ps1, hdeal, hlen1, hs1, ht1, ho1, hw1⟩ :=
      Easy.StartGame.deal_spec b s t sp tp r c3 c2 c1 hstock hs hcards htp (Ne.symm ht.1)
    have hnd := List.nodup_cons.1 hnodup
    have hrlen : r.length = sp.cards.length - 3 := by
      rw [hr, List.length_take]; omega
    obtain ⟨ps, hloop, hlen2, hs2, htab2, ho2, hw2⟩ :=
      ih { b with piles := ps1 } { sp with cards := r } hstock hs1
        (fun t2 ht2 => ⟨(hvalid t2 (List.mem_cons_of_mem t ht2)).1, by
          show t2 < ps1.length
          rw [hlen1]; exact (hvalid t2 (List.mem_cons_of_mem t ht2)).2⟩)
        hnd.2 (by
          show 3 * rest.length ≤ r.length
          simp only [List.length_cons] at hlen; omega)
    refine ⟨ps, ?_, hlen2.trans hlen1, ?_, fun t2 ht2 tp2 htp2 => ?_, fun j hjs hj => ?_,
      fun f hf1 hf2 => (hw2 f hf1 hf2).trans (hw1 f hf1 hf2)⟩
    · simp only [Easy.StartGame.loop, hdeal]
      exact hloop
    · rw [hs2]
      congr 2
      show r.take (r.length - 3 * rest.length) = _
      rw [hr, List.take_take, List.length_take]
      simp only [List.length_cons]
      congr 1
      omega
    · rcases List.mem_cons.1 ht2 with rfl | hmem
      · have htp3 : tp2 = tp := by
          have : b.piles[t2]? = some tp := htp
          rw [this] at htp2
          exact (Option.some.inj htp2).symm
        subst htp3
        refine ⟨(c1.SetOwner (some t2)).FlipDown, (c2.SetOwner (some t2)).FlipDown,
          c3.SetOwner (some t2), ?_, Card.prone_FlipDown _, Card.prone_FlipDown _⟩
        rw [ho2 t2 ht.1 hnd.1]
        exact ht1
      · have hne2 : t2 ≠ t := fun h => hnd.1 (h ▸ hmem)
        have hs2' := (hvalid t2 ht2).1
        exact htab2 t2 hmem tp2 (by
          show ps1[t2]? = some tp2
          rw [ho1 t2 hs2' hne2]; exact htp2)
    · have hjt : j ≠ t := fun h => hj (h ▸ List.mem_cons_self t rest)
      have hjr : j ∉ rest := fun h => hj (List.mem_cons_of_mem t h)
      rw [ho2 j hjs hjr]
      exact ho1 j hjs hjt

theorem Baize.total_eq_pilesWeight (b : Baize) : b.total = pilesWeight (fun _ => 1) b.piles := by
  unfold Baize.total pilesWeight
  congr 1
  apply List.map_congr_left
  intro p _
  simp [Pile.Len]

theorem Baize.copies_eq_pilesWeight (b : Baize) (ident : Nat × Nat × Nat) :
    b.copies ident = pilesWeight (fun c => if c.ident = ident then 1 else 0) b.piles := by
  unfold Baize.copies pilesWeight
  congr 1
  apply List.map_congr_left
  intro p _
  induction p.cards with
  | nil => rfl
  | cons c cs ih =>
    simp only [List.map_cons, List.sum_cons, List.count_cons, ih]
    by_cases h : c.ident = ident
    · simp [h]; omega
    · simp [h]

theorem Easy.StartGame_eq (b b1 : Baize) (s : Nat) (sp : Pile)
    (hloop : Easy.StartGame.loop b.tableaux b = some b1) (hs : b1.stock = some s)
    (hp : b1.pile? s = some sp) (hk : sp.kind = PileKind.Stock) :
    Easy.StartGame b = some (b1.setPile s { sp with recycles := 32767 }) := by
  unfold Easy.StartGame
  rw [hloop]
  simp only [hs, hp]
  rw [if_pos hk]

theorem List.sum_indicator_of_nodup (deck : List Card) (i : Nat × Nat × Nat)
    (hnodup : (deck.map Card.ident).Nodup) (hc : i ∈ deck.map Card.ident) :
    (deck.map (fun x : Card => if x.ident = i then 1 else 0)).sum = 1 := by
  induction deck with
  | nil => simp at hc
  | cons d ds ih =>
    rw [List.map_cons, List.nodup_cons] at hnodup
    rw [List.map_cons, List.sum_cons]
    by_cases h : d.ident = i
    · rw [if_pos h]
      have hz : (ds.map (fun x : Card => if x.ident = i then 1 else 0)).sum = 0 := by
        apply List.sum_eq_zero
        intro n hn
        obtain ⟨x, hx, rfl⟩ := List.mem_map.mp hn
        have hxi : x.ident ≠ i := by
          intro hxe
          exact hnodup.1 (by rw [h, ← hxe]; exact List.mem_map_of_mem Card.ident hx)
        rw [if_neg hxi]
      rw [hz]
    · rw [if_neg h, Nat.zero_add]
      apply ih hnodup.2
      rw [List.map_cons, List.mem_cons] at hc
      rcases hc with hc | hc
      · exact absurd hc.symm h
      · exact hc

theorem Easy.StartGame_on_layout (deck : List Card) (b0 : Baize) (hlen : deck.length = 52)
    (hnodup : (deck.map Card.ident).Nodup)
    (hpiles : b0.piles
      = NewStock ⟨0, 0⟩ FanType.FAN_NONE deck 0 ::
        NewPile PileKind.Waste ⟨1, 0⟩ FanType.FAN_RIGHT3 ::
        ((List.range' 9 4).map (fun x : Nat =>
            NewPile PileKind.Foundation ⟨x, 0⟩ FanType.FAN_NONE) ++
          (List.range 13).map (fun x : Nat =>
            NewPile PileKind.Tableau ⟨x, 1⟩ FanType.FAN_DOWN)))
    (hstock : b0.stock = some 0)
    (htabs : b0.tableaux = [6, 7, 8, 9, 10, 11, 12, 13, 14, 15, 16, 17, 18]) :
    b0.lens = 52 :: List.replicate 18 0 ∧
    ∃ b1, Easy.StartGame b0 = some b1 ∧
      b1.piles.length = 19 ∧
      (∀ t, 6 ≤ t → t < 19 → ∃ p c1 c2 c3, b1.pile? t = some p ∧ p.kind = PileKind.Tableau ∧
        p.cards = [c1, c2, c3] ∧ c1.prone = true ∧ c2.prone = true) ∧
      (∃ sp, b1.pile? 0 = some sp ∧ sp.kind = PileKind.Stock ∧ sp.cards.length = 13 ∧
        sp.recycles = 32767) ∧
      (∃ wp, b1.pile? 1 = some wp ∧ wp.kind = PileKind.Waste ∧ wp.cards = []) ∧
      (∀ f, 2 ≤ f → f < 6 → ∃ fp, b1.pile? f = some fp ∧ fp.kind = PileKind.Foundation ∧
        fp.cards = []) ∧
      b1.total = 52 ∧ ∀ c ∈ deck, b1.copies c.ident = 1 := by
  have hweight : ∀ f : Card → Nat, (∀ x o, f (Card.SetOwner x o) = f x) →
      pilesWeight f b0.piles = (deck.map f).sum := by
    intro f hf
    rw [hpiles]
    simp [pilesWeight, NewStock, NewPile, List.range', List.range, List.range.loop, hf,
      Function.comp_def]
  constructor
  · rw [Baize.lens, hpiles]
    simp [NewStock, NewPile, Pile.Len, hlen, List.range', List.range, List.range.loop,
      List.replicate]
  have hsp : b0.pile? 0
      = some (NewStock ⟨0, 0⟩ FanType.FAN_NONE deck 0) := by
    rw [Baize.pile?, hpiles]
    rfl
  have hplen : b0.piles.length = 19 := by
    rw [hpiles]
    rfl
  have hsplen : (NewStock ⟨0, 0⟩ FanType.FAN_NONE deck 0).cards.length = 52 := by
    simp [NewStock, hlen]
  obtain ⟨ps, hloop, hlen2, hs2, htab, hoth, hw⟩ :=
    Easy.StartGame.loop_deals 0 b0.tableaux
      b0 (NewStock ⟨0, 0⟩ FanType.FAN_NONE deck 0) hstock hsp
      (by
        rw [htabs, hplen]
        intro t ht
        simp only [List.mem_cons, List.mem_singleton, List.not_mem_nil, or_false] at ht
        omega)
      (by rw [htabs]; decide)
      (by rw [htabs, hsplen]; decide)
  rw [htabs, hsplen] at hs2
  have hslt : 0 < ps.length := by rw [hlen2, hplen]; decide
  refine ⟨{ b0 with piles := (ps.set 0
      { NewStock ⟨0, 0⟩ FanType.FAN_NONE deck 0 with
        cards := (NewStock ⟨0, 0⟩ FanType.FAN_NONE deck 0).cards.take
          (52 - 3 * [6, 7, 8, 9, 10, 11, 12, 13, 14, 15, 16, 17, 18].length)
        recycles := 32767 }) }, ?_, ?_, fun t h6 h19 => ?_, ?_, ?_, fun f h2 h6 => ?_, ?_, ?_⟩
  · have h0 : ({ b0 with piles := ps } : Baize).pile? 0
        = some { NewStock ⟨0, 0⟩ FanType.FAN_NONE deck 0 with
          cards := (NewStock ⟨0, 0⟩ FanType.FAN_NONE deck 0).cards.take
            (52 - 3 * [6, 7, 8, 9, 10, 11, 12, 13, 14, 15, 16, 17, 18].length) } := hs2
    exact Easy.StartGame_eq b0 _ 0 _ hloop hstock h0 rfl
  · show (ps.set 0 _).length = 19
    rw [List.length_set, hlen2, hplen]
  · have hmem : t ∈ b0.tableaux := by
      rw [htabs]
      simp only [List.mem_cons, List.mem_singleton, List.not_mem_nil, or_false]
      omega
    obtain ⟨tp, htp, hk, hc⟩ : ∃ tp, b0.piles[t]? = some tp ∧
        tp.kind = PileKind.Tableau ∧ tp.cards = [] := by
      rw [hpiles]
      interval_cases t <;> exact ⟨_, rfl, rfl, rfl⟩
    obtain ⟨c1, c2, c3, hps, hp1, hp2⟩ := htab t hmem tp htp
    refine ⟨{ tp with cards := tp.cards ++ [c1, c2, c3] }, c1, c2, c3, ?_, hk, ?_, hp1, hp2⟩
    · show (ps.set 0 _)[t]? = _
      rw [List.getElem?_set_ne (by omega), hps]
    · show tp.cards ++ [c1, c2, c3] = _
      rw [hc]; rfl
  · refine ⟨{ NewStock ⟨0, 0⟩ FanType.FAN_NONE deck 0 with
        cards := (NewStock ⟨0, 0⟩ FanType.FAN_NONE deck 0).cards.take
          (52 - 3 * [6, 7, 8, 9, 10, 11, 12, 13, 14, 15, 16, 17, 18].length)
        recycles := 32767 }, ?_, rfl, ?_, rfl⟩
    · show (ps.set 0 _)[0]? = _
      simp [hslt]
    · simp [NewStock, hlen]
  · refine ⟨NewPile PileKind.Waste ⟨1, 0⟩ FanType.FAN_RIGHT3, ?_, rfl, rfl⟩
    show (ps.set 0 _)[1]? = _
    rw [List.getElem?_set_ne (by decide), hoth 1 (by decide) (by rw [htabs]; decide), hpiles]
    rfl
  · obtain ⟨fp, hfp, hk, hc⟩ : ∃ fp, b0.piles[f]? = some fp ∧
        fp.kind = PileKind.Foundation ∧ fp.cards = [] := by
      rw [hpiles]
      interval_cases f <;> exact ⟨_, rfl, rfl, rfl⟩
    refine ⟨fp, ?_, hk, hc⟩
    show (ps.set 0 _)[f]? = _
    rw [List.getElem?_set_ne (by omega), hoth f (by omega) (by
      rw [htabs]
      simp only [List.mem_cons, List.mem_singleton, List.not_mem_nil, or_false]
      omega)]
    exact hfp
  · rw [Baize.total_eq_pilesWeight]
    show pilesWeight (fun _ => 1) (ps.set 0 _) = 52
    rw [pilesWeight_set _ ps 0 _ _ hs2]
    · rw [hw (fun _ => 1) (fun _ _ => rfl) (fun _ => rfl), hweight (fun _ => 1) (fun _ _ => rfl)]
      simp [hlen]
    · rfl
  · intro c hc
    rw [Baize.copies_eq_pilesWeight]
    show pilesWeight (fun x => if x.ident = c.ident then 1 else 0) (ps.set 0 _) = 1
    have hfd : ∀ x : Card, x.FlipDown.ident = x.ident := by
      intro x
      unfold Card.FlipDown
      split <;> rfl
    rw [pilesWeight_set _ ps 0 _ _ hs2 (by rfl : (List.map
        (fun x : Card => if x.ident = c.ident then 1 else 0)
        ({ NewStock ⟨0, 0⟩ FanType.FAN_NONE deck 0 with
          cards := (NewStock ⟨0, 0⟩ FanType.FAN_NONE deck 0).cards.take
            (52 - 3 * [6, 7, 8, 9, 10, 11, 12, 13, 14, 15, 16, 17, 18].length)
          recycles := 32767 } : Pile).cards).sum = _),
      hw (fun x : Card => if x.ident = c.ident then 1 else 0) (fun _ _ => rfl)
        (fun x => by simp only [hfd]),
      hweight (fun x : Card => if x.ident = c.ident then 1 else 0) (fun _ _ => rfl)]
    exact List.sum_indicator_of_nodup deck c.ident hnodup (List.mem_map_of_mem Card.ident hc)

/-- C17: the Easy deal conserves cards.  From the layout that Easy.BuildPiles
builds out of a pack of 52 different cards (all 52 in the stock, every other pile
empty), Easy.StartGame returns a board of the same 19 piles with three cards on
each of the 13 tableaux, the lower two face down, 13 cards in the stock, whose
recycles are 32767, and nothing on the waste and the four foundations; the total
is 52 and every card of the pack lies in exactly one place. -/
theorem Easy.StartGame_conserves (deck : List Card) (b : Baize) (hlen : deck.length = 52)
    (hnodup : (deck.map Card.ident).Nodup) :
    (Easy.BuildPiles deck b.cleared).lens = 52 :: List.replicate 18 0 ∧
    ∃ b1, Easy.StartGame (Easy.BuildPiles deck b.cleared) = some b1 ∧
      b1.piles.length = 19 ∧
      (∀ t, 6 ≤ t → t < 19 → ∃ p c1 c2 c3, b1.pile? t = some p ∧ p.kind = PileKind.Tableau ∧
        p.cards = [c1, c2, c3] ∧ c1.prone = true ∧ c2.prone = true) ∧
      (∃ sp, b1.pile? 0 = some sp ∧ sp.kind = PileKind.Stock ∧ sp.cards.length = 13 ∧
        sp.recycles = 32767) ∧
      (∃ wp, b1.pile? 1 = some wp ∧ wp.kind = PileKind.Waste ∧ wp.cards = []) ∧
      (∀ f, 2 ≤ f → f < 6 → ∃ fp, b1.pile? f = some fp ∧ fp.kind = PileKind.Foundation ∧
        fp.cards = []) ∧
      b1.total = 52 ∧ ∀ c ∈ deck, b1.copies c.ident = 1 := by
  apply Easy.StartGame_on_layout deck _ hlen hnodup
  · simp [Easy.BuildPiles, Baize.cleared, List.range', List.range, List.range.loop,
      Easy.BuildPiles.foundation, Easy.BuildPiles.tableau]
  · rfl
  · simp [Easy.BuildPiles, Baize.cleared, List.range', List.range, List.range.loop,
      Easy.BuildPiles.foundation, Easy.BuildPiles.tableau]


theorem Easy.StartGame_conserves_witness :
    samplePack.length = 52 ∧ (samplePack.map Card.ident).Nodup ∧
    (Easy.BuildPiles samplePack emptyBoard.cleared).lens = 52 :: List.replicate 18 0 ∧
    ∃ b1, Easy.StartGame (Easy.BuildPiles samplePack emptyBoard.cleared) = some b1 ∧
      b1.piles.length = 19 ∧
      (∀ t, 6 ≤ t → t < 19 → ∃ p c1 c2 c3, b1.pile? t = some p ∧ p.kind = PileKind.Tableau ∧
        p.cards = [c1, c2, c3] ∧ c1.prone = true ∧ c2.prone = true) ∧
      (∃ sp, b1.pile? 0 = some sp ∧ sp.kind = PileKind.Stock ∧ sp.cards.length = 13 ∧
        sp.recycles = 32767) ∧
      (∃ wp, b1.pile? 1 = some wp ∧ wp.kind = PileKind.Waste ∧ wp.cards = []) ∧
      (∀ f, 2 ≤ f → f < 6 → ∃ fp, b1.pile? f = some fp ∧ fp.kind = PileKind.Foundation ∧
        fp.cards = []) ∧
      b1.total = 52 ∧ ∀ c ∈ samplePack, b1.copies c.ident = 1 :=
  ⟨by decide, by decide, Easy.StartGame_conserves samplePack emptyBoard (by decide) (by decide)⟩


theorem Easy.BuildPiles_layout (deck : List Card) (b : Baize) :
    (Easy.BuildPiles deck b.cleared).piles
      = NewStock ⟨0, 0⟩ FanType.FAN_NONE deck 0 ::
        NewPile PileKind.Waste ⟨1, 0⟩ FanType.FAN_RIGHT3 ::
        ((List.range' 9 4).map (fun x : Nat =>
            NewPile PileKind.Foundation ⟨x, 0⟩ FanType.FAN_NONE) ++
          (List.range 13).map (fun x : Nat =>
            NewPile PileKind.Tableau ⟨x, 1⟩ FanType.FAN_DOWN)) ∧
    (Easy.BuildPiles deck b.cleared).stock = some 0 ∧
    (Easy.BuildPiles deck b.cleared).waste = some 1 ∧
    (Easy.BuildPiles deck b.cleared).foundations = [2, 3, 4, 5] ∧
    (Easy.BuildPiles deck b.cleared).tableaux
      = [6, 7, 8, 9, 10, 11, 12, 13, 14, 15, 16, 17, 18] ∧
    (Easy.BuildPiles deck b.cleared).discards = [] := by
  refine ⟨?_, rfl, rfl, ?_, ?_, ?_⟩ <;>
  simp [Easy.BuildPiles, Baize.cleared, List.range', List.range, List.range.loop,
      Easy.BuildPiles.foundation, Easy.BuildPiles.tableau]

theorem Baize.BuildAuxPiles_layout (B : Baize) (deck : List Card)
    (hp : B.piles
      = NewStock ⟨0, 0⟩ FanType.FAN_NONE deck 0 ::
        NewPile PileKind.Waste ⟨1, 0⟩ FanType.FAN_RIGHT3 ::
        ((List.range' 9 4).map (fun x : Nat =>
            NewPile PileKind.Foundation ⟨x, 0⟩ FanType.FAN_NONE) ++
          (List.range 13).map (fun x : Nat =>
            NewPile PileKind.Tableau ⟨x, 1⟩ FanType.FAN_DOWN))) :
    B.BuildAuxPiles.piles = B.piles ∧
    B.BuildAuxPiles.stock = some 0 ∧
    B.BuildAuxPiles.waste = some 1 ∧
    B.BuildAuxPiles.foundations = B.foundations ++ [2, 3, 4, 5] ∧
    B.BuildAuxPiles.tableaux
      = B.tableaux ++ [6, 7, 8, 9, 10, 11, 12, 13, 14, 15, 16, 17, 18] ∧
    B.BuildAuxPiles.discards = B.discards := by
  unfold Baize.BuildAuxPiles
  rw [hp]
  simp only [List.range', List.range, List.range.loop, List.map, List.enum, List.enumFrom,
    List.cons_append, List.nil_append, List.foldl, Baize.BuildAuxPiles.step, NewStock, NewPile]
  simp only [List.append_assoc, List.cons_append, List.nil_append, and_self, and_true]
  rw [hp]
  simp [NewStock, NewPile, List.range', List.range, List.range.loop]


/-- C18: the derived lists are consistent with the pile list after a rebuild.  On
the board of Baize.NewVariant right after BuildAuxPiles, for any pack and any
board before, the 19 piles are the stock, the waste, 4 foundations and 13
tableaux; b.foundations holds exactly the pointers of the 4 foundations and
b.tableaux exactly those of the 13 tableaux, each once, b.discards is empty, and
b.stock and b.waste point at the stock and the waste of b.piles. -/
theorem Baize.NewVariant_lists_consistent (deck : List Card) (b : Baize) :
    (Baize.NewVariant.layout deck b).piles.map (fun p => p.kind)
      = [PileKind.Stock, PileKind.Waste] ++ List.replicate 4 PileKind.Foundation
        ++ List.replicate 13 PileKind.Tableau ∧
    (Baize.NewVariant.layout deck b).foundations = [2, 3, 4, 5] ∧
    (Baize.NewVariant.layout deck b).tableaux
      = [6, 7, 8, 9, 10, 11, 12, 13, 14, 15, 16, 17, 18] ∧
    (Baize.NewVariant.layout deck b).discards = [] ∧
    (Baize.NewVariant.layout deck b).stock = some 0 ∧
    (Baize.NewVariant.layout deck b).waste = some 1 ∧
    (Baize.NewVariant.layout deck b).foundations.Nodup ∧
    (Baize.NewVariant.layout deck b).tableaux.Nodup ∧
    (∀ i : Nat, i ∈ (Baize.NewVariant.layout deck b).foundations ↔
      ∃ p : Pile, (Baize.NewVariant.layout deck b).pile? i = some p ∧
        p.kind = PileKind.Foundation) ∧
    (∀ i : Nat, i ∈ (Baize.NewVariant.layout deck b).tableaux ↔
      ∃ p : Pile, (Baize.NewVariant.layout deck b).pile? i = some p ∧
        p.kind = PileKind.Tableau) ∧
    (∀ i : Nat, (Baize.NewVariant.layout deck b).stock = some i ↔
      ∃ p : Pile, (Baize.NewVariant.layout deck b).pile? i = some p ∧
        p.kind = PileKind.Stock) ∧
    (∀ i : Nat, (Baize.NewVariant.layout deck b).waste = some i ↔
      ∃ p : Pile, (Baize.NewVariant.layout deck b).pile? i = some p ∧
        p.kind = PileKind.Waste) := by
  obtain ⟨hp, _, _, _, _, _⟩ := Easy.BuildPiles_layout deck b
  have hp1 : (Easy.registerPiles deck b.cleared).piles
      = NewStock ⟨0, 0⟩ FanType.FAN_NONE deck 0 ::
        NewPile PileKind.Waste ⟨1, 0⟩ FanType.FAN_RIGHT3 ::
        ((List.range' 9 4).map (fun x : Nat =>
            NewPile PileKind.Foundation ⟨x, 0⟩ FanType.FAN_NONE) ++
          (List.range 13).map (fun x : Nat =>
            NewPile PileKind.Tableau ⟨x, 1⟩ FanType.FAN_DOWN)) := hp
  obtain ⟨hp2, hs2, hw2, hf2, ht2, hd2⟩ :=
    Baize.BuildAuxPiles_layout (Easy.registerPiles deck b.cleared) deck hp1
  have hf0 : (Easy.registerPiles deck b.cleared).foundations = [] := rfl
  have ht0 : (Easy.registerPiles deck b.cleared).tableaux = [] := rfl
  have hd0 : (Easy.registerPiles deck b.cleared).discards = [] := rfl
  rw [hf0, List.nil_append] at hf2
  rw [ht0, List.nil_append] at ht2
  rw [hd0] at hd2
  rw [hp1] at hp2
  have hkinds : (Baize.NewVariant.layout deck b).piles.map (fun p => p.kind)
      = [PileKind.Stock, PileKind.Waste] ++ List.replicate 4 PileKind.Foundation
        ++ List.replicate 13 PileKind.Tableau := by
    unfold Baize.NewVariant.layout
    rw [hp2]
    simp [NewStock, NewPile, List.range', List.range, List.range.loop]
  have hkind : ∀ (i : Nat) (k : PileKind),
      (∃ p : Pile, (Baize.NewVariant.layout deck b).pile? i = some p ∧ p.kind = k) ↔
      ([PileKind.Stock, PileKind.Waste] ++ List.replicate 4 PileKind.Foundation
        ++ List.replicate 13 PileKind.Tableau)[i]? = some k := by
    intro i k
    rw [← hkinds, List.getElem?_map, Baize.pile?]
    cases (Baize.NewVariant.layout deck b).piles[i]? with
    | none => simp
    | some p => simp
  unfold Baize.NewVariant.layout at hkinds hkind ⊢
  rw [hf2, ht2, hd2, hs2, hw2]
  refine ⟨hkinds, rfl, rfl, rfl, rfl, rfl, by decide, by decide, ?_, ?_, ?_, ?_⟩
  all_goals intro i
  all_goals rw [hkind]
  all_goals
    by_cases hi : i < 19
    · interval_cases i <;> simp
    · have h19 : 19 ≤ i := by omega
      have hnone : ([PileKind.Stock, PileKind.Waste] ++ List.replicate 4 PileKind.Foundation
          ++ List.replicate 13 PileKind.Tableau)[i]? = none :=
        List.getElem?_eq_none (by simpa using h19)
      rw [hnone]
      simp
      omega

/-- The rebuilt board can be dealt: from the board of Baize.NewVariant right after
BuildAuxPiles, with a pack of 52 different cards, Easy.StartGame returns a board
that still holds the 52 cards. -/
theorem Baize.NewVariant_layout_deals (deck : List Card) (b : Baize)
    (hlen : deck.length = 52) (hnodup : (deck.map Card.ident).Nodup) :
    ∃ b1, Easy.StartGame (Baize.NewVariant.layout deck b) = some b1 ∧ b1.total = 52 := by
  obtain ⟨hp, _, _, _, _, _⟩ := Easy.BuildPiles_layout deck b
  have hp1 : (Easy.registerPiles deck b.cleared).piles
      = NewStock ⟨0, 0⟩ FanType.FAN_NONE deck 0 ::
        NewPile PileKind.Waste ⟨1, 0⟩ FanType.FAN_RIGHT3 ::
        ((List.range' 9 4).map (fun x : Nat =>
            NewPile PileKind.Foundation ⟨x, 0⟩ FanType.FAN_NONE) ++
          (List.range 13).map (fun x : Nat =>
            NewPile PileKind.Tableau ⟨x, 1⟩ FanType.FAN_DOWN)) := hp
  obtain ⟨hp2, hs2, _, _, ht2, _⟩ :=
    Baize.BuildAuxPiles_layout (Easy.registerPiles deck b.cleared) deck hp1
  have ht0 : (Easy.registerPiles deck b.cleared).tableaux = [] := rfl
  rw [ht0, List.nil_append] at ht2
  rw [hp1] at hp2
  obtain ⟨_, b1, h1, _, _, _, _, _, htotal, _⟩ :=
    Easy.StartGame_on_layout deck (Baize.NewVariant.layout deck b) hlen hnodup hp2 hs2 ht2
  exact ⟨b1, h1, htotal⟩

theorem Baize.Mirror.bounds_spec (ps : List Pile) (lo hi : Int) :
    ((Baize.Mirror.bounds ps lo hi).1
        ∈ lo :: (ps.filter (fun p => decide (0 ≤ p.slot.X))).map (fun p => p.slot.X) ∧
      ∀ x ∈ lo :: (ps.filter (fun p => decide (0 ≤ p.slot.X))).map (fun p => p.slot.X),
        (Baize.Mirror.bounds ps lo hi).1 ≤ x) ∧
    ((Baize.Mirror.bounds ps lo hi).2
        ∈ hi :: (ps.filter (fun p => decide (0 ≤ p.slot.X))).map (fun p => p.slot.X) ∧
      ∀ x ∈ hi :: (ps.filter (fun p => decide (0 ≤ p.slot.X))).map (fun p => p.slot.X),
        x ≤ (Baize.Mirror.bounds ps lo hi).2) := by
  induction ps generalizing lo hi with
  | nil => simp [Baize.Mirror.bounds]
  | cons p rest ih =>
    unfold Baize.Mirror.bounds
    by_cases hx : p.slot.X < 0
    · rw [if_pos hx, List.filter_cons_of_neg (by simp [hx])]
      exact ih lo hi
    · rw [if_neg hx, List.filter_cons_of_pos (by simp; omega)]
      obtain ⟨⟨h1, h2⟩, h3, h4⟩ := ih (if p.slot.X < lo then p.slot.X else lo)
        (if p.slot.X > hi then p.slot.X else hi)
      simp only [List.map_cons, List.mem_cons, forall_eq_or_imp] at h1 h2 h3 h4 ⊢
      refine ⟨⟨?_, ?_, ?_, h2.2⟩, ?_, ?_, ?_, h4.2⟩
      · rcases h1 with h1 | h1
        · rw [h1]
          split <;> simp
        · exact Or.inr (Or.inr h1)
      · have := h2.1
        split at this <;> omega
      · have := h2.1
        split at this <;> omega
      · rcases h3 with h3 | h3
        · rw [h3]
          split <;> simp
        · exact Or.inr (Or.inr h3)
      · have := h4.1
        split at this <;> omega
      · have := h4.1
        split at this <;> omega

theorem Baize.Mirror_mirrorBoard :
    mirrorBoard.Mirror.piles.map (fun p => (p.slot, p.fanType))
      = [(⟨-5, 0⟩, FanType.FAN_LEFT), (⟨5, 0⟩, FanType.FAN_NONE),
         (⟨4, 0⟩, FanType.FAN_LEFT3), (⟨0, 0⟩, FanType.FAN_NONE),
         (⟨3, 1⟩, FanType.FAN_DOWN), (⟨2, 1⟩, FanType.FAN_RIGHT)] := by
  decide


/-- C19, as stated, fails: on a layout whose only pile is visible at slot X 40000,
the least and the greatest visible slot X are both 40000, so the claim puts the
pile at 40000 + 40000 - 40000 = 40000, but Baize.Mirror puts it at 32767, the
value its search for the least starts from. -/
theorem Baize.Mirror_not_least :
    ¬ ∀ (minX maxX : Int) (i : Nat) (p q : Pile), farBoard.leastVisibleX minX →
      farBoard.greatestVisibleX maxX → farBoard.piles[i]? = some p →
      farBoard.Mirror.piles[i]? = some q → 0 ≤ p.slot.X →
      q.slot.X = maxX + minX - p.slot.X := by
  intro h
  have h1 := h 40000 40000 0 _ _ (by unfold Baize.leastVisibleX; decide)
    (by unfold Baize.greatestVisibleX; decide) rfl rfl (by decide)
  revert h1
  decide

/-- C19, amended: Baize.Mirror reflects the layout horizontally.  With maxX the
greatest of 0 and the slot X of the visible piles (slot X >= 0), which is the
greatest visible slot X whenever a pile is visible, and minX the least of 32767 and
the slot X of the visible piles, which is the least visible slot X whenever that is
at most 32767, every visible pile's slot X becomes maxX + minX - X, its slot Y is
unchanged and its fan type is swapped FAN_LEFT <-> FAN_RIGHT and FAN_LEFT3 <->
FAN_RIGHT3, every other fan type unchanged; hidden piles are left entirely
unchanged, no pile's cards, kind, recycles or target change, and nothing but the
piles changes on the board. -/
theorem Baize.Mirror_reflects (b : Baize) :
    ∃ minX maxX : Int,
      (minX ∈ 32767 :: b.visibleXs ∧ ∀ x ∈ 32767 :: b.visibleXs, minX ≤ x) ∧
      (maxX ∈ 0 :: b.visibleXs ∧ ∀ x ∈ 0 :: b.visibleXs, x ≤ maxX) ∧
      (∀ m, b.leastVisibleX m → m ≤ 32767 → minX = m) ∧
      (∀ m, b.greatestVisibleX m → maxX = m) ∧
      b.Mirror.piles.length = b.piles.length ∧
      (∀ (i : Nat) (p : Pile), b.piles[i]? = some p → ∃ q : Pile,
        b.Mirror.piles[i]? = some q ∧
        q.cards = p.cards ∧ q.kind = p.kind ∧ q.recycles = p.recycles ∧
        q.target = p.target ∧ q.slot.Y = p.slot.Y ∧
        (p.slot.X < 0 → q = p) ∧
        (0 ≤ p.slot.X → q.slot.X = maxX + minX - p.slot.X ∧
          (p.fanType = FanType.FAN_LEFT → q.fanType = FanType.FAN_RIGHT) ∧
          (p.fanType = FanType.FAN_RIGHT → q.fanType = FanType.FAN_LEFT) ∧
          (p.fanType = FanType.FAN_LEFT3 → q.fanType = FanType.FAN_RIGHT3) ∧
          (p.fanType = FanType.FAN_RIGHT3 → q.fanType = FanType.FAN_LEFT3) ∧
          (p.fanType = FanType.FAN_NONE ∨ p.fanType = FanType.FAN_DOWN →
            q.fanType = p.fanType))) ∧
      { b.Mirror with piles := b.piles } = b := by
  obtain ⟨⟨h1, h2⟩, h3, h4⟩ := Baize.Mirror.bounds_spec b.piles 32767 0
  refine ⟨(Baize.Mirror.bounds b.piles 32767 0).1, (Baize.Mirror.bounds b.piles 32767 0).2,
    ⟨h1, h2⟩, ⟨h3, h4⟩, ?_, ?_, ?_, ?_, rfl⟩
  · intro m hm hle
    have ha := h2 m (List.mem_cons_of_mem _ hm.1)
    rcases List.mem_cons.mp h1 with h | h
    · rw [h] at ha ⊢
      omega
    · have hb := hm.2 _ h
      omega
  · intro m hm
    have ha := h4 m (List.mem_cons_of_mem _ hm.1)
    rcases List.mem_cons.mp h3 with h | h
    · have hpos : 0 ≤ m := by
        obtain ⟨p, hp, hpm⟩ := List.mem_map.mp hm.1
        have := (List.mem_filter.mp hp).2
        rw [← hpm]
        simpa using this
      rw [h] at ha ⊢
      omega
    · have hb := hm.2 _ h
      omega
  · simp [Baize.Mirror]
  · intro i p hp
    refine ⟨Baize.Mirror.flip (Baize.Mirror.bounds b.piles 32767 0).1
      (Baize.Mirror.bounds b.piles 32767 0).2 p, ?_, ?_⟩
    · simp [Baize.Mirror, hp]
    · unfold Baize.Mirror.flip
      by_cases hx : p.slot.X < 0
      · rw [if_pos hx]
        refine ⟨rfl, rfl, rfl, rfl, rfl, fun _ => rfl, fun h => absurd hx (by omega)⟩
      · rw [if_neg hx]
        refine ⟨rfl, rfl, rfl, rfl, rfl, fun h => absurd h hx, fun _ => ⟨?_, ?_⟩⟩
        · show _ - _ + _ = _
          omega
        · refine ⟨?_, ?_, ?_, ?_, ?_⟩ <;> intro h
          · simp [h]
          · simp [h]
          · simp [h]
          · simp [h]
          · rcases h with h | h <;> simp [h]


/-- C20, on the code: a stroke is bound to a card also when no tail could be made.
Where Baize.FindCardAt finds a card whose pile makes no tail of it (the else
branch of StartTailDrag), Baize.InputStart leaves the tail empty and still binds
the stroke to the card; the Tap that resolves the stroke then hands the empty tail
to Easy.TailTapped, whose tail[0] is out of range, so InputTap gives no board. -/
theorem Baize.InputStart_binds_without_tail (env : Env) (b : Baize) (x y : Int) (c : Card)
    (i : Nat) (hfind : b.FindCardAt env ⟨x, y⟩ = some c) (hown : c.Owner = some i)
    (hfail : env.MakeTail b i c = []) :
    Baize.InputStart env b none x y = some ({ b with tail := [] }, DraggedObject.Card c) ∧
    ∀ fuel, Baize.InputTap (Easy.script env fuel) env { b with tail := [] }
      (DraggedObject.Card c) = none := by
  constructor
  · have hmk : b.MakeTail env c = some (false, { b with tail := [] }) := by
      unfold Baize.MakeTail
      rw [hown]
      simp only [hfail]
      rfl
    have hst : b.StartTailDrag env c = some { b with tail := [] } := by
      unfold Baize.StartTailDrag
      rw [hmk]
    unfold Baize.InputStart
    simp only [hfind, hst]
    rfl
  · intro fuel
    rfl

theorem Baize.InputStart_binds_without_tail_witness :
    fanBoard.FindCardAt sampleEnv ⟨105, 10⟩ = some { faceUp 3 6 1 with pos := ⟨100, 0⟩ } ∧
    ({ faceUp 3 6 1 with pos := ⟨100, 0⟩ } : Card).Owner = some 1 ∧
    sampleEnv.MakeTail fanBoard 1 { faceUp 3 6 1 with pos := ⟨100, 0⟩ } = [] ∧
    Baize.InputStart sampleEnv fanBoard none 105 10
      = some ({ fanBoard with tail := [] },
          DraggedObject.Card { faceUp 3 6 1 with pos := ⟨100, 0⟩ }) ∧
    ∀ fuel, Baize.InputTap (Easy.script sampleEnv fuel) sampleEnv { fanBoard with tail := [] }
      (DraggedObject.Card { faceUp 3 6 1 with pos := ⟨100, 0⟩ }) = none :=
  ⟨by decide, rfl, by decide,
    Baize.InputStart_binds_without_tail sampleEnv fanBoard 105 10
      { faceUp 3 6 1 with pos := ⟨100, 0⟩ } 1 (by decide) rfl (by decide)⟩


theorem Baize.Mirror.flip_flip (lo hi : Int) (p : Pile)
    (h : 0 ≤ p.slot.X → 0 ≤ hi - p.slot.X + lo) :
    Baize.Mirror.flip lo hi (Baize.Mirror.flip lo hi p) = p := by
  obtain ⟨kind, ⟨X, Y⟩, fanType, cards, recycles, target⟩ := p
  by_cases hx : X < 0
  · simp [Baize.Mirror.flip, hx]
  · have h2 : ¬ hi - X + lo < 0 := by
      have := h (by simpa using hx)
      simp only at this
      omega
    have h3 : hi - (hi - X + lo) + lo = X := by omega
    cases fanType <;> simp [Baize.Mirror.flip, hx, h2, h3]

theorem Baize.Mirror.mem_visible_map (ps : List Pile) (lo hi y : Int)
    (h : ∀ p ∈ ps, 0 ≤ p.slot.X → 0 ≤ hi - p.slot.X + lo) :
    y ∈ ((ps.map (Baize.Mirror.flip lo hi)).filter (fun p => decide (0 ≤ p.slot.X))).map
        (fun p => p.slot.X) ↔
      ∃ x ∈ (ps.filter (fun p => decide (0 ≤ p.slot.X))).map (fun p => p.slot.X),
        y = hi - x + lo := by
  simp only [List.mem_map, List.mem_filter, decide_eq_true_eq]
  constructor
  · rintro ⟨q, ⟨⟨p, hp, rfl⟩, hq⟩, rfl⟩
    by_cases hx : p.slot.X < 0
    · exfalso
      simp only [Baize.Mirror.flip, if_pos hx] at hq
      omega
    · refine ⟨p.slot.X, ⟨p, ⟨hp, by omega⟩, rfl⟩, ?_⟩
      simp only [Baize.Mirror.flip, if_neg hx]
  · rintro ⟨x, ⟨p, ⟨hp, hv⟩, rfl⟩, rfl⟩
    have hx : ¬ p.slot.X < 0 := by omega
    refine ⟨Baize.Mirror.flip lo hi p, ⟨⟨p, hp, rfl⟩, ?_⟩, ?_⟩
    · simp only [Baize.Mirror.flip, if_neg hx]
      exact h p hp hv
    · simp only [Baize.Mirror.flip, if_neg hx]

theorem Baize.Mirror.bounds_unique (ps : List Pile) (lo hi : Int)
    (h1 : lo ∈ 32767 :: (ps.filter (fun p => decide (0 ≤ p.slot.X))).map (fun p => p.slot.X))
    (h2 : ∀ x ∈ 32767 :: (ps.filter (fun p => decide (0 ≤ p.slot.X))).map (fun p => p.slot.X),
      lo ≤ x)
    (h3 : hi ∈ 0 :: (ps.filter (fun p => decide (0 ≤ p.slot.X))).map (fun p => p.slot.X))
    (h4 : ∀ x ∈ 0 :: (ps.filter (fun p => decide (0 ≤ p.slot.X))).map (fun p => p.slot.X),
      x ≤ hi) :
    Baize.Mirror.bounds ps 32767 0 = (lo, hi) := by
  obtain ⟨⟨g1, g2⟩, g3, g4⟩ := Baize.Mirror.bounds_spec ps 32767 0
  have ha := h2 _ g1
  have hb := g2 _ h1
  have hc := h4 _ g3
  have hd := g4 _ h3
  exact Prod.ext (by simp only; omega) (by simp only; omega)


/-- C21, as stated, fails: on a layout whose only pile is visible at slot X 40000,
one Baize.Mirror does not keep the least visible slot X (it is 40000 before and
32767 after), and Mirror twice leaves the pile at slot X 32767, not at 40000. -/
theorem Baize.Mirror_twice_not_identity :
    farBoard.leastVisibleX 40000 ∧ ¬ farBoard.Mirror.leastVisibleX 40000 ∧
    ¬ ∀ (i : Nat) (p q : Pile), farBoard.piles[i]? = some p →
      farBoard.Mirror.Mirror.piles[i]? = some q →
      q.slot.X = p.slot.X ∧ q.slot.Y = p.slot.Y ∧ q.fanType = p.fanType := by
  refine ⟨by unfold Baize.leastVisibleX; decide, by unfold Baize.leastVisibleX; decide, ?_⟩
  intro h
  have h1 := (h 0 _ _ rfl rfl).1
  revert h1
  decide

/-- C21, amended: Baize.Mirror is an involution on every list of piles (any mix of
visible and hidden slots and of fan types) whose visible piles, if there are any,
include one with slot X at most 32767.  Applying Mirror twice gives the board
back, so every pile has its slot X, slot Y and fan type again, and one
application preserves the least and the greatest visible slot X. -/
theorem Baize.Mirror_involution (b : Baize)
    (h : b.visibleXs = [] ∨ ∃ x ∈ b.visibleXs, x ≤ 32767) :
    b.Mirror.Mirror = b ∧
    (∀ (i : Nat) (p : Pile), b.piles[i]? = some p → ∃ q : Pile,
      b.Mirror.Mirror.piles[i]? = some q ∧
      q.slot.X = p.slot.X ∧ q.slot.Y = p.slot.Y ∧ q.fanType = p.fanType) ∧
    (∀ m, b.leastVisibleX m → b.Mirror.leastVisibleX m) ∧
    (∀ m, b.greatestVisibleX m → b.Mirror.greatestVisibleX m) := by
  have key : b.Mirror.Mirror = b ∧
      (∀ m, b.leastVisibleX m → b.Mirror.leastVisibleX m) ∧
      (∀ m, b.greatestVisibleX m → b.Mirror.greatestVisibleX m) := by
    rcases h with h | ⟨x0, hx0, hle⟩
    · have hid : b.Mirror = b := by
        have hall : ∀ p ∈ b.piles, Baize.Mirror.flip (Baize.Mirror.bounds b.piles 32767 0).1
            (Baize.Mirror.bounds b.piles 32767 0).2 p = p := by
          intro p hp
          have hf : b.piles.filter (fun p => decide (0 ≤ p.slot.X)) = [] :=
            List.map_eq_nil_iff.mp h
          have hnv := List.filter_eq_nil_iff.mp hf p hp
          have hx : p.slot.X < 0 := by simpa using hnv
          simp only [Baize.Mirror.flip, if_pos hx]
        have hmap : b.piles.map (Baize.Mirror.flip (Baize.Mirror.bounds b.piles 32767 0).1
            (Baize.Mirror.bounds b.piles 32767 0).2) = b.piles := by
          conv_rhs => rw [← List.map_id b.piles]
          exact List.map_congr_left hall
        unfold Baize.Mirror
        simp only [hmap]
      rw [hid, hid]
      exact ⟨rfl, fun _ hm => hm, fun _ hm => hm⟩
    · obtain ⟨⟨h1, h2⟩, h3, h4⟩ := Baize.Mirror.bounds_spec b.piles 32767 0
      generalize (Baize.Mirror.bounds b.piles 32767 0).1 = lo at h1 h2
      generalize (Baize.Mirror.bounds b.piles 32767 0).2 = hi at h3 h4
      have hxs : b.visibleXs
          = (b.piles.filter (fun p => decide (0 ≤ p.slot.X))).map (fun p => p.slot.X) := rfl
      rw [← hxs] at h1 h2 h3 h4
      have hnn : ∀ x ∈ b.visibleXs, 0 ≤ x := by
        intro x hx
        rw [hxs] at hx
        obtain ⟨p, hp, rfl⟩ := List.mem_map.mp hx
        simpa using (List.mem_filter.mp hp).2
      have hx0n := hnn x0 hx0
      have hlo0 := h2 x0 (List.mem_cons_of_mem _ hx0)
      have hhi0 := h4 x0 (List.mem_cons_of_mem _ hx0)
      have hlo : lo ∈ b.visibleXs := by
        rcases List.mem_cons.mp h1 with e | e
        · have : x0 = lo := by omega
          rw [← this]
          exact hx0
        · exact e
      have hhi : hi ∈ b.visibleXs := by
        rcases List.mem_cons.mp h3 with e | e
        · have : x0 = hi := by omega
          rw [← this]
          exact hx0
        · exact e
      have hlon := hnn lo hlo
      have hvis : ∀ p ∈ b.piles, 0 ≤ p.slot.X → 0 ≤ hi - p.slot.X + lo := by
        intro p hp hv
        have hm : p.slot.X ∈ b.visibleXs := by
          rw [hxs]
          exact List.mem_map.mpr ⟨p, List.mem_filter.mpr ⟨hp, by simpa using hv⟩, rfl⟩
        have := h4 _ (List.mem_cons_of_mem _ hm)
        omega
      have hmem := fun y => Baize.Mirror.mem_visible_map b.piles lo hi y hvis
      rw [← hxs] at hmem
      have hbm : Baize.Mirror.bounds (b.piles.map (Baize.Mirror.flip lo hi)) 32767 0
          = (lo, hi) := by
        apply Baize.Mirror.bounds_unique
        · exact List.mem_cons_of_mem _ ((hmem lo).mpr ⟨hi, hhi, by omega⟩)
        · intro y hy
          rcases List.mem_cons.mp hy with e | e
          · have := h2 32767 (List.mem_cons_self _ _)
            omega
          · obtain ⟨x, hx, rfl⟩ := (hmem y).mp e
            have := h4 x (List.mem_cons_of_mem _ hx)
            omega
        · exact List.mem_cons_of_mem _ ((hmem hi).mpr ⟨lo, hlo, by omega⟩)
        · intro y hy
          rcases List.mem_cons.mp hy with e | e
          · have := hnn hi hhi
            omega
          · obtain ⟨x, hx, rfl⟩ := (hmem y).mp e
            have := h2 x (List.mem_cons_of_mem _ hx)
            omega
      have hM : b.Mirror = { b with piles := b.piles.map (Baize.Mirror.flip lo hi) } := by
        have e := Baize.Mirror.bounds_unique b.piles lo hi h1 h2 h3 h4
        unfold Baize.Mirror
        simp only [e]
      have hvx : ∀ y, y ∈ b.Mirror.visibleXs ↔ ∃ x ∈ b.visibleXs, y = hi - x + lo := by
        intro y
        rw [hM]
        exact hmem y
      refine ⟨?_, ?_, ?_⟩
      · rw [hM]
        unfold Baize.Mirror
        simp only [hbm, List.map_map]
        have hall : ∀ p ∈ b.piles,
            (Baize.Mirror.flip lo hi ∘ Baize.Mirror.flip lo hi) p = p :=
          fun p hp => Baize.Mirror.flip_flip lo hi p (hvis p hp)
        have hmap : b.piles.map (Baize.Mirror.flip lo hi ∘ Baize.Mirror.flip lo hi)
            = b.piles := by
          conv_rhs => rw [← List.map_id b.piles]
          exact List.map_congr_left hall
        rw [hmap]
      · intro m hm
        have hml : m = lo := by
          have a := hm.2 lo hlo
          have c := h2 m (List.mem_cons_of_mem _ hm.1)
          omega
        rw [hml]
        refine ⟨(hvx lo).mpr ⟨hi, hhi, by omega⟩, fun y hy => ?_⟩
        obtain ⟨x, hx, rfl⟩ := (hvx y).mp hy
        have := h4 x (List.mem_cons_of_mem _ hx)
        omega
      · intro m hm
        have hmh : m = hi := by
          have a := hm.2 hi hhi
          have c := h4 m (List.mem_cons_of_mem _ hm.1)
          omega
        rw [hmh]
        refine ⟨(hvx hi).mpr ⟨lo, hlo, by omega⟩, fun y hy => ?_⟩
        obtain ⟨x, hx, rfl⟩ := (hvx y).mp hy
        have := h2 x (List.mem_cons_of_mem _ hx)
        omega
  refine ⟨key.1, fun i p hp => ⟨p, ?_, rfl, rfl, rfl⟩, key.2.1, key.2.2⟩
  rw [key.1]
  exact hp

theorem Baize.Mirror_involution_witness :
    (mirrorBoard.visibleXs = [] ∨ ∃ x ∈ mirrorBoard.visibleXs, x ≤ 32767) ∧
    mirrorBoard.Mirror.Mirror = mirrorBoard ∧
    (∀ (i : Nat) (p : Pile), mirrorBoard.piles[i]? = some p → ∃ q : Pile,
      mirrorBoard.Mirror.Mirror.piles[i]? = some q ∧
      q.slot.X = p.slot.X ∧ q.slot.Y = p.slot.Y ∧ q.fanType = p.fanType) ∧
    (∀ m, mirrorBoard.leastVisibleX m → mirrorBoard.Mirror.leastVisibleX m) ∧
    (∀ m, mirrorBoard.greatestVisibleX m → mirrorBoard.Mirror.greatestVisibleX m) :=
  ⟨Or.inr ⟨0, by decide, by decide⟩,
    Baize.Mirror_involution mirrorBoard (Or.inr ⟨0, by decide, by decide⟩)⟩

end Sol
